import Mathlib

/-!
WebVTT text demuxer (`modules/demux/webvtt.c`)

A shallow embedding of the cue store, the start-time seek index, the ISO 14496-30
box encoder and the pull loop of the WebVTT demuxer, followed by the properties
proved about them.

Conventions of the embedding.

* `mtime_t` (a C `int64_t`) is `Int`.  The two operations on timestamps whose exact
  result can leave the range of `int64_t` for timestamps that are themselves in range and
  not extreme, the difference of two starts in `cue_Compare` and the clock increment of
  `Demux`, narrow their result with `to_int64`, the two's complement wrap-around that
  the compiled code computes.  The remaining ones are exact: `stop - start` is computed
  only when `0 <= start <= stop`, and `VLC_TS_0 + start`, `VLC_TS_0 + i_barrier` and
  `arg - VLC_TS_0` leave the range only at the extreme value of their operand.
* `size_t` is `Nat`.  The only narrowing conversion of the source, the `uint32_t`
  parameter of `SetDWBE`, is explicit (`% 2 ^ 32`).
* A `char *` string is the list of bytes found at the pointer; the C string it denotes
  stops before the first NUL byte (`strlen`).
* A pointer into the cue array is the index of the slot it points to; `NULL` is `none`.
* The cue array `p_array` is the list of its `i_count` slots in use, so `i_count` is the
  length of that list.  `ParserGetCueHandler` is the only writer of `p_array` and
  `i_count`, and it leaves `p_array != NULL` exactly when `i_count > 0`: the `NULL` array
  is the empty list.
-/

namespace WebVTT

/-! ## Data model -/

/-- Modelled from the spec: the cue record `webvtt_cue_t` is declared in
`codec/webvtt/webvtt.h`, which is not part of the sources at hand.  Spec section 3:
`start`, `stop` signed timestamps in microseconds, optional `id`, optional `attrs`,
non-optional `text`. -/
structure webvtt_cue_t where
  i_start : Int
  i_stop : Int
  psz_id : Option (List Nat)
  psz_text : List Nat
  psz_attrs : Option (List Nat)
deriving DecidableEq, Repr

/-- The anonymous struct `cues` of `demux_sys_t`. -/
structure cue_array where
  p_array : List webvtt_cue_t
  i_alloc : Nat
  i_current : Nat
deriving DecidableEq, Repr

/-- Number of slots in use, the field `cues.i_count`. -/
def cue_array.i_count (c : cue_array) : Nat := c.p_array.length

/-- The demuxer state `struct demux_sys_t` (the opaque handle `es` is left out; a header
buffer `p_data`/`i_data` is the list of its bytes). -/
structure demux_sys_t where
  b_slave : Bool
  b_first_time : Bool
  i_next_block_flags : Nat
  i_next_demux_time : Int
  i_length : Int
  regions_headers : List Nat
  styles_headers : List Nat
  cues : cue_array
deriving DecidableEq, Repr

/-- The search key `struct cue_searchkey`: a cue holding the time looked for and a
pointer to the last array element the comparator was shown. -/
structure cue_searchkey where
  cue : webvtt_cue_t
  p_last : Option Nat
deriving DecidableEq, Repr

/-! ## Seek index -/

/-- The largest `int64_t`. -/
def INT64_MAX : Int := 9223372036854775807

/-- The `int64_t` a signed 64-bit operation leaves when its exact result is `x`: `x`
itself when it is in range, its two's complement wrap-around into `[-2 ^ 63, 2 ^ 63)`
otherwise, which is what the compiled code computes. -/
def to_int64 (x : Int) : Int :=
  (x + 9223372036854775808) % 18446744073709551616 - 9223372036854775808

/-- `cue_Compare`: the `int64_t` difference `diff` of the two start times, then
`diff / |diff|` (C division truncating toward zero), which is the sign of the exact
difference as long as that difference fits. -/
def cue_Compare (a b : webvtt_cue_t) : Int :=
  let diff := to_int64 (a.i_start - b.i_start)
  if diff ≠ 0 then Int.tdiv diff (if diff > 0 then diff else to_int64 (-diff)) else 0

/-- `cue_Bsearch_Compare`: remembers the element it is shown in `p_last`, then compares
the key's cue with it.  `other` is the pointer (slot index), `cue` the slot's content. -/
def cue_Bsearch_Compare (key : cue_searchkey) (other : Nat) (cue : webvtt_cue_t) :
    cue_searchkey × Int :=
  let key := { key with p_last := some other }
  (key, cue_Compare key.cue cue)

/-- The loop of the C library's `bsearch`, as the standard halving search over the index
window `[l, u)`: probe the middle element, go left on a negative comparison, right on a
positive one, stop on zero.  The comparator may update the key it is given.  `fuel`
bounds the number of probes. -/
def bsearch_loop {κ α : Type} (compar : κ → Nat → α → κ × Int) (base : List α) :
    Nat → κ → Nat → Nat → κ × Option Nat
  | 0, key, _, _ => (key, none)
  | fuel + 1, key, l, u =>
    if l < u then
      let idx := (l + u) / 2
      match base[idx]? with
      | none => (key, none)
      | some p =>
        let r := compar key idx p
        if r.2 < 0 then bsearch_loop compar base fuel r.1 l idx
        else if r.2 > 0 then bsearch_loop compar base fuel r.1 (idx + 1) u
        else (r.1, some idx)
    else (key, none)

/-- The C library's `bsearch (key, base, nmemb, size, compar)`; the window shrinks at
every probe, so `nmemb` probes are always enough. -/
def bsearch {κ α : Type} (key : κ) (base : List α) (compar : κ → Nat → α → κ × Int) :
    κ × Option Nat :=
  bsearch_loop compar base base.length key 0 base.length

/-- `cue_GetIndexByTime`. -/
def cue_GetIndexByTime (p_sys : demux_sys_t) (i_time : Int) : Nat :=
  if p_sys.cues.p_array ≠ [] then
    let key : cue_searchkey :=
      { cue := { i_start := i_time, i_stop := 0, psz_id := none, psz_text := [],
                 psz_attrs := none },
        p_last := none }
    let r := bsearch key p_sys.cues.p_array cue_Bsearch_Compare
    let key := match r.2 with
      | some p_cue => { r.1 with p_last := some p_cue }
      | none => r.1
    match key.p_last with
    | some last =>
      match p_sys.cues.p_array[last]? with
      | some c => if cue_Compare c key.cue < 0 then last + 1 else last
      | none => last
    | none => 0
  else 0

/-- A store holding `cs`, nothing delivered yet, as `OpenDemux` leaves it. -/
def store (cs : List webvtt_cue_t) : demux_sys_t :=
  { b_slave := false, b_first_time := false, i_next_block_flags := 0,
    i_next_demux_time := 0, i_length := 0, regions_headers := [], styles_headers := [],
    cues := { p_array := cs, i_alloc := 64 * ((cs.length + 63) / 64), i_current := 0 } }

/-- The cue array is in ascending order of start time. -/
def SortedByStart (cs : List webvtt_cue_t) : Prop :=
  cs.Pairwise (fun a b => a.i_start ≤ b.i_start)

/-! ## Box encoder -/

/-- The C library's `strlen`: the number of bytes before the first NUL. -/
def strlen (s : List Nat) : Nat := (s.takeWhile (fun b => b != 0)).length

/-- Modelled from the spec: `SetDWBE (p, dw)` is declared in `vlc_common.h`, which is not
part of the sources at hand.  It stores the `uint32_t` value `dw` at `p` as four bytes,
most significant first ("big-endian 32-bit length"); the `size_t` argument of every call
is narrowed to 32 bits on the way in. -/
def SetDWBE (p : List Nat) (dw : Nat) : List Nat :=
  let dw := dw % 2 ^ 32
  [dw / 16777216 % 256, dw / 65536 % 256, dw / 256 % 256, dw % 256] ++ p.drop 4

/-- Modelled from the spec: `struct vlc_memstream` is declared in `vlc_memstream.h`, which
is not part of the sources at hand.  An in-memory byte stream: the bytes written so far. -/
structure vlc_memstream where
  ptr : List Nat
deriving DecidableEq, Repr

/-- Whether the allocations of one `ConvertWEBVTT` call succeed: opening the stream,
closing it, and allocating the block. -/
structure alloc_outcome where
  open_ok : Bool
  close_ok : Bool
  block_ok : Bool
deriving DecidableEq, Repr

/-- Modelled from the spec: `vlc_memstream_open` (`vlc_memstream.h`, absent) starts an empty
stream, or reports failure (`none`, a non-zero return in C). -/
def vlc_memstream_open (ok : Bool) : Option vlc_memstream :=
  if ok then some { ptr := [] } else none

/-- Modelled from the spec: `vlc_memstream_write (ms, ptr, len)` (`vlc_memstream.h`, absent)
appends the `len` bytes found at `ptr`. -/
def vlc_memstream_write (ms : vlc_memstream) (ptr : List Nat) (len : Nat) : vlc_memstream :=
  { ptr := ms.ptr ++ ptr.take len }

/-- Modelled from the spec: `vlc_memstream_close` (`vlc_memstream.h`, absent) hands over the
buffer `ptr` and its `length`, or reports failure (`none`). -/
def vlc_memstream_close (ok : Bool) (ms : vlc_memstream) : Option (List Nat × Nat) :=
  if ok then some (ms.ptr, ms.ptr.length) else none

/-- Modelled from the spec: `block_t` is declared in `vlc_block.h`, which is not part of the
sources at hand; the fields the demuxer touches. -/
structure block_t where
  p_buffer : List Nat
  i_buffer : Nat
  i_flags : Nat
  i_pts : Int
  i_dts : Int
  i_length : Int
deriving DecidableEq, Repr

/-- Modelled from the spec: `VLC_TS_INVALID` (`vlc_config.h`, absent), the timestamp of a
block that has none. -/
def VLC_TS_INVALID : Int := 0

/-- Modelled from the spec: `VLC_TS_0` (`vlc_config.h`, absent), the absolute-time base
added to a cue's relative start (1 in VLC 3; no theorem stated for all inputs depends on
the value). -/
def VLC_TS_0 : Int := 1

/-- Modelled from the spec: `CLOCK_FREQ` (`vlc_config.h`, absent), the number of time units
in a second; timestamps are in microseconds. -/
def CLOCK_FREQ : Int := 1000000

/-- Modelled from the spec: `BLOCK_FLAG_DISCONTINUITY` (`vlc_block.h`, absent), the flag
marking a record as discontinuous. -/
def BLOCK_FLAG_DISCONTINUITY : Nat := 1

/-- Modelled from the spec: `block_heap_Alloc (ptr, length)` (`vlc_block.h`, absent) wraps
a heap buffer into a fresh block: no flags, no timestamps, duration 0; `none` when the
allocation fails. -/
def block_heap_Alloc (ok : Bool) (ptr : List Nat) (length : Nat) : Option block_t :=
  if ok then
    some { p_buffer := ptr.take length, i_buffer := length, i_flags := 0,
           i_pts := VLC_TS_INVALID, i_dts := VLC_TS_INVALID, i_length := 0 }
  else none

/-- `ConvertWEBVTT`: the cue as a `vttc` (or `vttx`) box. -/
def ConvertWEBVTT (mem : alloc_outcome) (p_cue : webvtt_cue_t) (b_continued : Bool) :
    Option block_t :=
  match vlc_memstream_open mem.open_ok with
  | none => none
  | some stream =>
    let paylsize := 8 + strlen p_cue.psz_text
    let idensize := match p_cue.psz_id with
      | some psz_id => 8 + strlen psz_id
      | none => 0
    let attrsize := match p_cue.psz_attrs with
      | some psz_attrs => 8 + strlen psz_attrs
      | none => 0
    let vttcsize := 8 + paylsize + attrsize + idensize
    let vttcbox : List Nat := [0, 0, 0, 0, 118, 116, 116, 99]
    let vttcbox := if b_continued then vttcbox.set 7 120 else vttcbox
    let vttcbox := SetDWBE vttcbox vttcsize
    let stream := vlc_memstream_write stream vttcbox 8
    let stream := match p_cue.psz_id with
      | some psz_id =>
        let idenbox := SetDWBE [0, 0, 0, 0, 105, 100, 101, 110] idensize
        let stream := vlc_memstream_write stream idenbox 8
        vlc_memstream_write stream psz_id (idensize - 8)
      | none => stream
    let stream := match p_cue.psz_attrs with
      | some psz_attrs =>
        let attrbox := SetDWBE [0, 0, 0, 0, 115, 116, 116, 103] attrsize
        let stream := vlc_memstream_write stream attrbox 8
        vlc_memstream_write stream psz_attrs (attrsize - 8)
      | none => stream
    let paylbox := SetDWBE [0, 0, 0, 0, 112, 97, 121, 108] paylsize
    let stream := vlc_memstream_write stream paylbox 8
    let stream := vlc_memstream_write stream p_cue.psz_text (paylsize - 8)
    match vlc_memstream_close mem.close_ok stream with
    | some (ptr, length) => block_heap_Alloc mem.block_ok ptr length
    | none => none

/-- Every allocation succeeds. -/
def mem_ok : alloc_outcome := { open_ok := true, close_ok := true, block_ok := true }

/-- Scenario C of the spec: the cue `{id:null, attrs:null, text:"Hi"}`. -/
def scenarioC_cue : webvtt_cue_t :=
  { i_start := 0, i_stop := 0, psz_id := none, psz_text := [72, 105], psz_attrs := none }

/-- The total size `vttcsize` computed by `ConvertWEBVTT` for a cue. -/
def vttcsize (p_cue : webvtt_cue_t) : Nat :=
  8 + (8 + strlen p_cue.psz_text) +
    (match p_cue.psz_attrs with
      | some psz_attrs => 8 + strlen psz_attrs
      | none => 0) +
    (match p_cue.psz_id with
      | some psz_id => 8 + strlen psz_id
      | none => 0)

/-! ## Cue store: the parser callbacks and `ReadWEBVTT` -/

/-- Modelled from the spec: `VLC_SUCCESS` (`vlc_common.h`, absent). -/
def VLC_SUCCESS : Int := 0
/-- Modelled from the spec: `VLC_EGENERIC` (`vlc_common.h`, absent), the generic failure
code. -/
def VLC_EGENERIC : Int := -1
/-- Modelled from the spec: `VLC_DEMUXER_EOF` (`vlc_demux.h`, absent), end of stream. -/
def VLC_DEMUXER_EOF : Int := 0
/-- Modelled from the spec: `VLC_DEMUXER_SUCCESS` (`vlc_demux.h`, absent), more data
available. -/
def VLC_DEMUXER_SUCCESS : Int := 1

/-- Modelled from the spec: `WEBVTT_HEADER_STYLE` of `enum webvtt_header_line_e`
(`codec/webvtt/webvtt.h`, absent). -/
def WEBVTT_HEADER_STYLE : Nat := 1
/-- Modelled from the spec: `WEBVTT_HEADER_REGION` of `enum webvtt_header_line_e`
(`codec/webvtt/webvtt.h`, absent). -/
def WEBVTT_HEADER_REGION : Nat := 2

/-- A call made on the sink `p_demux->out`. -/
inductive es_out_event where
  | SetPCR (i_pcr : Int)
  | Send (p_block : block_t)
deriving DecidableEq, Repr

/-- The demuxer object `demux_t`, as far as this module uses it: its private state
`p_sys` and its sink `out`, the latter as the list of calls made on it, oldest first. -/
structure demux_t where
  p_sys : demux_sys_t
  out : List es_out_event
deriving DecidableEq, Repr

/-- The parser context `struct callback_ctx` (its `p_demux` is passed alongside).  A
header stream whose `stream` member is `NULL` (it could not be opened) is `none`. -/
structure callback_ctx where
  regions : Option vlc_memstream
  styles : Option vlc_memstream
  b_ordered : Bool
deriving DecidableEq, Repr

/-- Modelled from the spec: `vlc_memstream_puts (ms, psz)` (`vlc_memstream.h`, absent)
appends the bytes of the C string `psz`. -/
def vlc_memstream_puts (ms : vlc_memstream) (psz : List Nat) : vlc_memstream :=
  vlc_memstream_write ms psz (strlen psz)

/-- Modelled from the spec: `vlc_memstream_putc (ms, c)` (`vlc_memstream.h`, absent)
appends one byte. -/
def vlc_memstream_putc (ms : vlc_memstream) (c : Nat) : vlc_memstream :=
  vlc_memstream_write ms [c] 1

/-- `memstream_Append`: the line and a newline, unless the stream was never opened. -/
def memstream_Append (ms : Option vlc_memstream) (psz : List Nat) : Option vlc_memstream :=
  match ms with
  | some stream => some (vlc_memstream_putc (vlc_memstream_puts stream psz) 10)
  | none => none

/-- `memstream_Grab`: on an opened stream that closes well, the buffer replaces the
header data `(*pp, *pi)`; otherwise the header data is left as it was. -/
def memstream_Grab (close_ok : Bool) (ms : Option vlc_memstream) (pp : List Nat) :
    List Nat :=
  match ms with
  | some stream =>
    match vlc_memstream_close close_ok stream with
    | some (ptr, length) => ptr.take length
    | none => pp
  | none => pp

/-- The content of a slot just handed out: the spec has it zero-initialised, and the
parser fills every field before it reports the cue. -/
def fresh_slot : webvtt_cue_t :=
  { i_start := 0, i_stop := 0, psz_id := none, psz_text := [], psz_attrs := none }

/-- `ParserGetCueHandler`: grows the array by 64 slots when it is full (`realloc_ok` tells
whether `realloc` succeeds), then hands out the next slot, or `NULL` when there is no
room. -/
def ParserGetCueHandler (realloc_ok : Bool) (p_sys : demux_sys_t) :
    demux_sys_t × Option Nat :=
  let p_sys :=
    if p_sys.cues.i_alloc ≤ p_sys.cues.i_count then
      if realloc_ok then
        { p_sys with cues := { p_sys.cues with i_alloc := p_sys.cues.i_alloc + 64 } }
      else p_sys
    else p_sys
  if p_sys.cues.i_alloc > p_sys.cues.i_count then
    ({ p_sys with cues := { p_sys.cues with p_array := p_sys.cues.p_array ++ [fresh_slot] } },
      some p_sys.cues.i_count)
  else (p_sys, none)

/-- `ParserCueDoneHandler`; `p_cue` points into the cue array. -/
def ParserCueDoneHandler (ctx : callback_ctx) (p_sys : demux_sys_t) (p_cue : Nat) :
    callback_ctx × demux_sys_t :=
  match p_sys.cues.p_array[p_cue]? with
  | none => (ctx, p_sys)
  | some cue =>
    let p_sys :=
      if cue.i_stop > p_sys.i_length then { p_sys with i_length := cue.i_stop } else p_sys
    let ctx :=
      if p_sys.cues.i_count > 0 then
        match p_sys.cues.p_array[p_sys.cues.i_count - 1]? with
        | some last =>
          if last.i_start ≠ cue.i_start then { ctx with b_ordered := false } else ctx
        | none => ctx
      else ctx
    (ctx, p_sys)

/-- `ParserHeaderHandler`. -/
def ParserHeaderHandler (ctx : callback_ctx) (s : Nat) (b_new : Bool) (psz_line : List Nat) :
    callback_ctx :=
  let _ := b_new
  if s = WEBVTT_HEADER_STYLE then
    { ctx with styles := memstream_Append ctx.styles psz_line }
  else if s = WEBVTT_HEADER_REGION then
    { ctx with regions := memstream_Append ctx.regions psz_line }
  else ctx

/-- What the line parser reports while it is fed the stream: a cue (with the outcome of
the `realloc` its slot request may need) or a header line. -/
inductive parser_event where
  | cue (realloc_ok : Bool) (cue : webvtt_cue_t)
  | header (s : Nat) (b_new : Bool) (psz_line : List Nat)
deriving DecidableEq, Repr

/-- Modelled from the spec: the line parser (`webvtt_text_parser_Feed`, in
`codec/webvtt/`, absent) is an external collaborator driving the callbacks (spec section
6): for a cue it requests a fresh slot (`cueSlot`), populates it, and then reports that
very slot as completed (`cueCompleted`); when no slot could be had the cue is dropped.  A
header line is forwarded to the header callback. -/
def webvtt_text_parser_Feed (st : callback_ctx × demux_sys_t) (ev : parser_event) :
    callback_ctx × demux_sys_t :=
  match ev with
  | .cue realloc_ok cue =>
    match ParserGetCueHandler realloc_ok st.2 with
    | (p_sys, some p_cue) =>
      ParserCueDoneHandler st.1
        { p_sys with cues := { p_sys.cues with p_array := p_sys.cues.p_array.set p_cue cue } }
        p_cue
    | (p_sys, none) => (st.1, p_sys)
  | .header s b_new psz_line => (ParserHeaderHandler st.1 s b_new psz_line, st.2)

/-- The allocation outcomes of one `ReadWEBVTT` run. -/
structure read_outcome where
  parser_ok : Bool
  regions_open_ok : Bool
  styles_open_ok : Bool
  regions_close_ok : Bool
  styles_close_ok : Bool
deriving DecidableEq, Repr

/-- `ReadWEBVTT`: feeds the whole stream to the parser, sorts the cues with the C
library's `qsort` (a parameter: the C standard leaves its algorithm open) if they were
flagged as unordered, and grabs the header buffers.  `events` is what the parser reports
for the lines of the stream. -/
def ReadWEBVTT (qsort : List webvtt_cue_t → (webvtt_cue_t → webvtt_cue_t → Int) →
      List webvtt_cue_t)
    (env : read_outcome) (events : List parser_event) (p_demux : demux_t) : demux_t × Int :=
  if !env.parser_ok then (p_demux, VLC_EGENERIC)
  else
    let ctx : callback_ctx :=
      { regions := vlc_memstream_open env.regions_open_ok,
        styles := vlc_memstream_open env.styles_open_ok,
        b_ordered := true }
    let st := events.foldl webvtt_text_parser_Feed (ctx, p_demux.p_sys)
    let ctx := st.1
    let p_sys := st.2
    let p_sys :=
      if !ctx.b_ordered then
        { p_sys with cues := { p_sys.cues with p_array := qsort p_sys.cues.p_array cue_Compare } }
      else p_sys
    let p_sys :=
      { p_sys with regions_headers :=
          memstream_Grab env.regions_close_ok ctx.regions p_sys.regions_headers }
    let p_sys :=
      { p_sys with styles_headers :=
          memstream_Grab env.styles_close_ok ctx.styles p_sys.styles_headers }
    ({ p_demux with p_sys := p_sys }, VLC_SUCCESS)

/-- The state `OpenDemux` sets up before it calls `ReadWEBVTT` (`b_first_time` is not
initialised by the source; it is a parameter here). -/
def OpenDemux_init (b_first_time : Bool) : demux_t :=
  { p_sys :=
      { b_slave := false, b_first_time := b_first_time, i_next_block_flags := 0,
        i_next_demux_time := 0, i_length := 0, regions_headers := [], styles_headers := [],
        cues := { p_array := [], i_alloc := 0, i_current := 0 } },
    out := [] }

/-- The cues of a list of parser events, in arrival order. -/
def cues_of_events : List parser_event → List webvtt_cue_t
  | [] => []
  | .cue _ cue :: evs => cue :: cues_of_events evs
  | .header _ _ _ :: evs => cues_of_events evs

/-- Every allocation of a `ReadWEBVTT` run succeeds. -/
def read_ok : read_outcome :=
  { parser_ok := true, regions_open_ok := true, styles_open_ok := true,
    regions_close_ok := true, styles_close_ok := true }

/-- Two cues arriving out of order: start 1000000 first, then start 0. -/
def unordered_events : List parser_event :=
  [ .cue true { i_start := 1000000, i_stop := 2000000, psz_id := none, psz_text := [72],
                psz_attrs := none },
    .cue true { i_start := 0, i_stop := 1000000, psz_id := none, psz_text := [105],
                psz_attrs := none } ]

/-! ## Demux loop -/

/-- Modelled from the spec: `es_out_SetPCR (out, pcr)` (`vlc_es_out.h`, absent) publishes a
clock reference to the sink. -/
def es_out_SetPCR (p_demux : demux_t) (i_pcr : Int) : demux_t :=
  { p_demux with out := p_demux.out ++ [es_out_event.SetPCR i_pcr] }

/-- Modelled from the spec: `es_out_Send (out, es, block)` (`vlc_es_out.h`, absent) hands a
record to the sink. -/
def es_out_Send (p_demux : demux_t) (p_block : block_t) : demux_t :=
  { p_demux with out := p_demux.out ++ [es_out_event.Send p_block] }

/-- The body of the `while` loop of `Demux` for the cue `p_cue` at `cues.i_current`.
`mem` gives the outcome of the allocations made when encoding the cue at an index. -/
def Demux_body (mem : Nat → alloc_outcome) (i_barrier : Int) (p_cue : webvtt_cue_t)
    (p_demux : demux_t) : demux_t :=
  let p_demux :=
    if !p_demux.p_sys.b_slave && p_demux.p_sys.b_first_time then
      let p_demux := es_out_SetPCR p_demux (VLC_TS_0 + i_barrier)
      { p_demux with p_sys := { p_demux.p_sys with b_first_time := false } }
    else p_demux
  let p_demux :=
    if p_cue.i_start ≥ 0 then
      match ConvertWEBVTT (mem p_demux.p_sys.cues.i_current) p_cue
          (decide (p_demux.p_sys.cues.i_current > 0)) with
      | some p_block =>
        let p_block :=
          { p_block with i_dts := VLC_TS_0 + p_cue.i_start, i_pts := VLC_TS_0 + p_cue.i_start }
        let p_block :=
          if p_cue.i_stop ≥ 0 ∧ p_cue.i_stop ≥ p_cue.i_start then
            { p_block with i_length := p_cue.i_stop - p_cue.i_start }
          else p_block
        if p_demux.p_sys.i_next_block_flags ≠ 0 then
          let p_block := { p_block with i_flags := p_demux.p_sys.i_next_block_flags }
          let p_demux :=
            { p_demux with p_sys := { p_demux.p_sys with i_next_block_flags := 0 } }
          es_out_Send p_demux p_block
        else es_out_Send p_demux p_block
      | none => p_demux
    else p_demux
  { p_demux with p_sys := { p_demux.p_sys with
      cues := { p_demux.p_sys.cues with i_current := p_demux.p_sys.cues.i_current + 1 } } }

/-- The `while` loop of `Demux`: as long as there is a cue at `cues.i_current` (that is,
`i_current < i_count`) and it starts at or before the barrier, run the body.  `fuel`
bounds the number of iterations. -/
def Demux_loop (mem : Nat → alloc_outcome) (i_barrier : Int) : Nat → demux_t → demux_t
  | 0, p_demux => p_demux
  | fuel + 1, p_demux =>
    match p_demux.p_sys.cues.p_array[p_demux.p_sys.cues.i_current]? with
    | some p_cue =>
      if p_cue.i_start ≤ i_barrier then
        Demux_loop mem i_barrier fuel (Demux_body mem i_barrier p_cue p_demux)
      else p_demux
    | none => p_demux

/-- `Demux`: one pull.  Every iteration of the loop advances `i_current`, so
`i_count - i_current` iterations are always enough. -/
def Demux (mem : Nat → alloc_outcome) (p_demux : demux_t) : demux_t × Int :=
  let i_barrier := p_demux.p_sys.i_next_demux_time
  let p_demux := Demux_loop mem i_barrier
    (p_demux.p_sys.cues.i_count - p_demux.p_sys.cues.i_current) p_demux
  let p_demux :=
    if !p_demux.p_sys.b_slave then
      let p_demux := es_out_SetPCR p_demux (VLC_TS_0 + i_barrier)
      { p_demux with p_sys := { p_demux.p_sys with
          i_next_demux_time :=
            to_int64 (p_demux.p_sys.i_next_demux_time + Int.tdiv CLOCK_FREQ 8) } }
    else p_demux
  if p_demux.p_sys.cues.i_current ≥ p_demux.p_sys.cues.i_count then
    (p_demux, VLC_DEMUXER_EOF)
  else (p_demux, VLC_DEMUXER_SUCCESS)

/-- The case `DEMUX_SET_NEXT_DEMUX_TIME` of `Control`, with its `int64_t` argument. -/
def Control_SET_NEXT_DEMUX_TIME (p_demux : demux_t) (arg : Int) : demux_t × Int :=
  ({ p_demux with p_sys := { p_demux.p_sys with
      b_slave := true, i_next_demux_time := arg - VLC_TS_0 } }, VLC_SUCCESS)

/-- A call of the host between seeks: a pull, or `DEMUX_SET_NEXT_DEMUX_TIME`. -/
inductive host_call where
  | pull (mem : Nat → alloc_outcome)
  | set_next_demux_time (arg : Int)

/-- The demuxer after one call of the host. -/
def host_step (p_demux : demux_t) : host_call → demux_t
  | .pull mem => (Demux mem p_demux).1
  | .set_next_demux_time arg => (Control_SET_NEXT_DEMUX_TIME p_demux arg).1

/-- The demuxer after a sequence of calls of the host. -/
def host_run (p_demux : demux_t) (calls : List host_call) : demux_t :=
  calls.foldl host_step p_demux

/-! ## The box format as the spec words it

The definitions of this section follow the spec (sections 4.4 and 6), not the source: they
are what the encoder's output is compared with. -/

/-- The bytes of the C string found at a pointer: everything before the first NUL. -/
def cstr_bytes (s : List Nat) : List Nat := s.takeWhile (fun b => b != 0)

/-- The four bytes of a big-endian 32-bit field holding `n`. -/
def be32 (n : Nat) : List Nat :=
  [n / 16777216 % 256, n / 65536 % 256, n / 256 % 256, n % 256]

/-- The value of the big-endian 32-bit field at the start of `p` (the reading counterpart
of storing a length field). -/
def GetDWBE (p : List Nat) : Nat :=
  p.getD 0 0 * 16777216 + p.getD 1 0 * 65536 + p.getD 2 0 * 256 + p.getD 3 0

/-- The tag `vttc`. -/
def tag_vttc : List Nat := [118, 116, 116, 99]
/-- The tag `vttx`. -/
def tag_vttx : List Nat := [118, 116, 116, 120]
/-- The tag `iden`. -/
def tag_iden : List Nat := [105, 100, 101, 110]
/-- The tag `sttg`. -/
def tag_sttg : List Nat := [115, 116, 116, 103]
/-- The tag `payl`. -/
def tag_payl : List Nat := [112, 97, 121, 108]

/-- A box: the big-endian length of the whole box, the 4-byte tag, then the raw content. -/
def box (tag content : List Nat) : List Nat :=
  be32 (8 + content.length) ++ tag ++ content

/-- The sub-box for an optional string: present only if the string is set. -/
def opt_box (tag : List Nat) (s : Option (List Nat)) : List Nat :=
  match s with
  | some str => box tag (cstr_bytes str)
  | none => []

/-- The encoding of a cue as the spec describes it: a `vttc` box (`vttx` for a
continuation) holding, in this order, `iden` if the id is set, `sttg` if the attributes
are set, and `payl`. -/
def encode_spec (cue : webvtt_cue_t) (continuation : Bool) : List Nat :=
  box (if continuation then tag_vttx else tag_vttc)
    (opt_box tag_iden cue.psz_id ++ opt_box tag_sttg cue.psz_attrs ++
      box tag_payl (cstr_bytes cue.psz_text))

/-- A generic length+tag box reader: the tag and content of the box at the start of
`bs`, and the bytes that follow it; `none` when the length field is below 8 or runs past
the end. -/
def read_box (bs : List Nat) : Option (List Nat × List Nat × List Nat) :=
  if bs.length < 8 then none
  else if GetDWBE bs < 8 ∨ bs.length < GetDWBE bs then none
  else some ((bs.drop 4).take 4, (bs.take (GetDWBE bs)).drop 8, bs.drop (GetDWBE bs))

/-- Reads a sequence of boxes filling `bs` exactly; `fuel` bounds the number of boxes. -/
def read_boxes : Nat → List Nat → Option (List (List Nat × List Nat))
  | _, [] => some []
  | 0, _ :: _ => none
  | fuel + 1, b :: bs =>
    match read_box (b :: bs) with
    | none => none
    | some (tag, content, rest) =>
      match read_boxes fuel rest with
      | none => none
      | some more => some ((tag, content) :: more)

/-- What a decoder gets out of an encoded cue. -/
structure decoded_cue where
  continuation : Bool
  id : Option (List Nat)
  attrs : Option (List Nat)
  text : List Nat
deriving DecidableEq, Repr

/-- Decodes one encoded cue with the generic box reader: the top box must be `vttc` or
`vttx` and span the whole input; its content is a sequence of boxes, among which `payl`
must be present. -/
def decode_cue (bs : List Nat) : Option decoded_cue :=
  match read_box bs with
  | some (tag, content, []) =>
    if tag = tag_vttc ∨ tag = tag_vttx then
      match read_boxes content.length content with
      | some children =>
        match children.lookup tag_payl with
        | some text =>
          some { continuation := decide (tag = tag_vttx), id := children.lookup tag_iden,
                 attrs := children.lookup tag_sttg, text := text }
        | none => none
      | none => none
    else none
  | _ => none

/-- A cue with an id, attributes that are set but empty, and a text. -/
def empty_attrs_cue : webvtt_cue_t :=
  { i_start := 0, i_stop := 1000000, psz_id := some [49], psz_text := [72, 105],
    psz_attrs := some [] }

/-- A cue whose text is `n` bytes `A`. -/
def long_text_cue (n : Nat) : webvtt_cue_t :=
  { i_start := 0, i_stop := 0, psz_id := none, psz_text := List.replicate n 65,
    psz_attrs := none }

/-- Index `i` is the smallest index whose cue starts at or after `t`, or the count when
there is no such cue. -/
def IsFirstIndexAtOrAfter (cs : List webvtt_cue_t) (t : Int) (i : Nat) : Prop :=
  i ≤ cs.length ∧ (∀ j c, cs[j]? = some c → j < i → c.i_start < t) ∧
    (∀ c, cs[i]? = some c → t ≤ c.i_start)

/-- What `bsearch` leaves behind on a sorted cue array when looking for time `t`: either
it returns a cue starting exactly at `t`, or it returns `NULL` and the last element it
probed, `p_last`, sits right at the insertion point `m` of `t`. -/
def SearchOutcome (cs : List webvtt_cue_t) (t : Int) (r : cue_searchkey × Option Nat) :
    Prop :=
  r.1.cue.i_start = t ∧
  match r.2 with
  | some p => ∃ c, cs[p]? = some c ∧ c.i_start = t
  | none => ∃ m, m ≤ cs.length ∧ (∀ j c, cs[j]? = some c → j < m → c.i_start < t) ∧
      (∀ j c, cs[j]? = some c → m ≤ j → t < c.i_start) ∧
      ∃ p c, r.1.p_last = some p ∧ cs[p]? = some c ∧
        ((p = m ∧ t < c.i_start) ∨ (p + 1 = m ∧ c.i_start < t))

/-- Scenario A of the spec: the cue `{start:0, stop:1000000, id:"1", text:"Hello"}`. -/
def scenarioA_cue : webvtt_cue_t :=
  { i_start := 0, i_stop := 1000000, psz_id := some [49],
    psz_text := [72, 101, 108, 108, 111], psz_attrs := none }

/-- Scenario B of the spec: two cues starting at 0, arriving as id `"b"` then id `"a"`. -/
def scenarioB_cues : List webvtt_cue_t :=
  [ { i_start := 0, i_stop := 1000000, psz_id := some [98], psz_text := [], psz_attrs := none },
    { i_start := 0, i_stop := 1000000, psz_id := some [97], psz_text := [], psz_attrs := none } ]

/-! ## Records at the sink -/

/-- The records handed to the sink among a list of calls on it, oldest first. -/
def sent : List es_out_event → List block_t
  | [] => []
  | .Send p_block :: evs => p_block :: sent evs
  | .SetPCR _ :: evs => sent evs

/-- Record `r` is the record of the cue at index `i` of the array `cues`: it carries the
encoding of that cue (as a continuation unless `i` is 0), the timestamps
`VLC_TS_0 + start`, and the duration `stop - start` when `stop` is valid and not before
`start`, 0 otherwise. -/
def IsRecordOf (cues : List webvtt_cue_t) (r : block_t) (i : Nat) : Prop :=
  ∃ cue, cues[i]? = some cue ∧ 0 ≤ cue.i_start ∧
    r.p_buffer = encode_spec cue (decide (i > 0)) ∧
    r.i_pts = VLC_TS_0 + cue.i_start ∧ r.i_dts = VLC_TS_0 + cue.i_start ∧
    r.i_length = if 0 ≤ cue.i_stop ∧ cue.i_start ≤ cue.i_stop then cue.i_stop - cue.i_start
      else 0

/-- The cue at index `i` gets a record when the loop passes it: it does not start before
0 and the allocations of its encoding succeed. -/
def delivered (mem : Nat → alloc_outcome) (cues : List webvtt_cue_t) (i : Nat) : Bool :=
  match cues[i]? with
  | some cue =>
    decide (0 ≤ cue.i_start) && ((mem i).open_ok && ((mem i).close_ok && (mem i).block_ok))
  | none => false

/-- A demuxer holding `cs` with the cursor at 0 and the clock at `t`, not slaved. -/
def demux_at (cs : List webvtt_cue_t) (t : Int) : demux_t :=
  { p_sys := { store cs with i_next_demux_time := t }, out := [] }

/-- Three cues: starts 0, 400000 and 600000; the second ends before it starts. -/
def three_cues : List webvtt_cue_t :=
  [ { i_start := 0, i_stop := 1000000, psz_id := some [49], psz_text := [72, 105],
      psz_attrs := none },
    { i_start := 400000, i_stop := 300000, psz_id := none, psz_text := [72], psz_attrs := none },
    { i_start := 600000, i_stop := 900000, psz_id := none, psz_text := [105],
      psz_attrs := none } ]

/-! ## Control

A `double` is modelled by a rational number: the values the queries return or receive
here (0.0, 0.5, 1.0, a quotient) are taken exactly, rounding is not modelled. -/

/-- A query of the host, with the argument it passes by value.  The pointer through which
a query returns a value is the `control_reply` of the result.  `other` stands for
`DEMUX_GET_PTS_DELAY`, `DEMUX_GET_FPS`, `DEMUX_GET_META`, `DEMUX_GET_ATTACHMENTS`,
`DEMUX_GET_TITLE_INFO`, `DEMUX_HAS_UNSUPPORTED_META`, `DEMUX_CAN_RECORD` and every other
query code. -/
inductive demux_query where
  | DEMUX_CAN_SEEK
  | DEMUX_GET_LENGTH
  | DEMUX_GET_TIME
  | DEMUX_SET_TIME (i64 : Int)
  | DEMUX_GET_POSITION
  | DEMUX_SET_POSITION (f : ℚ)
  | DEMUX_SET_NEXT_DEMUX_TIME (arg : Int)
  | other (i_query : Nat)
deriving DecidableEq

/-- What a query stores through its pointer argument. -/
inductive control_reply where
  | nothing
  | bool (b : Bool)
  | int64 (v : Int)
  | double (v : ℚ)
deriving DecidableEq

/-- The C conversion of a `double` to `int64_t`: the fractional part is discarded. -/
def double_to_int64 (x : ℚ) : Int := Int.tdiv x.num x.den

/-- The four statements shared by the cases `DEMUX_SET_TIME` and `DEMUX_SET_POSITION` of
`Control`, for the time `i64`: move the cursor to `cue_GetIndexByTime`, set
`b_first_time`, read `p_array[i_current].i_start` into `i_next_demux_time`, and raise
`BLOCK_FLAG_DISCONTINUITY`.  The read is in bounds when a cue is in use at the cursor.
On the `NULL` array of an empty store it faults and the call has no result (`none`).  On
a store that is not empty with the cursor at `i_count` it reads the slot after the last
cue in use, which holds no cue (and lies past the buffer when `i_count == i_alloc`);
what that read yields is the parameter `past_end`: `some v` when it yields the value `v`,
after which the call goes on and returns `VLC_SUCCESS`, `none` when it faults. -/
def Control_seek (past_end : Option Int) (p_demux : demux_t) (i64 : Int) :
    Option (demux_t × Int × control_reply) :=
  let i_current := cue_GetIndexByTime p_demux.p_sys i64
  let i_start : Option Int :=
    match p_demux.p_sys.cues.p_array[i_current]? with
    | some cue => some cue.i_start
    | none => if p_demux.p_sys.cues.p_array = [] then none else past_end
  match i_start with
  | some i_start =>
    some ({ p_demux with p_sys := { p_demux.p_sys with
              cues := { p_demux.p_sys.cues with i_current := i_current },
              b_first_time := true,
              i_next_demux_time := i_start,
              i_next_block_flags :=
                p_demux.p_sys.i_next_block_flags ||| BLOCK_FLAG_DISCONTINUITY } },
          VLC_SUCCESS, control_reply.nothing)
  | none => none

/-- `Control`: the new state, the return code and the value stored through the pointer
argument; `none` when the call faults.  `past_end` is what a read of the slot after the
last cue in use yields (see `Control_seek`). -/
def Control (past_end : Option Int) (p_demux : demux_t) (i_query : demux_query) :
    Option (demux_t × Int × control_reply) :=
  match i_query with
  | .DEMUX_CAN_SEEK => some (p_demux, VLC_SUCCESS, control_reply.bool true)
  | .DEMUX_GET_LENGTH => some (p_demux, VLC_SUCCESS, control_reply.int64 p_demux.p_sys.i_length)
  | .DEMUX_GET_TIME =>
    some (p_demux, VLC_SUCCESS, control_reply.int64 p_demux.p_sys.i_next_demux_time)
  | .DEMUX_SET_TIME i64 => Control_seek past_end p_demux i64
  | .DEMUX_GET_POSITION =>
    if p_demux.p_sys.cues.i_current ≥ p_demux.p_sys.cues.i_count then
      some (p_demux, VLC_SUCCESS, control_reply.double 1)
    else if p_demux.p_sys.cues.i_count > 0 then
      some (p_demux, VLC_SUCCESS,
        control_reply.double
          ((p_demux.p_sys.i_next_demux_time : ℚ) / ((p_demux.p_sys.i_length : ℚ) + 1 / 2)))
    else some (p_demux, VLC_SUCCESS, control_reply.double 0)
  | .DEMUX_SET_POSITION f =>
    if p_demux.p_sys.cues.i_count ≠ 0 then
      Control_seek past_end p_demux (double_to_int64 (f * (p_demux.p_sys.i_length : ℚ)))
    else some (p_demux, VLC_EGENERIC, control_reply.nothing)
  | .DEMUX_SET_NEXT_DEMUX_TIME arg =>
    some ((Control_SET_NEXT_DEMUX_TIME p_demux arg).1,
      (Control_SET_NEXT_DEMUX_TIME p_demux arg).2, control_reply.nothing)
  | .other _ => some (p_demux, VLC_EGENERIC, control_reply.nothing)

/-- Scenario D of the spec: total duration 1000000 and three cues starting at 0, 400000
and 600000. -/
def scenarioD : demux_t :=
  { p_sys := { store
      [ { i_start := 0, i_stop := 300000, psz_id := none, psz_text := [65], psz_attrs := none },
        { i_start := 400000, i_stop := 500000, psz_id := none, psz_text := [66],
          psz_attrs := none },
        { i_start := 600000, i_stop := 1000000, psz_id := none, psz_text := [67],
          psz_attrs := none } ] with i_length := 1000000 },
    out := [] }

/-- The flags of the records `rs` sent from a state whose pending flags are `f`, ending
with pending flags `f'`: the pending flags go to the first record, which clears them, and
every later record has no flag; with no record they stay pending. -/
def FlagsOnce (f : Nat) (rs : List block_t) (f' : Nat) : Prop :=
  (rs = [] ∧ f' = f) ∨
  (∃ r rest, rs = r :: rest ∧ r.i_flags = f ∧ (∀ r' ∈ rest, r'.i_flags = 0) ∧ f' = 0)

/-- Scenario D after a seek to the time 400000: the cursor at index 1, the clock at
400000, the first-delivery mark set and the discontinuity flag pending. -/
def scenarioD_at_400000 : demux_t :=
  { scenarioD with p_sys := { scenarioD.p_sys with
      cues := { scenarioD.p_sys.cues with i_current := 1 },
      b_first_time := true,
      i_next_demux_time := 400000,
      i_next_block_flags := BLOCK_FLAG_DISCONTINUITY } }

/-! ## Extradata and `OpenDemux` -/

/-- `MakeExtradata`: the marker `"WEBVTT\n\n"`, the regions headers and the styles headers
in one buffer, stored through `(p_extra, pi_extra)`; these are left as they were when the
stream cannot be opened or closed. -/
def MakeExtradata (open_ok close_ok : Bool) (p_sys : demux_sys_t) (p_extra : List Nat) :
    List Nat :=
  match vlc_memstream_open open_ok with
  | none => p_extra
  | some extradata =>
    let extradata := vlc_memstream_puts extradata [87, 69, 66, 86, 84, 84, 10, 10, 0]
    let extradata := vlc_memstream_write extradata p_sys.regions_headers
      p_sys.regions_headers.length
    let extradata := vlc_memstream_write extradata p_sys.styles_headers
      p_sys.styles_headers.length
    memstream_Grab close_ok (some extradata) p_extra

/-- Modelled from the spec: `VLC_ENOMEM` (`vlc_common.h`, absent), the out-of-memory
failure code. -/
def VLC_ENOMEM : Int := -2

/-- The allocation outcomes of one `OpenDemux` call: the `malloc` of the private state,
those of `ReadWEBVTT`, the stream of `MakeExtradata`, and `es_out_Add`. -/
structure open_outcome where
  sys_ok : Bool
  read : read_outcome
  extra_open_ok : Bool
  extra_close_ok : Bool
  es_ok : Bool
deriving DecidableEq, Repr

/-- What `OpenDemux` leaves behind: its return code, the demuxer state (`none` when none
was allocated, or when `CloseDemux` released it), and the extradata of the format handed
to `es_out_Add` (`none` when that call was not reached). -/
structure open_result where
  ret : Int
  p_demux : Option demux_t
  fmt_extra : Option (List Nat)
deriving DecidableEq, Repr

/-- `OpenDemux`, on a stream whose bytes are `s` and for which the line parser reports
`events`.  `force` is `p_demux->obj.force`; `b_first_time` is the value found in the
uninitialised field. -/
def OpenDemux (qsort : List webvtt_cue_t → (webvtt_cue_t → webvtt_cue_t → Int) →
      List webvtt_cue_t)
    (env : open_outcome) (b_first_time : Bool) (force : Bool) (s : List Nat)
    (events : List parser_event) : open_result :=
  let p_peek := s.take 16
  let i_peek := p_peek.length
  if i_peek < 16 then { ret := VLC_EGENERIC, p_demux := none, fmt_extra := none }
  else
    let p_peek := if p_peek.take 3 = [239, 187, 191] then p_peek.drop 3 else p_peek
    if (p_peek.take 6 ≠ [87, 69, 66, 86, 84, 84] ∨
        (p_peek.getD 6 0 ≠ 10 ∧ p_peek.getD 6 0 ≠ 32 ∧ p_peek.getD 6 0 ≠ 9 ∧
          (p_peek.getD 6 0 ≠ 13 ∨ p_peek.getD 7 0 ≠ 10))) ∧ force = false then
      { ret := VLC_EGENERIC, p_demux := none, fmt_extra := none }
    else if env.sys_ok = false then
      { ret := VLC_ENOMEM, p_demux := none, fmt_extra := none }
    else
      let r := ReadWEBVTT qsort env.read events (OpenDemux_init b_first_time)
      if r.2 ≠ VLC_SUCCESS then
        { ret := VLC_EGENERIC, p_demux := none, fmt_extra := none }
      else
        let extra := MakeExtradata env.extra_open_ok env.extra_close_ok r.1.p_sys []
        if env.es_ok = false then
          { ret := VLC_EGENERIC, p_demux := none, fmt_extra := some extra }
        else { ret := VLC_SUCCESS, p_demux := some r.1, fmt_extra := some extra }

/-- Every allocation of an `OpenDemux` call succeeds. -/
def open_ok : open_outcome :=
  { sys_ok := true, read := read_ok, extra_open_ok := true, extra_close_ok := true,
    es_ok := true }

/-! ## The probe signature, the extradata and the total duration as the spec words them

The definitions of this section follow the spec (sections 3, 4.1 and 6), not the source. -/

/-- The UTF-8 byte-order mark `EF BB BF`. -/
def utf8_bom : List Nat := [239, 187, 191]

/-- The ASCII text `WEBVTT`. -/
def webvtt_magic : List Nat := [87, 69, 66, 86, 84, 84]

/-- What may follow `WEBVTT`: a newline, a space, a tab, or a CR-LF pair. -/
def magic_tails : List (List Nat) := [[10], [32], [9], [13, 10]]

/-- The probe signature: after an optional byte-order mark, the stream starts with
`WEBVTT` followed immediately by a newline, a space, a tab or a CR-LF pair. -/
def ProbeSignature (s : List Nat) : Prop :=
  ∃ tail ∈ magic_tails,
    (webvtt_magic ++ tail) <+: s ∨ (utf8_bom ++ (webvtt_magic ++ tail)) <+: s

/-- The header lines of one kind among the parser's reports, in arrival order, each
followed by one newline. -/
def header_lines (kind : Nat) : List parser_event → List Nat
  | [] => []
  | .header s _ psz_line :: evs =>
    (if s = kind then cstr_bytes psz_line ++ [10] else []) ++ header_lines kind evs
  | .cue _ _ :: evs => header_lines kind evs

/-- The total duration as the spec words it: the maximum over all cues of `stop`, with
`start` in place of an absent (negative) `stop`; 0 for no cue. -/
def claimed_total_duration (cues : List webvtt_cue_t) : Int :=
  (cues.map (fun c => if c.i_stop < 0 then c.i_start else c.i_stop)).foldl max 0

/-- A stream with one open-ended cue: start 5000000, no stop (the sentinel -1). -/
def open_ended_events : List parser_event :=
  [ .cue true { i_start := 5000000, i_stop := -1, psz_id := none, psz_text := [72],
                psz_attrs := none } ]

/-- The first 16 bytes of a stream starting `WEBVTT`, CR, LF after a byte-order mark. -/
def bom_crlf_stream : List Nat :=
  [239, 187, 191, 87, 69, 66, 86, 84, 84, 13, 10, 13, 10, 48, 48, 58]

/-- A stream with a region line, a cue, a style line, a line of another kind and a second
region line. -/
def header_events : List parser_event :=
  [ .header WEBVTT_HEADER_REGION true [114, 49],
    .cue true { i_start := 0, i_stop := 1000000, psz_id := none, psz_text := [72],
                psz_attrs := none },
    .header WEBVTT_HEADER_STYLE true [115],
    .header 7 true [120],
    .header WEBVTT_HEADER_REGION false [114, 50] ]

/-- The marker `"WEBVTT\n\n"` that opens the extradata blob. -/
def webvtt_marker : List Nat := [87, 69, 66, 86, 84, 84, 10, 10]

/-! ## Host actions and published clock references -/

/-- The clock references published to the sink among a list of calls on it, oldest
first. -/
def pcrs : List es_out_event → List Int
  | [] => []
  | .SetPCR i_pcr :: evs => i_pcr :: pcrs evs
  | .Send _ :: evs => pcrs evs

/-- A call of the host: a pull, or any query, together with what a read of the slot after
the last cue in use yields during that query. -/
inductive host_action where
  | pull (mem : Nat → alloc_outcome)
  | control (past_end : Option Int) (i_query : demux_query)

/-- The demuxer after one call of the host; `none` when the call faults. -/
def host_act (p_demux : demux_t) : host_action → Option demux_t
  | .pull mem => some (Demux mem p_demux).1
  | .control past_end i_query => (Control past_end p_demux i_query).map (fun r => r.1)

/-- The demuxer after a sequence of calls of the host; `none` as soon as one of them
faults. -/
def host_acts : demux_t → List host_action → Option demux_t
  | p_demux, [] => some p_demux
  | p_demux, a :: rest =>
    match host_act p_demux a with
    | some p_demux' => host_acts p_demux' rest
    | none => none

/-- The parser context `ReadWEBVTT` starts from, both header streams opened. -/
def ctx_init : callback_ctx :=
  { regions := vlc_memstream_open true, styles := vlc_memstream_open true, b_ordered := true }

/-- The cue array is in strictly ascending order of start time. -/
def StrictlySortedByStart (cs : List webvtt_cue_t) : Prop :=
  cs.Pairwise (fun a b => a.i_start < b.i_start)

/-- A store whose first cue has a negative start; the second starts at 0. -/
def negative_start_cues : List webvtt_cue_t :=
  [ { i_start := -1, i_stop := -1, psz_id := none, psz_text := [72], psz_attrs := none },
    { i_start := 0, i_stop := 1000000, psz_id := none, psz_text := [105], psz_attrs := none } ]

/-- The encoding of the cue at index 1 fails to allocate; every other one succeeds. -/
def mem_fail_at_1 (i : Nat) : alloc_outcome :=
  if i = 1 then { open_ok := true, close_ok := false, block_ok := true } else mem_ok

/-- Scenario D after a seek to the time 400000 (cursor at index 1, discontinuity flag
pending), with the clock then moved to 600000 so that one pull reaches both remaining
cues. -/
def scenarioD_seek_then_600000 : demux_t :=
  { scenarioD_at_400000 with p_sys := { scenarioD_at_400000.p_sys with
      i_next_demux_time := 600000 } }

/-- The store of `negative_start_cues` with the cursor at 0, the clock at 0, the
first-delivery mark set and the discontinuity flag pending. -/
def negative_start_pending : demux_t :=
  { p_sys := { store negative_start_cues with
      b_first_time := true, i_next_block_flags := BLOCK_FLAG_DISCONTINUITY },
    out := [] }

/-- No difference between the time `t` and the start of a cue of `cs`, taken in either
direction, leaves the range of `int64_t`: each lies between `-INT64_MAX` and
`INT64_MAX`.  This holds in particular when `t` and every start are between 0 and
`INT64_MAX`. -/
def DiffsInRange (cs : List webvtt_cue_t) (t : Int) : Prop :=
  ∀ c ∈ cs, -INT64_MAX ≤ t - c.i_start ∧ t - c.i_start ≤ INT64_MAX

/-- A cue starting at `i_start`, with no end, no id and no attributes. -/
def cue_starting_at (i_start : Int) : webvtt_cue_t :=
  { i_start := i_start, i_stop := -1, psz_id := none, psz_text := [72], psz_attrs := none }

/-- Scenario D in slaved mode with the clock at 0, after a `DEMUX_SET_TIME` past every
start during which the slot after the last cue read as 42: the cursor at the count, the
clock at 42, the first-delivery mark set and the discontinuity flag pending. -/
def scenarioD_past_end : demux_t :=
  { scenarioD with p_sys := { scenarioD.p_sys with
      b_slave := true,
      cues := { scenarioD.p_sys.cues with i_current := 3 },
      b_first_time := true,
      i_next_demux_time := 42,
      i_next_block_flags := BLOCK_FLAG_DISCONTINUITY } }

/-! # Properties -/

/-! ## Theorems: seek index -/

theorem to_int64_eq (x : Int) (h1 : -9223372036854775808 ≤ x) (h2 : x ≤ INT64_MAX) :
    to_int64 x = x := by
  unfold to_int64
  unfold INT64_MAX at h2
  omega

/-- As long as the exact difference of the starts fits, `cue_Compare` is its sign. -/
theorem cue_Compare_of_range (a b : webvtt_cue_t)
    (hr : -INT64_MAX ≤ a.i_start - b.i_start ∧ a.i_start - b.i_start ≤ INT64_MAX) :
    cue_Compare a b =
      if a.i_start - b.i_start ≠ 0 then
        Int.tdiv (a.i_start - b.i_start)
          (if a.i_start - b.i_start > 0 then a.i_start - b.i_start
           else -(a.i_start - b.i_start))
      else 0 := by
  obtain ⟨h1, h2⟩ := hr
  have e1 : to_int64 (a.i_start - b.i_start) = a.i_start - b.i_start :=
    to_int64_eq _ (by unfold INT64_MAX at h1; omega) h2
  have e2 : to_int64 (-(a.i_start - b.i_start)) = -(a.i_start - b.i_start) :=
    to_int64_eq _ (by unfold INT64_MAX at h2; omega) (by omega)
  unfold cue_Compare
  simp only [e1, e2]

theorem cue_Compare_neg_iff (a b : webvtt_cue_t)
    (hr : -INT64_MAX ≤ a.i_start - b.i_start ∧ a.i_start - b.i_start ≤ INT64_MAX) :
    cue_Compare a b < 0 ↔ a.i_start < b.i_start := by
  rw [cue_Compare_of_range a b hr]
  by_cases h0 : a.i_start - b.i_start = 0
  · simp [h0]; omega
  · by_cases hp : a.i_start - b.i_start > 0
    · simp only [ne_eq, h0, not_false_eq_true, if_true, hp, Int.tdiv_self h0]; omega
    · simp only [ne_eq, h0, not_false_eq_true, if_true, hp, if_false, Int.tdiv_neg,
        Int.tdiv_self h0]; omega

theorem cue_Compare_pos_iff (a b : webvtt_cue_t)
    (hr : -INT64_MAX ≤ a.i_start - b.i_start ∧ a.i_start - b.i_start ≤ INT64_MAX) :
    0 < cue_Compare a b ↔ b.i_start < a.i_start := by
  rw [cue_Compare_of_range a b hr]
  by_cases h0 : a.i_start - b.i_start = 0
  · simp [h0]; omega
  · by_cases hp : a.i_start - b.i_start > 0
    · simp only [ne_eq, h0, not_false_eq_true, if_true, hp, Int.tdiv_self h0]; omega
    · simp only [ne_eq, h0, not_false_eq_true, if_true, hp, if_false, Int.tdiv_neg,
        Int.tdiv_self h0]; omega

/-- Times and starts between 0 and `INT64_MAX` have differences that fit. -/
theorem DiffsInRange_of_nonneg (cs : List webvtt_cue_t) (t : Int)
    (hcs : ∀ c ∈ cs, 0 ≤ c.i_start ∧ c.i_start ≤ INT64_MAX)
    (ht : 0 ≤ t ∧ t ≤ INT64_MAX) : DiffsInRange cs t := by
  intro c hc
  have := hcs c hc
  constructor <;> omega

theorem sorted_getElem?_le {cs : List webvtt_cue_t} (hs : SortedByStart cs) {i j : Nat}
    {a b : webvtt_cue_t} (hi : cs[i]? = some a) (hj : cs[j]? = some b) (hij : i ≤ j) :
    a.i_start ≤ b.i_start := by
  rcases Nat.eq_or_lt_of_le hij with h | h
  · subst h; rw [hi] at hj; cases hj; exact le_refl _
  · obtain ⟨hi', rfl⟩ := List.getElem?_eq_some.mp hi
    obtain ⟨hj', rfl⟩ := List.getElem?_eq_some.mp hj
    exact List.pairwise_iff_getElem.mp hs i j hi' hj' h

theorem bsearch_loop_outcome (cs : List webvtt_cue_t) (t : Int) (hs : SortedByStart cs)
    (hr : DiffsInRange cs t) :
    ∀ (fuel : Nat) (key : cue_searchkey) (l u : Nat), u - l ≤ fuel → l ≤ u →
      u ≤ cs.length → key.cue.i_start = t →
      (∀ j c, cs[j]? = some c → j < l → c.i_start < t) →
      (∀ j c, cs[j]? = some c → u ≤ j → t < c.i_start) →
      (l = u → ∃ p c, key.p_last = some p ∧ cs[p]? = some c ∧
        ((p = u ∧ t < c.i_start) ∨ (p + 1 = l ∧ c.i_start < t))) →
      SearchOutcome cs t (bsearch_loop cue_Bsearch_Compare cs fuel key l u) := by
  intro fuel
  induction fuel with
  | zero =>
    intro key l u hf hlu hu hk hlo hhi hlast
    have hEq : l = u := by omega
    subst hEq
    exact ⟨hk, l, hu, hlo, hhi, hlast rfl⟩
  | succ n ih =>
    intro key l u hf hlu hu hk hlo hhi hlast
    unfold bsearch_loop
    by_cases hlt : l < u
    · have hidx : (l + u) / 2 < cs.length := by omega
      have hget : cs[(l + u) / 2]? = some cs[(l + u) / 2] := List.getElem?_eq_getElem hidx
      have hrg : -INT64_MAX ≤ key.cue.i_start - cs[(l + u) / 2].i_start ∧
          key.cue.i_start - cs[(l + u) / 2].i_start ≤ INT64_MAX := by
        rw [hk]
        exact hr _ (List.getElem_mem hidx)
      simp only [hlt, if_true, hget]
      by_cases hneg : (cue_Bsearch_Compare key ((l + u) / 2) cs[(l + u) / 2]).2 < 0
      · simp only [hneg, if_true]
        have hcmp : t < cs[(l + u) / 2].i_start := by
          have := (cue_Compare_neg_iff key.cue _ hrg).mp hneg
          simpa [hk] using this
        refine ih _ l ((l + u) / 2) (by omega) (by omega) (by omega) hk hlo ?_ ?_
        · intro j c hj hle
          exact lt_of_lt_of_le hcmp (sorted_getElem?_le hs hget hj hle)
        · intro _
          exact ⟨(l + u) / 2, cs[(l + u) / 2], rfl, hget, Or.inl ⟨rfl, hcmp⟩⟩
      · by_cases hpos : (cue_Bsearch_Compare key ((l + u) / 2) cs[(l + u) / 2]).2 > 0
        · simp only [hneg, if_false, hpos, if_true]
          have hcmp : cs[(l + u) / 2].i_start < t := by
            have := (cue_Compare_pos_iff key.cue _ hrg).mp hpos
            simpa [hk] using this
          refine ih _ ((l + u) / 2 + 1) u (by omega) (by omega) hu hk ?_ hhi ?_
          · intro j c hj hle
            exact lt_of_le_of_lt (sorted_getElem?_le hs hj hget (by omega)) hcmp
          · intro _
            exact ⟨(l + u) / 2, cs[(l + u) / 2], rfl, hget, Or.inr ⟨rfl, hcmp⟩⟩
        · simp only [hneg, if_false, hpos]
          refine ⟨hk, cs[(l + u) / 2], hget, ?_⟩
          have h1 : ¬ key.cue.i_start < cs[(l + u) / 2].i_start :=
            fun h => hneg ((cue_Compare_neg_iff key.cue _ hrg).mpr h)
          have h2 : ¬ cs[(l + u) / 2].i_start < key.cue.i_start :=
            fun h => hpos ((cue_Compare_pos_iff key.cue _ hrg).mpr h)
          omega
    · have hEq : l = u := by omega
      subst hEq
      simp only [hlt, if_false]
      exact ⟨hk, l, hu, hlo, hhi, hlast rfl⟩

/-- On a sorted store, for a time whose differences with the starts fit in `int64_t`,
`cue_GetIndexByTime` returns either the index of a cue starting exactly at `t`, or the
insertion point of `t` (every cue before it starts before `t`, every cue from it on
starts after `t`). -/
theorem cue_GetIndexByTime_cases (p_sys : demux_sys_t) (t : Int)
    (hs : SortedByStart p_sys.cues.p_array) (hr : DiffsInRange p_sys.cues.p_array t) :
    (∃ c, p_sys.cues.p_array[cue_GetIndexByTime p_sys t]? = some c ∧ c.i_start = t) ∨
    (cue_GetIndexByTime p_sys t ≤ p_sys.cues.p_array.length ∧
      (∀ j c, p_sys.cues.p_array[j]? = some c → j < cue_GetIndexByTime p_sys t →
        c.i_start < t) ∧
      (∀ j c, p_sys.cues.p_array[j]? = some c → cue_GetIndexByTime p_sys t ≤ j →
        t < c.i_start)) := by
  generalize hcs : p_sys.cues.p_array = cs at hs hr
  by_cases hne : cs = []
  · right
    subst hne
    simp [cue_GetIndexByTime, hcs]
  · have hlen : 0 < cs.length := List.length_pos.mpr hne
    have hrg : ∀ (j : Nat) (c : webvtt_cue_t) (k : cue_searchkey), cs[j]? = some c →
        k.cue.i_start = t →
        (-INT64_MAX ≤ c.i_start - k.cue.i_start ∧ c.i_start - k.cue.i_start ≤ INT64_MAX) := by
      intro j c k hj hk
      have := hr c (List.getElem?_mem hj)
      rw [hk]
      omega
    have H := bsearch_loop_outcome cs t hs hr cs.length
      { cue := { i_start := t, i_stop := 0, psz_id := none, psz_text := [],
                 psz_attrs := none }, p_last := none }
      0 cs.length (by omega) (by omega) (le_refl _) rfl
      (by intro j c _ hj; omega)
      (by intro j c hj hle
          have := (List.getElem?_eq_some.mp hj).1
          omega)
      (by intro h; omega)
    unfold cue_GetIndexByTime
    simp only [hcs, ne_eq, hne, not_false_eq_true, if_true, bsearch]
    generalize bsearch_loop cue_Bsearch_Compare cs cs.length _ 0 cs.length = r at H
    obtain ⟨k, o⟩ := r
    obtain ⟨hk, H⟩ := H
    cases o with
    | some p =>
      obtain ⟨c, hc, hct⟩ := H
      left
      simp only [hc]
      have hcmp : ¬ cue_Compare c k.cue < 0 := by
        rw [cue_Compare_neg_iff c k.cue (hrg _ c k hc hk)]
        simp only at hk
        omega
      simp only [hcmp, if_false]
      exact ⟨c, hc, hct⟩
    | none =>
      obtain ⟨m, hm, hlo, hhi, p, c, hp, hc, hpc⟩ := H
      right
      simp only at hp hk
      simp only [hp, hc]
      rcases hpc with ⟨rfl, hlt⟩ | ⟨rfl, hlt⟩
      · have hcmp : ¬ cue_Compare c k.cue < 0 := by
          rw [cue_Compare_neg_iff c k.cue (hrg _ c k hc hk)]; omega
        simp only [hcmp, if_false]
        exact ⟨hm, hlo, hhi⟩
      · have hcmp : cue_Compare c k.cue < 0 := by
          rw [cue_Compare_neg_iff c k.cue (hrg _ c k hc hk)]; omega
        simp only [hcmp, if_true]
        exact ⟨hm, hlo, hhi⟩

/-- C1 (as amended): on a store sorted by ascending start and for a time `t` whose
differences with the starts fit in `int64_t`, `cue_GetIndexByTime` returns
an index `i` between 0 and the count such that every cue before `i` starts at or before
`t` and every cue from `i` on starts at or after `t`; when some cue starts exactly at `t`
the cue at `i` is one of them (not necessarily the leftmost); when no cue starts exactly at
`t`, `i` is the smallest index whose cue starts at or after `t`, or the count if there is
none; and for `t` below the first cue's start (and on the empty store) it returns 0. -/
theorem cue_GetIndexByTime_sorted (p_sys : demux_sys_t) (t : Int)
    (hs : SortedByStart p_sys.cues.p_array) (hr : DiffsInRange p_sys.cues.p_array t) :
    cue_GetIndexByTime p_sys t ≤ p_sys.cues.i_count ∧
    (∀ j c, p_sys.cues.p_array[j]? = some c → j < cue_GetIndexByTime p_sys t →
      c.i_start ≤ t) ∧
    (∀ j c, p_sys.cues.p_array[j]? = some c → cue_GetIndexByTime p_sys t ≤ j →
      t ≤ c.i_start) ∧
    ((∃ c ∈ p_sys.cues.p_array, c.i_start = t) →
      ∃ c, p_sys.cues.p_array[cue_GetIndexByTime p_sys t]? = some c ∧ c.i_start = t) ∧
    ((∀ c ∈ p_sys.cues.p_array, c.i_start ≠ t) →
      IsFirstIndexAtOrAfter p_sys.cues.p_array t (cue_GetIndexByTime p_sys t)) ∧
    ((∀ c, p_sys.cues.p_array[0]? = some c → t < c.i_start) →
      cue_GetIndexByTime p_sys t = 0) ∧
    (p_sys.cues.p_array = [] → cue_GetIndexByTime p_sys t = 0) := by
  have hmem : ∀ j c, p_sys.cues.p_array[j]? = some c → c ∈ p_sys.cues.p_array :=
    fun j c h => List.getElem?_mem h
  have hlen : ∀ j c, p_sys.cues.p_array[j]? = some c → j < p_sys.cues.p_array.length :=
    fun j c h => (List.getElem?_eq_some.mp h).1
  have hlast : p_sys.cues.p_array = [] → cue_GetIndexByTime p_sys t = 0 := by
    intro h
    simp [cue_GetIndexByTime, h]
  rcases cue_GetIndexByTime_cases p_sys t hs hr with ⟨c, hc, hct⟩ | ⟨hle, hlo, hhi⟩
  · refine ⟨le_of_lt (hlen _ _ hc), ?_, ?_, fun _ => ⟨c, hc, hct⟩, ?_, ?_, hlast⟩
    · intro j d hd hj
      have := sorted_getElem?_le hs hd hc (le_of_lt hj)
      omega
    · intro j d hd hj
      have := sorted_getElem?_le hs hc hd hj
      omega
    · intro hno
      exact absurd hct (hno c (hmem _ _ hc))
    · intro h0
      by_contra hne
      obtain ⟨d, hd⟩ : ∃ d, p_sys.cues.p_array[0]? = some d := by
        have : 0 < p_sys.cues.p_array.length := by have := hlen _ _ hc; omega
        exact ⟨_, List.getElem?_eq_getElem this⟩
      have h1 := h0 d hd
      have h2 := sorted_getElem?_le hs hd hc (Nat.zero_le _)
      omega
  · refine ⟨hle, ?_, ?_, ?_, ?_, ?_, hlast⟩
    · intro j d hd hj
      exact le_of_lt (hlo j d hd hj)
    · intro j d hd hj
      exact le_of_lt (hhi j d hd hj)
    · rintro ⟨c, hc, hct⟩
      obtain ⟨j, hj⟩ := List.getElem?_of_mem hc
      rcases Nat.lt_or_ge j (cue_GetIndexByTime p_sys t) with h | h
      · have := hlo j c hj h; omega
      · have := hhi j c hj h; omega
    · intro _
      exact ⟨hle, hlo, fun c hc => le_of_lt (hhi _ c hc (le_refl _))⟩
    · intro h0
      by_contra hne
      obtain ⟨d, hd⟩ : ∃ d, p_sys.cues.p_array[0]? = some d := by
        have : 0 < p_sys.cues.p_array.length := by omega
        exact ⟨_, List.getElem?_eq_getElem this⟩
      have h1 := h0 d hd
      have h2 := hlo 0 d hd (by omega)
      omega

/-- Witness for C1 (as amended): the sorted store with starts 0, 0, 5 and `t = 3`. -/
theorem cue_GetIndexByTime_sorted_witness :
    SortedByStart [scenarioA_cue, scenarioA_cue, { scenarioA_cue with i_start := 5 }] ∧
    DiffsInRange [scenarioA_cue, scenarioA_cue, { scenarioA_cue with i_start := 5 }] 3 ∧
    IsFirstIndexAtOrAfter [scenarioA_cue, scenarioA_cue, { scenarioA_cue with i_start := 5 }] 3
      (cue_GetIndexByTime
        (store [scenarioA_cue, scenarioA_cue, { scenarioA_cue with i_start := 5 }]) 3) :=
  ⟨by unfold SortedByStart; decide, by unfold DiffsInRange; decide,
   (cue_GetIndexByTime_sorted
      (store [scenarioA_cue, scenarioA_cue, { scenarioA_cue with i_start := 5 }]) 3
      (by unfold SortedByStart store; decide)
      (by unfold DiffsInRange store; decide)).2.2.2.2.1 (by decide)⟩

/-- Counterexample to C1 as stated: on the sorted store of scenario B (two cues starting
at 0) and `t = 0`, `cue_GetIndexByTime` returns 1, the second of the two equal cues, which
is not the smallest index whose cue starts at or after 0. -/
theorem cue_GetIndexByTime_not_leftmost :
    SortedByStart scenarioB_cues ∧ cue_GetIndexByTime (store scenarioB_cues) 0 = 1 ∧
    ¬ IsFirstIndexAtOrAfter scenarioB_cues 0 (cue_GetIndexByTime (store scenarioB_cues) 0) := by
  refine ⟨by unfold SortedByStart; decide, by decide, ?_⟩
  have h : cue_GetIndexByTime (store scenarioB_cues) 0 = 1 := by decide
  rw [h]
  rintro ⟨_, hlo, _⟩
  have := hlo 0 ⟨0, 1000000, some [98], [], none⟩ (by decide) (by omega)
  simp at this

/-- Counterexample to C2 as stated: the store of one cue starting at -2 is sorted and not
empty, and `INT64_MAX` is strictly greater than its start; the `int64_t` difference of
the two wraps around, and `cue_GetIndexByTime` returns 0, not the count 1. -/
theorem cue_GetIndexByTime_far_past_end :
    SortedByStart [cue_starting_at (-2)] ∧
    (∀ c ∈ [cue_starting_at (-2)], c.i_start < INT64_MAX) ∧
    (store [cue_starting_at (-2)]).cues.i_count = 1 ∧
    to_int64 (INT64_MAX - (cue_starting_at (-2)).i_start) = -9223372036854775807 ∧
    cue_GetIndexByTime (store [cue_starting_at (-2)]) INT64_MAX = 0 ∧
    ¬ cue_GetIndexByTime (store [cue_starting_at (-2)]) INT64_MAX =
      (store [cue_starting_at (-2)]).cues.i_count := by
  refine ⟨by unfold SortedByStart; decide, by decide, by decide, by decide, by decide,
    by decide⟩

/-- C2 (as amended): on a non-empty sorted store, for a time `t` strictly greater than
every cue's start and whose differences with the starts fit in `int64_t`,
`cue_GetIndexByTime` returns the count. -/
theorem cue_GetIndexByTime_past_end (p_sys : demux_sys_t) (t : Int)
    (hne : p_sys.cues.p_array ≠ []) (hs : SortedByStart p_sys.cues.p_array)
    (hr : DiffsInRange p_sys.cues.p_array t)
    (hall : ∀ c ∈ p_sys.cues.p_array, c.i_start < t) :
    cue_GetIndexByTime p_sys t = p_sys.cues.i_count := by
  have _ := hne
  unfold cue_array.i_count
  rcases cue_GetIndexByTime_cases p_sys t hs hr with ⟨c, hc, hct⟩ | ⟨hle, _, hhi⟩
  · have := hall c (List.getElem?_mem hc)
    omega
  · by_contra hneq
    have hlt : cue_GetIndexByTime p_sys t < p_sys.cues.p_array.length := by omega
    have hget := List.getElem?_eq_getElem hlt
    have h1 := hhi _ _ hget (le_refl _)
    have h2 := hall _ (List.getElem?_mem hget)
    omega

/-- Witness for C2 (as amended), the example of the claim: the single-cue store of
scenario A and `t = 1000001` give index 1. -/
theorem cue_GetIndexByTime_past_end_witness :
    cue_GetIndexByTime (store [scenarioA_cue]) 1000001 = 1 :=
  cue_GetIndexByTime_past_end (store [scenarioA_cue]) 1000001 (by decide)
    (by unfold SortedByStart store; decide) (by unfold DiffsInRange store; decide)
    (by decide)

/-- Counterexample to C3 as stated: on the single-cue store of scenario A,
`cue_GetIndexByTime (500000)` does not return 0. -/
theorem scenarioA_first_query_not_zero :
    ¬ cue_GetIndexByTime (store [scenarioA_cue]) 500000 = 0 := by
  decide

/-- C3 (as amended): on the single-cue store of scenario A, `cue_GetIndexByTime (500000)`
returns 1, the count, since the only cue starts before 500000. -/
theorem scenarioA_first_query :
    cue_GetIndexByTime (store [scenarioA_cue]) 500000 = 1 := by
  decide

/-! ## Theorems: box encoder -/

theorem length_cstr_bytes (s : List Nat) : (cstr_bytes s).length = strlen s := rfl

theorem take_strlen (s : List Nat) : s.take (strlen s) = cstr_bytes s := by
  unfold strlen cstr_bytes
  exact (List.prefix_iff_eq_take.mp (List.takeWhile_prefix _)).symm

theorem SetDWBE_header (a b c d n : Nat) :
    (SetDWBE [0, 0, 0, 0, a, b, c, d] n).take 8 = be32 n ++ [a, b, c, d] := by
  simp only [SetDWBE, be32, List.drop_succ_cons, List.drop_zero, List.cons_append,
    List.nil_append, List.take_succ_cons, List.take_zero]
  have h1 : n % 2 ^ 32 / 16777216 % 256 = n / 16777216 % 256 := by omega
  have h2 : n % 2 ^ 32 / 65536 % 256 = n / 65536 % 256 := by omega
  have h3 : n % 2 ^ 32 / 256 % 256 = n / 256 % 256 := by omega
  have h4 : n % 2 ^ 32 % 256 = n % 256 := by omega
  rw [h1, h2, h3, h4]

theorem length_opt_box (tag : List Nat) (s : Option (List Nat)) (ht : tag.length = 4) :
    (opt_box tag s).length = match s with
      | some str => 8 + strlen str
      | none => 0 := by
  cases s with
  | none => rfl
  | some str => simp [opt_box, box, be32, ht, strlen, cstr_bytes]; omega

theorem length_encode_content (cue : webvtt_cue_t) :
    8 + (opt_box tag_iden cue.psz_id ++ opt_box tag_sttg cue.psz_attrs ++
      box tag_payl (cstr_bytes cue.psz_text)).length = vttcsize cue := by
  simp only [List.length_append, length_opt_box tag_iden _ rfl,
    length_opt_box tag_sttg _ rfl, vttcsize, box, be32, tag_payl, List.length_cons,
    List.length_nil, strlen, cstr_bytes]
  omega

theorem encode_spec_eq (cue : webvtt_cue_t) (cont : Bool) :
    encode_spec cue cont =
      be32 (vttcsize cue) ++ (if cont then tag_vttx else tag_vttc) ++
        (opt_box tag_iden cue.psz_id ++ opt_box tag_sttg cue.psz_attrs ++
          box tag_payl (cstr_bytes cue.psz_text)) := by
  rw [encode_spec, box, length_encode_content]

/-- The encoder's result in closed form: nothing when an allocation fails, and otherwise
a fresh block holding exactly the bytes of `encode_spec`. -/
theorem ConvertWEBVTT_eq (mem : alloc_outcome) (cue : webvtt_cue_t) (cont : Bool) :
    ConvertWEBVTT mem cue cont =
      if mem.open_ok = true ∧ mem.close_ok = true ∧ mem.block_ok = true then
        some { p_buffer := encode_spec cue cont, i_buffer := (encode_spec cue cont).length,
               i_flags := 0, i_pts := VLC_TS_INVALID, i_dts := VLC_TS_INVALID,
               i_length := 0 }
      else none := by
  have hbuf : ∀ stream : vlc_memstream, stream.ptr = encode_spec cue cont →
      (match vlc_memstream_close mem.close_ok stream with
        | some (ptr, length) => block_heap_Alloc mem.block_ok ptr length
        | none => none) =
      if mem.close_ok = true ∧ mem.block_ok = true then
        some { p_buffer := encode_spec cue cont, i_buffer := (encode_spec cue cont).length,
               i_flags := 0, i_pts := VLC_TS_INVALID, i_dts := VLC_TS_INVALID,
               i_length := 0 }
      else none := by
    intro stream hstream
    obtain ⟨o, c, b⟩ := mem
    cases c <;> cases b <;>
      simp [vlc_memstream_close, block_heap_Alloc, hstream]
  unfold ConvertWEBVTT
  cases ho : mem.open_ok with
  | false => simp [vlc_memstream_open]
  | true =>
    simp only [vlc_memstream_open, if_true, true_and]
    apply hbuf
    have hsize : 8 + (8 + strlen cue.psz_text) +
        (match cue.psz_attrs with
          | some psz_attrs => 8 + strlen psz_attrs
          | none => 0) +
        (match cue.psz_id with
          | some psz_id => 8 + strlen psz_id
          | none => 0) = vttcsize cue := rfl
    rw [hsize]
    rw [encode_spec_eq]
    obtain ⟨st, sp, id, text, attrs⟩ := cue
    cases cont <;> cases id <;> cases attrs <;>
      simp only [vlc_memstream_write, SetDWBE_header, take_strlen, opt_box, box,
        tag_vttc, tag_vttx, tag_iden, tag_sttg, tag_payl, List.set, Nat.add_sub_cancel_left,
        List.nil_append, List.append_assoc, if_true, if_false, Bool.false_eq_true,
        List.append_nil, length_cstr_bytes]

theorem length_encode_spec (cue : webvtt_cue_t) (cont : Bool) :
    (encode_spec cue cont).length = vttcsize cue := by
  have h := length_encode_content cue
  rw [encode_spec_eq]
  cases cont <;>
    simp only [List.length_append, be32, tag_vttx, tag_vttc, List.length_cons,
      List.length_nil, if_true, if_false, Bool.false_eq_true] at h ⊢ <;> omega

theorem GetDWBE_be32 (n : Nat) (rest : List Nat) :
    GetDWBE (be32 n ++ rest) = n % 2 ^ 32 := by
  simp only [GetDWBE, be32, List.cons_append, List.getD_cons_zero, List.getD_cons_succ]
  omega

theorem length_box (tag content : List Nat) (ht : tag.length = 4) :
    (box tag content).length = 8 + content.length := by
  simp only [box, be32, List.length_append, List.length_cons, List.length_nil, ht]

theorem cstr_bytes_of_nul_free (s : List Nat) (h : ∀ b ∈ s, b ≠ 0) : cstr_bytes s = s := by
  unfold cstr_bytes
  rw [List.takeWhile_eq_self_iff]
  intro x hx
  simpa using h x hx

theorem read_box_box (tag content rest : List Nat) (ht : tag.length = 4)
    (hfit : 8 + content.length < 2 ^ 32) :
    read_box (box tag content ++ rest) = some (tag, content, rest) := by
  have hlen : (box tag content ++ rest).length = 8 + content.length + rest.length := by
    rw [List.length_append, length_box tag content ht]
  have hget : GetDWBE (box tag content ++ rest) = 8 + content.length := by
    rw [box, List.append_assoc, List.append_assoc, GetDWBE_be32, Nat.mod_eq_of_lt hfit]
  unfold read_box
  rw [hget, hlen]
  have h1 : ¬ (8 + content.length + rest.length < 8) := by omega
  have h2 : ¬ (8 + content.length < 8 ∨ 8 + content.length + rest.length < 8 + content.length) := by
    omega
  simp only [h1, h2, if_false]
  have e1 : List.take 4 (List.drop 4 (box tag content ++ rest)) = tag := by
    rw [box, List.append_assoc, List.append_assoc, List.drop_left' (by simp [be32]),
      List.take_left' ht]
  have e2 : List.drop 8 (List.take (8 + content.length) (box tag content ++ rest)) =
      content := by
    rw [List.take_left' (length_box tag content ht), box,
      List.drop_left' (by simp [be32, ht])]
  have e3 : List.drop (8 + content.length) (box tag content ++ rest) = rest := by
    rw [List.drop_left' (length_box tag content ht)]
  rw [e1, e2, e3]

/-- The bytes of a sequence of boxes. -/
theorem read_boxes_boxes (children : List (List Nat × List Nat))
    (hc : ∀ tc ∈ children, tc.1.length = 4 ∧ 8 + tc.2.length < 2 ^ 32) :
    ∀ fuel, children.length ≤ fuel →
      read_boxes fuel (children.flatMap (fun tc => box tc.1 tc.2)) = some children := by
  induction children with
  | nil => intro fuel _; cases fuel <;> rfl
  | cons tc more ih =>
    intro fuel hf
    obtain ⟨n, rfl⟩ : ∃ n, fuel = n + 1 := ⟨fuel - 1, by simp at hf; omega⟩
    obtain ⟨ht, hfit⟩ := hc tc (List.mem_cons_self _ _)
    have hrest := ih (fun x hx => hc x (List.mem_cons_of_mem _ hx)) n
      (by simp at hf; omega)
    rw [List.flatMap_cons]
    have hcons : ∃ b bs, box tc.1 tc.2 ++ more.flatMap (fun tc => box tc.1 tc.2) = b :: bs :=
      ⟨_, _, by simp only [box, be32, List.cons_append]; rfl⟩
    obtain ⟨b, bs, hb⟩ := hcons
    rw [hb, read_boxes, ← hb, read_box_box _ _ _ ht hfit]
    simp only [hrest]

/-- The sub-boxes of an encoded cue, as (tag, content) pairs. -/
theorem encode_content_flatMap (cue : webvtt_cue_t) :
    opt_box tag_iden cue.psz_id ++ opt_box tag_sttg cue.psz_attrs ++
        box tag_payl (cstr_bytes cue.psz_text) =
      (((cue.psz_id.map (fun s => (tag_iden, cstr_bytes s))).toList ++
        (cue.psz_attrs.map (fun s => (tag_sttg, cstr_bytes s))).toList ++
        [(tag_payl, cstr_bytes cue.psz_text)]).flatMap (fun tc => box tc.1 tc.2)) := by
  obtain ⟨st, sp, id, text, attrs⟩ := cue
  cases id <;> cases attrs <;> simp [opt_box]

/-- Decoding what the spec's encoding describes gives back the C strings of the cue, as
long as the total size fits the 32-bit length field. -/
theorem decode_encode_spec (cue : webvtt_cue_t) (cont : Bool) (hfit : vttcsize cue < 2 ^ 32) :
    decode_cue (encode_spec cue cont) =
      some { continuation := cont, id := cue.psz_id.map cstr_bytes,
             attrs := cue.psz_attrs.map cstr_bytes, text := cstr_bytes cue.psz_text } := by
  have hlen := length_encode_content cue
  have htag : (if cont = true then tag_vttx else tag_vttc).length = 4 := by
    cases cont <;> rfl
  have hbox := read_box_box (if cont = true then tag_vttx else tag_vttc)
    (opt_box tag_iden cue.psz_id ++ opt_box tag_sttg cue.psz_attrs ++
      box tag_payl (cstr_bytes cue.psz_text)) [] htag (by omega)
  rw [List.append_nil] at hbox
  unfold decode_cue
  rw [encode_spec, hbox]
  have htagok : (if cont = true then tag_vttx else tag_vttc) = tag_vttc ∨
      (if cont = true then tag_vttx else tag_vttc) = tag_vttx := by
    cases cont <;> simp
  have hcont : decide ((if cont = true then tag_vttx else tag_vttc) = tag_vttx) = cont := by
    cases cont <;> decide
  simp only [htagok, if_true, hcont]
  have hchildren := read_boxes_boxes
    ((cue.psz_id.map (fun s => (tag_iden, cstr_bytes s))).toList ++
      (cue.psz_attrs.map (fun s => (tag_sttg, cstr_bytes s))).toList ++
      [(tag_payl, cstr_bytes cue.psz_text)])
    (by
      obtain ⟨st, sp, id, text, attrs⟩ := cue
      intro tc htc
      have h1 : 8 + (8 + strlen text) ≤ vttcsize ⟨st, sp, id, text, attrs⟩ := by
        unfold vttcsize; simp only; omega
      have h2 : ∀ s, id = some s → 8 + strlen s ≤ vttcsize ⟨st, sp, id, text, attrs⟩ := by
        intro s hs; subst hs; unfold vttcsize; simp only; omega
      have h3 : ∀ s, attrs = some s → 8 + strlen s ≤ vttcsize ⟨st, sp, id, text, attrs⟩ := by
        intro s hs; subst hs; unfold vttcsize; simp only; omega
      simp only [List.mem_append, Option.mem_toList, Option.mem_def, Option.map_eq_some',
        List.mem_singleton] at htc
      rcases htc with (⟨s, hs, rfl⟩ | ⟨s, hs, rfl⟩) | rfl
      · exact ⟨rfl, by have := h2 s hs; rw [length_cstr_bytes]; omega⟩
      · exact ⟨rfl, by have := h3 s hs; rw [length_cstr_bytes]; omega⟩
      · exact ⟨rfl, by rw [length_cstr_bytes]; omega⟩)
    (opt_box tag_iden cue.psz_id ++ opt_box tag_sttg cue.psz_attrs ++
      box tag_payl (cstr_bytes cue.psz_text)).length
    (by
      obtain ⟨st, sp, id, text, attrs⟩ := cue
      cases id <;> cases attrs <;>
        simp [opt_box, length_box, tag_iden, tag_sttg, tag_payl] <;> omega)
  rw [← encode_content_flatMap] at hchildren
  rw [hchildren]
  obtain ⟨st, sp, id, text, attrs⟩ := cue
  cases id <;> cases attrs <;>
    simp [List.lookup, tag_iden, tag_sttg, tag_payl]

theorem ConvertWEBVTT_mem_ok (cue : webvtt_cue_t) (cont : Bool) :
    ConvertWEBVTT mem_ok cue cont =
      some { p_buffer := encode_spec cue cont, i_buffer := (encode_spec cue cont).length,
             i_flags := 0, i_pts := VLC_TS_INVALID, i_dts := VLC_TS_INVALID,
             i_length := 0 } := by
  rw [ConvertWEBVTT_eq]
  simp [mem_ok]

theorem box_header (tag content : List Nat) (ht : tag.length = 4)
    (hfit : 8 + content.length < 2 ^ 32) :
    ∃ h, box tag content = h ++ content ∧ h.length = 8 ∧ GetDWBE h = 8 + content.length := by
  refine ⟨be32 (8 + content.length) ++ tag, rfl, ?_, ?_⟩
  · simp [be32, ht]
  · rw [GetDWBE_be32, Nat.mod_eq_of_lt hfit]

theorem strlen_le_vttcsize (cue : webvtt_cue_t) :
    8 + (8 + strlen cue.psz_text) ≤ vttcsize cue ∧
    (∀ s, cue.psz_id = some s → 8 + (8 + strlen s) ≤ vttcsize cue) ∧
    (∀ s, cue.psz_attrs = some s → 8 + (8 + strlen s) ≤ vttcsize cue) := by
  obtain ⟨st, sp, id, text, attrs⟩ := cue
  refine ⟨?_, ?_, ?_⟩
  · unfold vttcsize; simp only; omega
  · intro s hs; simp only at hs; subst hs; unfold vttcsize; simp only; omega
  · intro s hs; simp only at hs; subst hs; unfold vttcsize; simp only; omega

/-- C6 (as amended): for every cue whose encoded size `vttcsize` is below `2 ^ 32` and
either continuation value, the output of `ConvertWEBVTT` is an 8-byte header followed by
the `iden`, `sttg` and `payl` sub-boxes; the top length field equals 8 plus the sum of the
sub-box lengths, which is the total number of bytes produced (also the block's
`i_buffer`); each sub-box present is an 8-byte header followed by the bytes of its C
string (nothing after them), and its length field equals 8 plus the length of those
bytes; `iden` and `sttg` are empty when the id or the attributes are not set. -/
theorem ConvertWEBVTT_lengths (cue : webvtt_cue_t) (cont : Bool)
    (hfit : vttcsize cue < 2 ^ 32) :
    ∃ b hdr iden sttg payl, ConvertWEBVTT mem_ok cue cont = some b ∧
      b.p_buffer = hdr ++ iden ++ sttg ++ payl ∧ hdr.length = 8 ∧
      GetDWBE hdr = 8 + (iden.length + sttg.length + payl.length) ∧
      GetDWBE hdr = b.p_buffer.length ∧ b.i_buffer = b.p_buffer.length ∧
      (match cue.psz_id with
        | some s => ∃ h, iden = h ++ cstr_bytes s ∧ h.length = 8 ∧
            GetDWBE h = 8 + (cstr_bytes s).length
        | none => iden = []) ∧
      (match cue.psz_attrs with
        | some s => ∃ h, sttg = h ++ cstr_bytes s ∧ h.length = 8 ∧
            GetDWBE h = 8 + (cstr_bytes s).length
        | none => sttg = []) ∧
      (∃ h, payl = h ++ cstr_bytes cue.psz_text ∧ h.length = 8 ∧
        GetDWBE h = 8 + (cstr_bytes cue.psz_text).length) := by
  obtain ⟨htext, hid, hattrs⟩ := strlen_le_vttcsize cue
  have hsum := length_encode_content cue
  simp only [List.length_append] at hsum
  refine ⟨_, be32 (vttcsize cue) ++ (if cont = true then tag_vttx else tag_vttc),
    opt_box tag_iden cue.psz_id, opt_box tag_sttg cue.psz_attrs,
    box tag_payl (cstr_bytes cue.psz_text), ConvertWEBVTT_mem_ok cue cont, ?_, ?_, ?_, ?_,
    rfl, ?_, ?_, ?_⟩
  · simp only [encode_spec_eq, List.append_assoc]
  · cases cont <;> rfl
  · rw [GetDWBE_be32, Nat.mod_eq_of_lt hfit]
    omega
  · rw [GetDWBE_be32, Nat.mod_eq_of_lt hfit]
    exact (length_encode_spec cue cont).symm
  · cases h : cue.psz_id with
    | none => rfl
    | some s =>
      exact box_header tag_iden (cstr_bytes s) rfl
        (by have := hid s h; rw [length_cstr_bytes]; omega)
  · cases h : cue.psz_attrs with
    | none => rfl
    | some s =>
      exact box_header tag_sttg (cstr_bytes s) rfl
        (by have := hattrs s h; rw [length_cstr_bytes]; omega)
  · exact box_header tag_payl (cstr_bytes cue.psz_text) rfl
      (by rw [length_cstr_bytes]; omega)

/-- Witness for C6 (as amended): the cue of scenario A, as a continuation. -/
theorem ConvertWEBVTT_lengths_witness :
    vttcsize scenarioA_cue < 2 ^ 32 ∧
    ∃ b hdr iden sttg payl, ConvertWEBVTT mem_ok scenarioA_cue true = some b ∧
      b.p_buffer = hdr ++ iden ++ sttg ++ payl ∧ hdr.length = 8 ∧
      GetDWBE hdr = 8 + (iden.length + sttg.length + payl.length) ∧
      GetDWBE hdr = b.p_buffer.length ∧ b.i_buffer = b.p_buffer.length ∧
      (match scenarioA_cue.psz_id with
        | some s => ∃ h, iden = h ++ cstr_bytes s ∧ h.length = 8 ∧
            GetDWBE h = 8 + (cstr_bytes s).length
        | none => iden = []) ∧
      (match scenarioA_cue.psz_attrs with
        | some s => ∃ h, sttg = h ++ cstr_bytes s ∧ h.length = 8 ∧
            GetDWBE h = 8 + (cstr_bytes s).length
        | none => sttg = []) ∧
      (∃ h, payl = h ++ cstr_bytes scenarioA_cue.psz_text ∧ h.length = 8 ∧
        GetDWBE h = 8 + (cstr_bytes scenarioA_cue.psz_text).length) :=
  ⟨by decide, ConvertWEBVTT_lengths scenarioA_cue true (by decide)⟩

theorem cstr_bytes_replicate (n : Nat) : cstr_bytes (List.replicate n 65) = List.replicate n 65 :=
  cstr_bytes_of_nul_free _ (fun b hb => by rw [List.eq_of_mem_replicate hb]; decide)

theorem encode_spec_long_text (n : Nat) :
    encode_spec (long_text_cue n) false =
      be32 (16 + n) ++ (tag_vttc ++ (be32 (8 + n) ++ tag_payl ++ List.replicate n 65)) := by
  have hv : vttcsize (long_text_cue n) = 16 + n := by
    simp only [vttcsize, long_text_cue, ← length_cstr_bytes, cstr_bytes_replicate,
      List.length_replicate]
    omega
  rw [encode_spec_eq, hv]
  simp only [long_text_cue, opt_box, box, cstr_bytes_replicate, List.length_replicate,
    List.nil_append, List.append_assoc, if_false, Bool.false_eq_true]

theorem long_text_block (n : Nat) :
    ∃ b, ConvertWEBVTT mem_ok (long_text_cue n) false = some b ∧
      b.p_buffer.length = 16 + n ∧ GetDWBE b.p_buffer = (16 + n) % 2 ^ 32 ∧
      (b.p_buffer.drop 8).take 8 = be32 (8 + n) ++ tag_payl := by
  refine ⟨_, ConvertWEBVTT_mem_ok _ _, ?_, ?_, ?_⟩
  · show (encode_spec (long_text_cue n) false).length = 16 + n
    rw [encode_spec_long_text]
    simp only [List.length_append, List.length_replicate, be32, tag_vttc, tag_payl,
      List.length_cons, List.length_nil]
    omega
  · show GetDWBE (encode_spec (long_text_cue n) false) = (16 + n) % 2 ^ 32
    rw [encode_spec_long_text, GetDWBE_be32]
  · show ((encode_spec (long_text_cue n) false).drop 8).take 8 = be32 (8 + n) ++ tag_payl
    have h8 : (be32 (16 + n) ++ tag_vttc).length = 8 := rfl
    have h8' : (be32 (8 + n) ++ tag_payl).length = 8 := rfl
    rw [encode_spec_long_text, ← List.append_assoc (be32 (16 + n)), List.drop_left' h8,
      List.take_left' h8']

/-- Counterexample to C6 as stated: for the cue whose text is 4294967288 bytes long
(`2 ^ 32 - 8`), the top box declares length 8 while 4294967304 bytes are produced, and
the `payl` box that starts at offset 8 declares length 0. -/
theorem ConvertWEBVTT_length_field_wraps :
    ∃ b, ConvertWEBVTT mem_ok (long_text_cue 4294967288) false = some b ∧
      b.p_buffer.length = 4294967304 ∧ GetDWBE b.p_buffer = 8 ∧
      (b.p_buffer.drop 8).take 8 = [0, 0, 0, 0, 112, 97, 121, 108] ∧
      ¬ GetDWBE b.p_buffer = b.p_buffer.length := by
  obtain ⟨b, hb, hlen, hget, hpayl⟩ := long_text_block 4294967288
  have e1 : (16 + 4294967288) % 2 ^ 32 = 8 := by norm_num
  have e2 : be32 (8 + 4294967288) ++ tag_payl = [0, 0, 0, 0, 112, 97, 121, 108] := by
    norm_num [be32, tag_payl]
  rw [e1] at hget
  rw [e2] at hpayl
  refine ⟨b, hb, by omega, hget, hpayl, by omega⟩

theorem be32_mod (n : Nat) : be32 (n % 2 ^ 32) = be32 n := by
  unfold be32
  congr 1
  · omega
  · congr 1
    · omega
    · congr 1
      · omega
      · congr 1
        omega

theorem GetDWBE_box (tag content : List Nat) (ht : tag.length = 4)
    (hfit : 8 + content.length < 2 ^ 32) :
    GetDWBE (box tag content) = (box tag content).length := by
  rw [length_box tag content ht]
  unfold box
  rw [List.append_assoc, GetDWBE_be32, Nat.mod_eq_of_lt hfit]

theorem long_text_header (n : Nat) :
    ∃ b, ConvertWEBVTT mem_ok (long_text_cue n) false = some b ∧
      b.p_buffer.length = 16 + n ∧ b.p_buffer.take 8 = be32 (16 + n) ++ tag_vttc := by
  obtain ⟨b, hb, hlen, _, _⟩ := long_text_block n
  refine ⟨b, hb, hlen, ?_⟩
  have hbuf : b.p_buffer = encode_spec (long_text_cue n) false := by
    rw [ConvertWEBVTT_mem_ok] at hb
    simp only [Option.some.injEq] at hb
    rw [← hb]
  have h8 : (be32 (16 + n) ++ tag_vttc).length = 8 := rfl
  rw [hbuf, encode_spec_long_text, ← List.append_assoc (be32 (16 + n)), List.take_left' h8]

/-- Counterexample to C7 as stated: for the cue whose text is 4294967288 bytes long
(`2 ^ 32 - 8`), 4294967304 bytes are produced and the 8-byte header is the field 8
followed by `vttc`: its length field is not the total length. -/
theorem ConvertWEBVTT_header_not_total_length :
    ∃ b, ConvertWEBVTT mem_ok (long_text_cue 4294967288) false = some b ∧
      b.p_buffer.length = 4294967304 ∧
      b.p_buffer.take 8 = [0, 0, 0, 8, 118, 116, 116, 99] ∧
      ¬ GetDWBE (b.p_buffer.take 8) = b.p_buffer.length := by
  obtain ⟨b, hb, hlen, hhdr⟩ := long_text_header 4294967288
  have e : be32 (16 + 4294967288) ++ tag_vttc = [0, 0, 0, 8, 118, 116, 116, 99] := by
    norm_num [be32, tag_vttc]
  rw [e] at hhdr
  refine ⟨b, hb, by omega, hhdr, ?_⟩
  rw [hhdr, hlen]
  decide

/-- C7 (as amended): the bytes produced by `ConvertWEBVTT` are exactly an 8-byte header
(a big-endian 32-bit field holding the low 32 bits of the total length, then the tag
`vttc`, or `vttx` for a continuation), followed by an `iden` box carrying the id bytes if
and only if the id is set, then an `sttg` box carrying the attribute bytes if and only if
they are set, then the `payl` box carrying the text bytes, and nothing else; when the
total length is below `2 ^ 32` the field of the header is the total length and the field
of each sub-box is the length of that sub-box; for scenario C (`{id:null, attrs:null,
text:"Hi"}`, no continuation) this is 18 bytes tagged `vttc` holding only a 10-byte `payl`
box. -/
theorem ConvertWEBVTT_layout :
    (∀ (cue : webvtt_cue_t) (cont : Bool),
      ∃ b, ConvertWEBVTT mem_ok cue cont = some b ∧ b.i_buffer = b.p_buffer.length ∧
        b.p_buffer =
          be32 (b.p_buffer.length % 2 ^ 32) ++ (if cont = true then tag_vttx else tag_vttc) ++
            (match cue.psz_id with
              | some s => box tag_iden (cstr_bytes s)
              | none => []) ++
            (match cue.psz_attrs with
              | some s => box tag_sttg (cstr_bytes s)
              | none => []) ++
            box tag_payl (cstr_bytes cue.psz_text) ∧
        (b.p_buffer.length < 2 ^ 32 →
          GetDWBE b.p_buffer = b.p_buffer.length ∧
          (∀ s, cue.psz_id = some s →
            GetDWBE (box tag_iden (cstr_bytes s)) = (box tag_iden (cstr_bytes s)).length) ∧
          (∀ s, cue.psz_attrs = some s →
            GetDWBE (box tag_sttg (cstr_bytes s)) = (box tag_sttg (cstr_bytes s)).length) ∧
          GetDWBE (box tag_payl (cstr_bytes cue.psz_text)) =
            (box tag_payl (cstr_bytes cue.psz_text)).length)) ∧
    (∃ b, ConvertWEBVTT mem_ok scenarioC_cue false = some b ∧ b.p_buffer.length = 18 ∧
      b.p_buffer = be32 18 ++ tag_vttc ++ box tag_payl [72, 105] ∧
      (box tag_payl [72, 105]).length = 10 ∧
      b.p_buffer =
        [0, 0, 0, 18, 118, 116, 116, 99, 0, 0, 0, 10, 112, 97, 121, 108, 72, 105]) := by
  constructor
  · intro cue cont
    refine ⟨_, ConvertWEBVTT_mem_ok cue cont, rfl, ?_, ?_⟩
    · show encode_spec cue cont =
        be32 ((encode_spec cue cont).length % 2 ^ 32) ++ _ ++ _ ++ _ ++ _
      rw [be32_mod, length_encode_spec, encode_spec_eq]
      simp only [List.append_assoc]
      rfl
    · show (encode_spec cue cont).length < 2 ^ 32 → _
      intro hfit
      rw [length_encode_spec] at hfit
      obtain ⟨htext, hid, hattrs⟩ := strlen_le_vttcsize cue
      refine ⟨?_, ?_, ?_, ?_⟩
      · show GetDWBE (encode_spec cue cont) = (encode_spec cue cont).length
        rw [length_encode_spec, encode_spec_eq, List.append_assoc, GetDWBE_be32,
          Nat.mod_eq_of_lt hfit]
      · intro s hs
        exact GetDWBE_box tag_iden _ rfl (by have := hid s hs; rw [length_cstr_bytes]; omega)
      · intro s hs
        exact GetDWBE_box tag_sttg _ rfl
          (by have := hattrs s hs; rw [length_cstr_bytes]; omega)
      · exact GetDWBE_box tag_payl _ rfl (by rw [length_cstr_bytes]; omega)
  · exact ⟨_, ConvertWEBVTT_mem_ok scenarioC_cue false, by decide, by decide, by decide,
      by decide⟩

/-- C8 (as amended): round trip.  For every cue whose encoded size `vttcsize` is below
`2 ^ 32`, with NUL-free id, attributes and text, and every continuation flag, decoding the
output of `ConvertWEBVTT` with the generic box reader recovers the same optional id, the
same optional attributes (absent stays absent, set-but-empty stays set), the same text
and the same continuation flag. -/
theorem decode_ConvertWEBVTT (cue : webvtt_cue_t) (cont : Bool)
    (hfit : vttcsize cue < 2 ^ 32)
    (hid : ∀ s, cue.psz_id = some s → ∀ b ∈ s, b ≠ 0)
    (hattrs : ∀ s, cue.psz_attrs = some s → ∀ b ∈ s, b ≠ 0)
    (htext : ∀ b ∈ cue.psz_text, b ≠ 0) :
    ∃ b, ConvertWEBVTT mem_ok cue cont = some b ∧
      decode_cue b.p_buffer =
        some { continuation := cont, id := cue.psz_id, attrs := cue.psz_attrs,
               text := cue.psz_text } := by
  refine ⟨_, ConvertWEBVTT_mem_ok cue cont, ?_⟩
  show decode_cue (encode_spec cue cont) = _
  rw [decode_encode_spec cue cont hfit, cstr_bytes_of_nul_free _ htext]
  have h1 : cue.psz_id.map cstr_bytes = cue.psz_id := by
    cases h : cue.psz_id with
    | none => rfl
    | some s => simp only [Option.map_some', cstr_bytes_of_nul_free s (hid s h)]
  have h2 : cue.psz_attrs.map cstr_bytes = cue.psz_attrs := by
    cases h : cue.psz_attrs with
    | none => rfl
    | some s => simp only [Option.map_some', cstr_bytes_of_nul_free s (hattrs s h)]
  rw [h1, h2]

/-- Witness for C8 (as amended): a cue with an id and set-but-empty attributes, as a
continuation. -/
theorem decode_ConvertWEBVTT_witness :
    ∃ b, ConvertWEBVTT mem_ok empty_attrs_cue true = some b ∧
      decode_cue b.p_buffer =
        some { continuation := true, id := some [49], attrs := some [], text := [72, 105] } :=
  decode_ConvertWEBVTT empty_attrs_cue true (by decide) (by decide) (by decide) (by decide)

theorem decode_long_text (n : Nat) (hn : (16 + n) % 2 ^ 32 = 8) :
    decode_cue (encode_spec (long_text_cue n) false) = none := by
  have hlen : (encode_spec (long_text_cue n) false).length = 16 + n := by
    rw [length_encode_spec]
    simp only [vttcsize, long_text_cue, ← length_cstr_bytes, cstr_bytes_replicate,
      List.length_replicate]
    omega
  have hget : GetDWBE (encode_spec (long_text_cue n) false) = 8 := by
    rw [encode_spec_long_text, GetDWBE_be32, hn]
  have hrest : ∃ x xs, List.drop 8 (encode_spec (long_text_cue n) false) = x :: xs := by
    have h8 : (be32 (16 + n) ++ tag_vttc).length = 8 := rfl
    rw [encode_spec_long_text, ← List.append_assoc (be32 (16 + n)), List.drop_left' h8]
    exact ⟨_, _, rfl⟩
  obtain ⟨x, xs, hx⟩ := hrest
  unfold decode_cue read_box
  rw [hget, hlen, hx]
  have h1 : ¬ (16 + n < 8) := by omega
  have h2 : ¬ (8 < 8 ∨ 16 + n < 8) := by omega
  rw [if_neg h1, if_neg h2]

/-- Counterexample to C8 as stated: for the NUL-free cue whose text is 4294967288 bytes
long (`2 ^ 32 - 8`), the length field of the top box wraps to 8 and the generic box
decoder recovers nothing from the output of `ConvertWEBVTT`. -/
theorem decode_ConvertWEBVTT_long_text :
    (∀ b ∈ (long_text_cue 4294967288).psz_text, b ≠ 0) ∧
    ∃ b, ConvertWEBVTT mem_ok (long_text_cue 4294967288) false = some b ∧
      decode_cue b.p_buffer = none ∧
      ¬ decode_cue b.p_buffer =
        some { continuation := false, id := (long_text_cue 4294967288).psz_id,
               attrs := (long_text_cue 4294967288).psz_attrs,
               text := (long_text_cue 4294967288).psz_text } := by
  have hnone := decode_long_text 4294967288 (by norm_num)
  refine ⟨?_, _, ConvertWEBVTT_mem_ok _ _, hnone, ?_⟩
  · intro b hb
    rw [List.eq_of_mem_replicate hb]
    decide
  · show ¬ decode_cue (encode_spec (long_text_cue 4294967288) false) = _
    rw [hnone]
    exact fun h => Option.noConfusion h

/-! ## Theorems: cue store -/

theorem set_length_append_singleton {α : Type} (arr : List α) (x y : α) :
    (arr ++ [x]).set arr.length y = arr ++ [y] := by
  induction arr with
  | nil => rfl
  | cons a arr ih => simp only [List.cons_append, List.length_cons, List.set_cons_succ, ih]

theorem getElem?_length_append_singleton {α : Type} (arr : List α) (y : α) :
    (arr ++ [y])[arr.length]? = some y := by
  induction arr with
  | nil => rfl
  | cons a arr ih => simp [ih]

/-- Reporting a cue in the slot just handed out: the cue lands at the end of the array,
the total duration follows its stop time, and the ordering flag is left as it was,
because the handler compares the cue with the last slot in use, which is the cue's own
slot. -/
theorem ParserCueDoneHandler_own_slot (ctx : callback_ctx) (p_sys : demux_sys_t)
    (cue : webvtt_cue_t) :
    ParserCueDoneHandler ctx
      { p_sys with cues := { p_sys.cues with
          p_array := (p_sys.cues.p_array ++ [fresh_slot]).set p_sys.cues.i_count cue } }
      p_sys.cues.i_count =
    (ctx, { p_sys with
      i_length := if cue.i_stop > p_sys.i_length then cue.i_stop else p_sys.i_length,
      cues := { p_sys.cues with p_array := p_sys.cues.p_array ++ [cue] } }) := by
  unfold ParserCueDoneHandler
  simp only [cue_array.i_count, set_length_append_singleton,
    getElem?_length_append_singleton]
  by_cases h : cue.i_stop > p_sys.i_length <;>
    simp [h, cue_array.i_count, getElem?_length_append_singleton]

/-- One parser event: the ordering flag is kept, the array grows by at most the event's
cue, at its end, and by exactly that cue when no `realloc` fails. -/
theorem webvtt_text_parser_Feed_spec (st : callback_ctx × demux_sys_t) (ev : parser_event)
    (hinv : st.2.cues.i_count ≤ st.2.cues.i_alloc) :
    (webvtt_text_parser_Feed st ev).1.b_ordered = st.1.b_ordered ∧
    (webvtt_text_parser_Feed st ev).2.cues.i_count ≤
      (webvtt_text_parser_Feed st ev).2.cues.i_alloc ∧
    (webvtt_text_parser_Feed st ev).2.cues.i_current = st.2.cues.i_current ∧
    ∃ l, (webvtt_text_parser_Feed st ev).2.cues.p_array = st.2.cues.p_array ++ l ∧
      l.Sublist (cues_of_events [ev]) ∧
      ((∀ cue, ev ≠ .cue false cue) → l = cues_of_events [ev]) := by
  obtain ⟨ctx, p_sys⟩ := st
  cases ev with
  | header s b_new psz_line =>
    refine ⟨?_, hinv, rfl, [], by simp [webvtt_text_parser_Feed], by simp [cues_of_events],
      fun _ => rfl⟩
    simp only [webvtt_text_parser_Feed, ParserHeaderHandler]
    split_ifs <;> rfl
  | cue ok cue =>
    simp only at hinv
    by_cases hroom : p_sys.cues.i_alloc ≤ p_sys.cues.i_count
    · cases ok with
      | false =>
        have hno : ¬ p_sys.cues.i_alloc > p_sys.cues.i_count := by omega
        refine ⟨?_, ?_, ?_, [], ?_, by simp [cues_of_events], ?_⟩
        · simp [webvtt_text_parser_Feed, ParserGetCueHandler, hroom, hno]
        · simp [webvtt_text_parser_Feed, ParserGetCueHandler, hroom, hno, hinv]
        · simp [webvtt_text_parser_Feed, ParserGetCueHandler, hroom, hno]
        · simp [webvtt_text_parser_Feed, ParserGetCueHandler, hroom, hno]
        · intro h; exact absurd rfl (h cue)
      | true =>
        have hyes : p_sys.cues.i_alloc + 64 > p_sys.cues.i_count := by omega
        have hfeed : webvtt_text_parser_Feed (ctx, p_sys) (.cue true cue) =
            (ctx, { p_sys with
              i_length := if cue.i_stop > p_sys.i_length then cue.i_stop else p_sys.i_length,
              cues := { p_sys.cues with p_array := p_sys.cues.p_array ++ [cue],
                                        i_alloc := p_sys.cues.i_alloc + 64 } }) := by
          have h := ParserCueDoneHandler_own_slot ctx
            { p_sys with cues := { p_sys.cues with i_alloc := p_sys.cues.i_alloc + 64 } } cue
          simp only [webvtt_text_parser_Feed, ParserGetCueHandler, hroom, if_true]
          simp only [cue_array.i_count] at hyes h ⊢
          simp only [hyes, if_true]
          exact h
        rw [hfeed]
        refine ⟨rfl, ?_, rfl, [cue], rfl, by simp [cues_of_events], fun _ => rfl⟩
        simp only [cue_array.i_count, List.length_append, List.length_singleton] at hinv ⊢
        omega
    · have hyes : p_sys.cues.i_alloc > p_sys.cues.i_count := by omega
      have hfeed : webvtt_text_parser_Feed (ctx, p_sys) (.cue ok cue) =
          (ctx, { p_sys with
            i_length := if cue.i_stop > p_sys.i_length then cue.i_stop else p_sys.i_length,
            cues := { p_sys.cues with p_array := p_sys.cues.p_array ++ [cue] } }) := by
        have h := ParserCueDoneHandler_own_slot ctx p_sys cue
        simp only [webvtt_text_parser_Feed, ParserGetCueHandler, hroom, if_false]
        simp only [cue_array.i_count] at hyes h ⊢
        simp only [hyes, if_true]
        exact h
      rw [hfeed]
      refine ⟨rfl, ?_, rfl, [cue], rfl, by simp [cues_of_events], fun _ => rfl⟩
      simp only [cue_array.i_count, List.length_append, List.length_singleton] at hyes ⊢
      omega

theorem cues_of_events_cons (ev : parser_event) (evs : List parser_event) :
    cues_of_events (ev :: evs) = cues_of_events [ev] ++ cues_of_events evs := by
  cases ev <;> rfl

theorem cues_of_events_map_cue (cues : List webvtt_cue_t) :
    cues_of_events (cues.map (parser_event.cue true)) = cues := by
  induction cues with
  | nil => rfl
  | cons c cs ih => simp only [List.map_cons, cues_of_events, ih]

/-- Feeding the whole stream: the ordering flag is never cleared, and the array grows, at
its end, by cues of the stream in arrival order (all of them when no `realloc` fails). -/
theorem foldl_Feed_spec (events : List parser_event) :
    ∀ st : callback_ctx × demux_sys_t, st.2.cues.i_count ≤ st.2.cues.i_alloc →
      (events.foldl webvtt_text_parser_Feed st).1.b_ordered = st.1.b_ordered ∧
      (events.foldl webvtt_text_parser_Feed st).2.cues.i_current = st.2.cues.i_current ∧
      ∃ l, (events.foldl webvtt_text_parser_Feed st).2.cues.p_array = st.2.cues.p_array ++ l ∧
        l.Sublist (cues_of_events events) ∧
        ((∀ cue, parser_event.cue false cue ∉ events) → l = cues_of_events events) := by
  induction events with
  | nil =>
    intro st _
    exact ⟨rfl, rfl, [], by simp, by simp [cues_of_events], fun _ => rfl⟩
  | cons ev evs ih =>
    intro st hinv
    obtain ⟨h1, h2, h3, l1, hl1, hs1, hall1⟩ := webvtt_text_parser_Feed_spec st ev hinv
    obtain ⟨g1, g3, l2, hl2, hs2, hall2⟩ := ih (webvtt_text_parser_Feed st ev) h2
    rw [List.foldl_cons, cues_of_events_cons]
    refine ⟨g1.trans h1, g3.trans h3, l1 ++ l2, ?_, List.Sublist.append hs1 hs2, ?_⟩
    · rw [hl2, hl1, List.append_assoc]
    · intro hno
      rw [hall1 (fun cue h => hno cue (h ▸ List.mem_cons_self _ _)),
        hall2 (fun cue h => hno cue (List.mem_cons_of_mem _ h))]

/-- The cue array after `ReadWEBVTT`, whatever `qsort` does: the array as it was,
followed by cues of the stream in arrival order; `qsort` is never called. -/
theorem ReadWEBVTT_p_array (qsort : List webvtt_cue_t → (webvtt_cue_t → webvtt_cue_t → Int) →
      List webvtt_cue_t)
    (env : read_outcome) (events : List parser_event) (p_demux : demux_t)
    (hinv : p_demux.p_sys.cues.i_count ≤ p_demux.p_sys.cues.i_alloc) :
    ∃ l, (ReadWEBVTT qsort env events p_demux).1.p_sys.cues.p_array =
        p_demux.p_sys.cues.p_array ++ l ∧
      l.Sublist (cues_of_events events) ∧
      (env.parser_ok = true → (∀ cue, parser_event.cue false cue ∉ events) →
        l = cues_of_events events) := by
  unfold ReadWEBVTT
  cases hp : env.parser_ok with
  | false =>
    exact ⟨[], by simp, List.nil_sublist _, fun h => absurd h (by simp)⟩
  | true =>
    obtain ⟨h1, _, l, hl, hs, hall⟩ := foldl_Feed_spec events
      ({ regions := vlc_memstream_open env.regions_open_ok,
         styles := vlc_memstream_open env.styles_open_ok,
         b_ordered := true }, p_demux.p_sys) hinv
    simp only at h1
    refine ⟨l, ?_, hs, fun _ => hall⟩
    simp only [Bool.not_true, Bool.false_eq_true, if_false, h1, hl]

theorem ReadWEBVTT_stores_all (qsort : List webvtt_cue_t → (webvtt_cue_t → webvtt_cue_t → Int) →
      List webvtt_cue_t) (cues : List webvtt_cue_t) (b : Bool) :
    (ReadWEBVTT qsort read_ok (cues.map (parser_event.cue true))
      (OpenDemux_init b)).1.p_sys.cues.p_array = cues := by
  obtain ⟨l, hl, _, hall⟩ := ReadWEBVTT_p_array qsort read_ok
    (cues.map (parser_event.cue true)) (OpenDemux_init b) (le_refl _)
  rw [hl, hall rfl (by simp), cues_of_events_map_cue]
  rfl

/-- C4 (the code at the failing input): two cues arriving with starts 1000000 then 0 are
left in that order by `ReadWEBVTT`, whatever `qsort` does, so the store is not sorted by
start. -/
theorem ReadWEBVTT_leaves_unordered
    (qsort : List webvtt_cue_t → (webvtt_cue_t → webvtt_cue_t → Int) → List webvtt_cue_t) :
    (ReadWEBVTT qsort read_ok unordered_events (OpenDemux_init false)).2 = VLC_SUCCESS ∧
    (ReadWEBVTT qsort read_ok unordered_events
      (OpenDemux_init false)).1.p_sys.cues.p_array.map (fun c => c.i_start) = [1000000, 0] ∧
    ¬ SortedByStart (ReadWEBVTT qsort read_ok unordered_events
      (OpenDemux_init false)).1.p_sys.cues.p_array := by
  have h := ReadWEBVTT_stores_all qsort (cues_of_events unordered_events) false
  have he : (cues_of_events unordered_events).map (parser_event.cue true) = unordered_events :=
    rfl
  rw [he] at h
  rw [h]
  refine ⟨rfl, by decide, ?_⟩
  unfold SortedByStart
  decide

theorem sent_append (a b : List es_out_event) : sent (a ++ b) = sent a ++ sent b := by
  induction a with
  | nil => rfl
  | cons e a ih => cases e <;> simp [sent, ih]

/-- One iteration of the loop: the array is untouched, the cursor moves one step, and the
sink receives at most one record, the record of the cue at the cursor, exactly when that
cue does not start before 0 and its encoding succeeds. -/
theorem Demux_body_spec (mem : Nat → alloc_outcome) (i_barrier : Int) (cue : webvtt_cue_t)
    (d : demux_t) (hc : d.p_sys.cues.p_array[d.p_sys.cues.i_current]? = some cue) :
    (Demux_body mem i_barrier cue d).p_sys.cues.p_array = d.p_sys.cues.p_array ∧
    (Demux_body mem i_barrier cue d).p_sys.cues.i_current = d.p_sys.cues.i_current + 1 ∧
    (Demux_body mem i_barrier cue d).p_sys.b_slave = d.p_sys.b_slave ∧
    (Demux_body mem i_barrier cue d).p_sys.i_next_demux_time = d.p_sys.i_next_demux_time ∧
    ∃ evs, (Demux_body mem i_barrier cue d).out = d.out ++ evs ∧
      ((delivered mem d.p_sys.cues.p_array d.p_sys.cues.i_current = true ∧
          ∃ r, sent evs = [r] ∧ IsRecordOf d.p_sys.cues.p_array r d.p_sys.cues.i_current) ∨
        (delivered mem d.p_sys.cues.p_array d.p_sys.cues.i_current = false ∧
          sent evs = [])) := by
  simp only [Demux_body, ConvertWEBVTT_eq, es_out_SetPCR, es_out_Send]
  split_ifs <;> simp_all [sent, IsRecordOf, delivered, sent_append]
  all_goals
    rw [if_neg]
    rintro ⟨h1, h2⟩
    have := ‹0 ≤ cue.i_stop → cue.i_stop < cue.i_start› h1
    omega

/-- The `while` loop of a pull, for any fuel: the array, the slaving mode and the clock
are untouched, the cursor only moves forward and stays within the array, every cue passed
starts at or before the barrier, and the records handed to the sink are, in order, the
records of the cues passed that do not start before 0 and whose encoding succeeds. -/
theorem Demux_loop_spec (mem : Nat → alloc_outcome) (i_barrier : Int) :
    ∀ (fuel : Nat) (d : demux_t),
      (Demux_loop mem i_barrier fuel d).p_sys.cues.p_array = d.p_sys.cues.p_array ∧
      d.p_sys.cues.i_current ≤ (Demux_loop mem i_barrier fuel d).p_sys.cues.i_current ∧
      (d.p_sys.cues.i_current ≤ d.p_sys.cues.i_count →
        (Demux_loop mem i_barrier fuel d).p_sys.cues.i_current ≤ d.p_sys.cues.i_count) ∧
      (Demux_loop mem i_barrier fuel d).p_sys.b_slave = d.p_sys.b_slave ∧
      (Demux_loop mem i_barrier fuel d).p_sys.i_next_demux_time =
        d.p_sys.i_next_demux_time ∧
      (∀ i cue, d.p_sys.cues.i_current ≤ i →
        i < (Demux_loop mem i_barrier fuel d).p_sys.cues.i_current →
        d.p_sys.cues.p_array[i]? = some cue → cue.i_start ≤ i_barrier) ∧
      ∃ evs, (Demux_loop mem i_barrier fuel d).out = d.out ++ evs ∧
        List.Forall₂ (IsRecordOf d.p_sys.cues.p_array) (sent evs)
          ((List.range' d.p_sys.cues.i_current
              ((Demux_loop mem i_barrier fuel d).p_sys.cues.i_current -
                d.p_sys.cues.i_current)).filter
            (delivered mem d.p_sys.cues.p_array)) := by
  intro fuel
  induction fuel with
  | zero =>
    intro d
    refine ⟨rfl, le_refl _, fun h => h, rfl, rfl, ?_, [], by simp [Demux_loop], ?_⟩
    · intro i cue h1 h2
      simp only [Demux_loop] at h2
      omega
    · simp [Demux_loop, sent]
  | succ n ih =>
    intro d
    have hstop : ∀ d' : demux_t, d' = d →
        d'.p_sys.cues.p_array = d.p_sys.cues.p_array ∧
        d.p_sys.cues.i_current ≤ d'.p_sys.cues.i_current ∧
        (d.p_sys.cues.i_current ≤ d.p_sys.cues.i_count →
          d'.p_sys.cues.i_current ≤ d.p_sys.cues.i_count) ∧
        d'.p_sys.b_slave = d.p_sys.b_slave ∧
        d'.p_sys.i_next_demux_time = d.p_sys.i_next_demux_time ∧
        (∀ i cue, d.p_sys.cues.i_current ≤ i → i < d'.p_sys.cues.i_current →
          d.p_sys.cues.p_array[i]? = some cue → cue.i_start ≤ i_barrier) ∧
        ∃ evs, d'.out = d.out ++ evs ∧
          List.Forall₂ (IsRecordOf d.p_sys.cues.p_array) (sent evs)
            ((List.range' d.p_sys.cues.i_current
                (d'.p_sys.cues.i_current - d.p_sys.cues.i_current)).filter
              (delivered mem d.p_sys.cues.p_array)) := by
      rintro d' rfl
      refine ⟨rfl, le_refl _, fun h => h, rfl, rfl, ?_, [], by simp, ?_⟩
      · intro i cue h1 h2; omega
      · simp [sent]
    unfold Demux_loop
    cases hc : d.p_sys.cues.p_array[d.p_sys.cues.i_current]? with
    | none => exact hstop d rfl
    | some cue =>
      simp only
      by_cases hle : cue.i_start ≤ i_barrier
      · simp only [hle, if_true]
        obtain ⟨b1, b2, b3, b4, evs1, hout1, hsent1⟩ := Demux_body_spec mem i_barrier cue d hc
        obtain ⟨l1, l2, l3, l4, l5, l6, evs2, hout2, hsent2⟩ :=
          ih (Demux_body mem i_barrier cue d)
        have hlt : d.p_sys.cues.i_current < d.p_sys.cues.p_array.length :=
          (List.getElem?_eq_some.mp hc).1
        rw [b1, b2] at hsent2
        rw [b2] at l2 l6
        refine ⟨l1.trans b1, by omega, ?_, l4.trans b3, l5.trans b4, ?_, evs1 ++ evs2, ?_, ?_⟩
        · intro _
          have := l3 (by rw [b2]; unfold cue_array.i_count; rw [b1]; omega)
          unfold cue_array.i_count at this ⊢
          rw [b1] at this
          exact this
        · intro i c h1 h2 hi
          rcases Nat.eq_or_lt_of_le h1 with h | h
          · subst h; rw [hc] at hi; cases hi; exact hle
          · exact l6 i c (by omega) h2 (by rw [b1]; exact hi)
        · rw [hout2, hout1, List.append_assoc]
        · have hrange : (Demux_loop mem i_barrier n
              (Demux_body mem i_barrier cue d)).p_sys.cues.i_current -
                d.p_sys.cues.i_current =
              ((Demux_loop mem i_barrier n
                (Demux_body mem i_barrier cue d)).p_sys.cues.i_current -
                  (d.p_sys.cues.i_current + 1)) + 1 := by omega
          rw [hrange, List.range'_succ, sent_append, List.filter_cons]
          rcases hsent1 with ⟨hd, r, hr, hrec⟩ | ⟨hd, hr⟩
          · rw [hd, hr]
            simp only [if_true, List.singleton_append]
            exact List.Forall₂.cons hrec hsent2
          · rw [hd, hr]
            simp only [Bool.false_eq_true, if_false, List.nil_append]
            exact hsent2
      · rw [if_neg hle]
        exact hstop d rfl

/-- With the fuel `Demux` gives it, the loop stops only when its condition fails: there
is no cue at the cursor, or that cue starts after the barrier. -/
theorem Demux_loop_exit (mem : Nat → alloc_outcome) (i_barrier : Int) :
    ∀ (fuel : Nat) (d : demux_t),
      d.p_sys.cues.i_count - d.p_sys.cues.i_current ≤ fuel →
      match (Demux_loop mem i_barrier fuel d).p_sys.cues.p_array[
          (Demux_loop mem i_barrier fuel d).p_sys.cues.i_current]? with
      | some cue => i_barrier < cue.i_start
      | none => True := by
  intro fuel
  induction fuel with
  | zero =>
    intro d hf
    have : d.p_sys.cues.p_array[d.p_sys.cues.i_current]? = none := by
      apply List.getElem?_eq_none
      unfold cue_array.i_count at hf
      omega
    simp only [Demux_loop, this]
  | succ n ih =>
    intro d hf
    unfold Demux_loop
    cases hc : d.p_sys.cues.p_array[d.p_sys.cues.i_current]? with
    | none => simp only [hc]
    | some cue =>
      simp only
      by_cases hle : cue.i_start ≤ i_barrier
      · simp only [hle, if_true]
        obtain ⟨b1, b2, _⟩ := Demux_body_spec mem i_barrier cue d hc
        apply ih
        unfold cue_array.i_count at hf ⊢
        rw [b1, b2]
        omega
      · simp only [hle, if_false, hc]
        omega

theorem Demux_fst (mem : Nat → alloc_outcome) (d : demux_t) :
    (Demux mem d).1 =
      if (Demux_loop mem d.p_sys.i_next_demux_time
          (d.p_sys.cues.i_count - d.p_sys.cues.i_current) d).p_sys.b_slave = true then
        Demux_loop mem d.p_sys.i_next_demux_time
          (d.p_sys.cues.i_count - d.p_sys.cues.i_current) d
      else
        { p_sys := { (Demux_loop mem d.p_sys.i_next_demux_time
              (d.p_sys.cues.i_count - d.p_sys.cues.i_current) d).p_sys with
            i_next_demux_time := to_int64 ((Demux_loop mem d.p_sys.i_next_demux_time
              (d.p_sys.cues.i_count - d.p_sys.cues.i_current) d).p_sys.i_next_demux_time +
                Int.tdiv CLOCK_FREQ 8) },
          out := (Demux_loop mem d.p_sys.i_next_demux_time
              (d.p_sys.cues.i_count - d.p_sys.cues.i_current) d).out ++
            [es_out_event.SetPCR (VLC_TS_0 + d.p_sys.i_next_demux_time)] } := by
  unfold Demux
  simp only [es_out_SetPCR]
  split_ifs <;> simp_all

/-- One pull: the array is untouched, the cursor only moves forward and stays within the
array, every cue passed starts at or before the barrier, and the records handed to the
sink are, in order, the records of the cues passed that do not start before 0 and whose
encoding succeeds. -/
theorem Demux_spec (mem : Nat → alloc_outcome) (d : demux_t) :
    (Demux mem d).1.p_sys.cues.p_array = d.p_sys.cues.p_array ∧
    d.p_sys.cues.i_current ≤ (Demux mem d).1.p_sys.cues.i_current ∧
    (d.p_sys.cues.i_current ≤ d.p_sys.cues.i_count →
      (Demux mem d).1.p_sys.cues.i_current ≤ d.p_sys.cues.i_count) ∧
    (∀ i cue, d.p_sys.cues.i_current ≤ i → i < (Demux mem d).1.p_sys.cues.i_current →
      d.p_sys.cues.p_array[i]? = some cue → cue.i_start ≤ d.p_sys.i_next_demux_time) ∧
    ∃ evs, (Demux mem d).1.out = d.out ++ evs ∧
      List.Forall₂ (IsRecordOf d.p_sys.cues.p_array) (sent evs)
        ((List.range' d.p_sys.cues.i_current
            ((Demux mem d).1.p_sys.cues.i_current - d.p_sys.cues.i_current)).filter
          (delivered mem d.p_sys.cues.p_array)) := by
  obtain ⟨l1, l2, l3, _, _, l6, evs, hout, hsent⟩ :=
    Demux_loop_spec mem d.p_sys.i_next_demux_time
      (d.p_sys.cues.i_count - d.p_sys.cues.i_current) d
  rw [Demux_fst]
  split_ifs
  · exact ⟨l1, l2, l3, l6, evs, hout, hsent⟩
  · refine ⟨l1, l2, l3, l6, evs ++ [es_out_event.SetPCR (VLC_TS_0 + d.p_sys.i_next_demux_time)],
      ?_, ?_⟩
    · simp only [hout, List.append_assoc]
    · simp only [sent_append, sent, List.append_nil]
      exact hsent

theorem host_step_spec (d : demux_t) (call : host_call) :
    (host_step d call).p_sys.cues.p_array = d.p_sys.cues.p_array ∧
    d.p_sys.cues.i_current ≤ (host_step d call).p_sys.cues.i_current ∧
    ∃ evs idxs, (host_step d call).out = d.out ++ evs ∧
      List.Forall₂ (IsRecordOf d.p_sys.cues.p_array) (sent evs) idxs ∧
      idxs.Pairwise (fun i j => i < j) ∧
      ∀ i ∈ idxs, d.p_sys.cues.i_current ≤ i ∧ i < (host_step d call).p_sys.cues.i_current := by
  cases call with
  | pull mem =>
    obtain ⟨h1, h2, _, _, evs, hout, hsent⟩ := Demux_spec mem d
    refine ⟨h1, h2, evs, _, hout, hsent, ?_, ?_⟩
    · exact List.Pairwise.filter _ (List.pairwise_lt_range' _ _)
    · intro i hi
      have := List.mem_range'_1.mp (List.mem_filter.mp hi).1
      show d.p_sys.cues.i_current ≤ i ∧ i < (Demux mem d).1.p_sys.cues.i_current
      omega
  | set_next_demux_time arg =>
    exact ⟨rfl, le_refl _, [], [], by simp [host_step, Control_SET_NEXT_DEMUX_TIME],
      by simp [sent], List.Pairwise.nil, by simp⟩

theorem host_run_spec (calls : List host_call) :
    ∀ d : demux_t,
      (host_run d calls).p_sys.cues.p_array = d.p_sys.cues.p_array ∧
      d.p_sys.cues.i_current ≤ (host_run d calls).p_sys.cues.i_current ∧
      ∃ evs idxs, (host_run d calls).out = d.out ++ evs ∧
        List.Forall₂ (IsRecordOf d.p_sys.cues.p_array) (sent evs) idxs ∧
        idxs.Pairwise (fun i j => i < j) ∧
        ∀ i ∈ idxs, d.p_sys.cues.i_current ≤ i ∧
          i < (host_run d calls).p_sys.cues.i_current := by
  induction calls with
  | nil =>
    intro d
    exact ⟨rfl, le_refl _, [], [], by simp [host_run], by simp [sent], List.Pairwise.nil,
      by simp⟩
  | cons call calls ih =>
    intro d
    obtain ⟨a1, a2, evs1, idxs1, hout1, hrec1, hp1, hm1⟩ := host_step_spec d call
    obtain ⟨b1, b2, evs2, idxs2, hout2, hrec2, hp2, hm2⟩ := ih (host_step d call)
    have hrun : host_run d (call :: calls) = host_run (host_step d call) calls := rfl
    rw [hrun]
    rw [a1] at hrec2
    refine ⟨b1.trans a1, le_trans a2 b2, evs1 ++ evs2, idxs1 ++ idxs2, ?_, ?_, ?_, ?_⟩
    · rw [hout2, hout1, List.append_assoc]
    · rw [sent_append]
      exact List.rel_append hrec1 hrec2
    · rw [List.pairwise_append]
      refine ⟨hp1, hp2, ?_⟩
      intro i hi j hj
      have := hm1 i hi
      have := hm2 j hj
      omega
    · intro i hi
      rcases List.mem_append.mp hi with h | h
      · have := hm1 i h; omega
      · have := hm2 i h; omega

/-- The three-cue store pulled at time 500000: the cues starting at 0 and 400000 are
delivered, the second one (whose stop is before its start) with duration 0. -/
theorem Demux_three_cues :
    (sent (Demux (fun _ => mem_ok) (demux_at three_cues 500000)).1.out).map
      (fun r => (r.i_pts, r.i_dts, r.i_length)) = [(1, 1, 1000000), (400001, 400001, 0)] ∧
    (Demux (fun _ => mem_ok) (demux_at three_cues 500000)).1.p_sys.cues.i_current = 2 ∧
    (Demux (fun _ => mem_ok) (demux_at three_cues 500000)).2 = VLC_DEMUXER_SUCCESS := by
  decide

/-! ## Theorems: pull status, exhaustion, clock -/

theorem Demux_snd (mem : Nat → alloc_outcome) (d : demux_t) :
    (Demux mem d).2 =
      if (Demux mem d).1.p_sys.cues.i_current ≥ (Demux mem d).1.p_sys.cues.i_count then
        VLC_DEMUXER_EOF
      else VLC_DEMUXER_SUCCESS := by
  unfold Demux
  simp only
  split_ifs <;> rfl

theorem Demux_i_count (mem : Nat → alloc_outcome) (d : demux_t) :
    (Demux mem d).1.p_sys.cues.i_count = d.p_sys.cues.i_count := by
  unfold cue_array.i_count
  rw [(Demux_spec mem d).1]

/-- C11: for every state whose cursor is within the store (`current <= count`), a `Demux`
pull returns `VLC_DEMUXER_EOF` if and only if `current == count` after the delivery loop,
and `VLC_DEMUXER_SUCCESS` otherwise; the count is the one before the pull. -/
theorem Demux_status (mem : Nat → alloc_outcome) (d : demux_t)
    (h : d.p_sys.cues.i_current ≤ d.p_sys.cues.i_count) :
    ((Demux mem d).2 = VLC_DEMUXER_EOF ↔
      (Demux mem d).1.p_sys.cues.i_current = (Demux mem d).1.p_sys.cues.i_count) ∧
    ((Demux mem d).2 = VLC_DEMUXER_SUCCESS ↔
      (Demux mem d).1.p_sys.cues.i_current ≠ (Demux mem d).1.p_sys.cues.i_count) ∧
    (Demux mem d).1.p_sys.cues.i_count = d.p_sys.cues.i_count := by
  have hle := (Demux_spec mem d).2.2.1 h
  have hc := Demux_i_count mem d
  rw [Demux_snd, hc]
  refine ⟨?_, ?_, rfl⟩
  · split_ifs with hge
    · exact ⟨fun _ => by omega, fun _ => rfl⟩
    · exact ⟨fun h' => absurd h' (by decide), fun h' => absurd h' (by omega)⟩
  · split_ifs with hge
    · exact ⟨fun h' => absurd h' (by decide), fun h' => absurd (by omega) h'⟩
    · exact ⟨fun _ => by omega, fun _ => rfl⟩

/-- Witness for C11: the three-cue store pulled at time 500000 stops at index 2 of 3 and
reports more data. -/
theorem Demux_status_witness :
    (Demux (fun _ => mem_ok) (demux_at three_cues 500000)).2 = VLC_DEMUXER_SUCCESS ↔
      (Demux (fun _ => mem_ok) (demux_at three_cues 500000)).1.p_sys.cues.i_current ≠
        (Demux (fun _ => mem_ok) (demux_at three_cues 500000)).1.p_sys.cues.i_count :=
  (Demux_status (fun _ => mem_ok) (demux_at three_cues 500000) (by decide)).2.1

theorem host_run_cursor_le (calls : List host_call) :
    ∀ d : demux_t, d.p_sys.cues.i_current ≤ d.p_sys.cues.i_count →
      (host_run d calls).p_sys.cues.i_current ≤ d.p_sys.cues.i_count ∧
      (host_run d calls).p_sys.cues.i_count = d.p_sys.cues.i_count := by
  induction calls with
  | nil => intro d h; exact ⟨h, rfl⟩
  | cons call calls ih =>
    intro d h
    have hrun : host_run d (call :: calls) = host_run (host_step d call) calls := rfl
    rw [hrun]
    cases call with
    | pull mem =>
      have h1 := (Demux_spec mem d).2.2.1 h
      have h2 := Demux_i_count mem d
      have := ih (host_step d (host_call.pull mem)) (by
        show (Demux mem d).1.p_sys.cues.i_current ≤ (Demux mem d).1.p_sys.cues.i_count
        omega)
      have h3 : (host_step d (host_call.pull mem)).p_sys.cues.i_count =
          d.p_sys.cues.i_count := h2
      omega
    | set_next_demux_time arg => exact ih _ h

theorem Forall₂_nil_right {α β : Type} {R : α → β → Prop} {l : List α}
    (h : List.Forall₂ R l []) : l = [] := by
  cases h
  rfl

/-- Between seeks nothing is sent once the cursor has reached the count. -/
theorem host_run_exhausted (d : demux_t) (calls : List host_call)
    (h : d.p_sys.cues.i_current = d.p_sys.cues.i_count) :
    (host_run d calls).p_sys.cues.i_current = d.p_sys.cues.i_count ∧
    (host_run d calls).p_sys.cues.i_count = d.p_sys.cues.i_count ∧
    ∃ evs, (host_run d calls).out = d.out ++ evs ∧ sent evs = [] := by
  obtain ⟨hle, hcount⟩ := host_run_cursor_le calls d (le_of_eq h)
  obtain ⟨_, hge, evs, idxs, hout, hrec, _, hm⟩ := host_run_spec calls d
  refine ⟨by omega, hcount, evs, hout, ?_⟩
  have hidx : idxs = [] := by
    cases idxs with
    | nil => rfl
    | cons i rest =>
      have := hm i (List.mem_cons_self _ _)
      omega
  rw [hidx] at hrec
  exact Forall₂_nil_right hrec

/-- C12: once `current == count`, after any further pulls (and `DEMUX_SET_NEXT_DEMUX_TIME`
calls, which are not seeks) no record has been delivered and `current == count` still
holds; the next pull again delivers no record, leaves `current == count` and returns
`VLC_DEMUXER_EOF`; and `DEMUX_GET_POSITION` succeeds with exactly 1.0. -/
theorem exhausted_is_terminal (d : demux_t) (calls : List host_call)
    (mem : Nat → alloc_outcome) (past_end : Option Int)
    (h : d.p_sys.cues.i_current = d.p_sys.cues.i_count) :
    (host_run d calls).p_sys.cues.i_current = (host_run d calls).p_sys.cues.i_count ∧
    (∃ evs, (host_run d calls).out = d.out ++ evs ∧ sent evs = []) ∧
    (∃ evs, (Demux mem (host_run d calls)).1.out = (host_run d calls).out ++ evs ∧
      sent evs = []) ∧
    (Demux mem (host_run d calls)).1.p_sys.cues.i_current =
      (Demux mem (host_run d calls)).1.p_sys.cues.i_count ∧
    (Demux mem (host_run d calls)).2 = VLC_DEMUXER_EOF ∧
    Control past_end (host_run d calls) demux_query.DEMUX_GET_POSITION =
      some (host_run d calls, VLC_SUCCESS, control_reply.double 1) := by
  obtain ⟨h1, h2, hev⟩ := host_run_exhausted d calls h
  have hfin : (host_run d calls).p_sys.cues.i_current =
      (host_run d calls).p_sys.cues.i_count := by omega
  obtain ⟨g1, g2, gev⟩ := host_run_exhausted (host_run d calls) [host_call.pull mem] hfin
  have hstep : host_run (host_run d calls) [host_call.pull mem] =
      (Demux mem (host_run d calls)).1 := rfl
  rw [hstep] at g1 g2 gev
  refine ⟨hfin, hev, gev, by omega, ?_, ?_⟩
  · rw [Demux_snd, if_pos (by omega)]
  · simp only [Control]
    rw [if_pos (by omega)]

/-- Witness for C12: the three-cue store with the cursor at 3, two pulls with a
`DEMUX_SET_NEXT_DEMUX_TIME` in between, then one more pull. -/
theorem exhausted_is_terminal_witness :
    (Demux (fun _ => mem_ok)
      (host_run { demux_at three_cues 2000000 with
          p_sys := { (demux_at three_cues 2000000).p_sys with
            cues := { (demux_at three_cues 2000000).p_sys.cues with i_current := 3 } } }
        [host_call.pull (fun _ => mem_ok), host_call.set_next_demux_time 5000000,
          host_call.pull (fun _ => mem_ok)])).2 = VLC_DEMUXER_EOF :=
  (exhausted_is_terminal _ _ (fun _ => mem_ok) none (by decide)).2.2.2.2.1

/-- The clock after a pull: advanced by `CLOCK_FREQ / 8` within `int64_t` when the loop
is not slaved, untouched when it is; the slaving mode is kept. -/
theorem Demux_time (mem : Nat → alloc_outcome) (d : demux_t) :
    (Demux mem d).1.p_sys.i_next_demux_time =
      (if d.p_sys.b_slave = true then d.p_sys.i_next_demux_time
       else to_int64 (d.p_sys.i_next_demux_time + Int.tdiv CLOCK_FREQ 8)) ∧
    (Demux mem d).1.p_sys.b_slave = d.p_sys.b_slave := by
  obtain ⟨_, _, _, hs, ht, _⟩ := Demux_loop_spec mem d.p_sys.i_next_demux_time
    (d.p_sys.cues.i_count - d.p_sys.cues.i_current) d
  rw [Demux_fst, hs]
  split_ifs with hslave
  · exact ⟨ht, hs⟩
  · exact ⟨by simp only [ht], hs⟩

theorem clock_quantum_eq : Int.tdiv CLOCK_FREQ 8 = 125000 := by decide

/-- The clock after a pull that is slaved, or whose increment fits in `int64_t`. -/
theorem Demux_time_of_range (mem : Nat → alloc_outcome) (d : demux_t)
    (h : d.p_sys.b_slave = true ∨
      (-INT64_MAX - 1 ≤ d.p_sys.i_next_demux_time ∧
        d.p_sys.i_next_demux_time + Int.tdiv CLOCK_FREQ 8 ≤ INT64_MAX)) :
    (Demux mem d).1.p_sys.i_next_demux_time =
      (if d.p_sys.b_slave = true then d.p_sys.i_next_demux_time
       else d.p_sys.i_next_demux_time + Int.tdiv CLOCK_FREQ 8) := by
  rw [(Demux_time mem d).1]
  split_ifs with hslave
  · rfl
  · rcases h with h | ⟨h1, h2⟩
    · exact absurd h hslave
    · rw [clock_quantum_eq] at h2 ⊢
      exact to_int64_eq _ (by unfold INT64_MAX at h1; omega) h2

theorem host_run_pulls_time (mems : List (Nat → alloc_outcome)) :
    ∀ d : demux_t,
      (d.p_sys.b_slave = true ∨
        (-INT64_MAX - 1 ≤ d.p_sys.i_next_demux_time ∧
          d.p_sys.i_next_demux_time + (mems.length : Int) * Int.tdiv CLOCK_FREQ 8 ≤
            INT64_MAX)) →
      d.p_sys.i_next_demux_time ≤
        (host_run d (mems.map host_call.pull)).p_sys.i_next_demux_time ∧
      (host_run d (mems.map host_call.pull)).p_sys.i_next_demux_time ≤
        d.p_sys.i_next_demux_time + (mems.length : Int) * Int.tdiv CLOCK_FREQ 8 ∧
      (host_run d (mems.map host_call.pull)).p_sys.b_slave = d.p_sys.b_slave := by
  induction mems with
  | nil =>
    intro d _
    refine ⟨le_refl _, ?_, rfl⟩
    simp [host_run]
  | cons mem mems ih =>
    intro d h
    have hrun : host_run d ((mem :: mems).map host_call.pull) =
        host_run (Demux mem d).1 (mems.map host_call.pull) := rfl
    rw [hrun]
    have hq := clock_quantum_eq
    simp only [List.length_cons, Nat.cast_add, Nat.cast_one] at h ⊢
    rw [hq] at h ⊢
    have hlen : (0 : Int) ≤ (mems.length : Int) := Int.natCast_nonneg _
    have hstep := Demux_time_of_range mem d (by
      rcases h with h | ⟨h1, h2⟩
      · exact Or.inl h
      · exact Or.inr ⟨h1, by rw [hq]; omega⟩)
    have hsl := (Demux_time mem d).2
    rw [hq] at hstep
    obtain ⟨i1, i2, i3⟩ := ih (Demux mem d).1 (by
      rw [hsl, hstep, hq]
      rcases h with h | ⟨h1, h2⟩
      · exact Or.inl h
      · right
        split_ifs
        · constructor <;> omega
        · constructor <;> omega)
    rw [hq] at i2
    rw [hstep] at i1 i2
    refine ⟨?_, ?_, i3.trans hsl⟩
    · split_ifs at i1 <;> omega
    · split_ifs at i2 <;> omega

/-- Counterexample to C13 as stated: the three-cue store, not slaved, with the clock at
`INT64_MAX - 1`.  `DEMUX_GET_TIME` reports 9223372036854775806 before the pull; the
`int64_t` increment of the pull wraps around, and `DEMUX_GET_TIME` reports
-9223372036854650810 after it, which is less. -/
theorem GetTime_decreases_at_wrap :
    (Control none (demux_at three_cues 9223372036854775806)
      demux_query.DEMUX_GET_TIME).map (fun r => r.2.2) =
        some (control_reply.int64 9223372036854775806) ∧
    (Control none (Demux (fun _ => mem_ok) (demux_at three_cues 9223372036854775806)).1
      demux_query.DEMUX_GET_TIME).map (fun r => r.2.2) =
        some (control_reply.int64 (-9223372036854650810)) ∧
    ¬ (demux_at three_cues 9223372036854775806).p_sys.i_next_demux_time ≤
      (Demux (fun _ => mem_ok)
        (demux_at three_cues 9223372036854775806)).1.p_sys.i_next_demux_time := by
  refine ⟨by decide, by decide, by decide⟩

/-- C13 (as amended): `DEMUX_GET_TIME` reports `i_next_demux_time`.  From a state that is
slaved, or whose clock is an `int64_t` that the pulls at hand do not take past
`INT64_MAX` (clock plus `CLOCK_FREQ / 8` per pull), after any sequence of pulls and then
one more pull the value reported is at least the value reported before that pull, and at
least the initial one. -/
theorem GetTime_monotone (d : demux_t) (mems : List (Nat → alloc_outcome))
    (mem : Nat → alloc_outcome)
    (h : d.p_sys.b_slave = true ∨
      (-INT64_MAX - 1 ≤ d.p_sys.i_next_demux_time ∧
        d.p_sys.i_next_demux_time + ((mems.length : Int) + 1) * Int.tdiv CLOCK_FREQ 8 ≤
          INT64_MAX)) :
    (∀ (past_end : Option Int) (d1 : demux_t), Control past_end d1 demux_query.DEMUX_GET_TIME =
      some (d1, VLC_SUCCESS, control_reply.int64 d1.p_sys.i_next_demux_time)) ∧
    (host_run d (mems.map host_call.pull)).p_sys.i_next_demux_time ≤
      (host_run d ((mems ++ [mem]).map host_call.pull)).p_sys.i_next_demux_time ∧
    d.p_sys.i_next_demux_time ≤
      (host_run d ((mems ++ [mem]).map host_call.pull)).p_sys.i_next_demux_time := by
  have hq := clock_quantum_eq
  have hlen : (0 : Int) ≤ (mems.length : Int) := Int.natCast_nonneg _
  rw [hq] at h
  obtain ⟨i1, i2, i3⟩ := host_run_pulls_time mems d (by
    rw [hq]
    rcases h with h | ⟨h1, h2⟩
    · exact Or.inl h
    · exact Or.inr ⟨h1, by omega⟩)
  rw [hq] at i2
  have hrun : host_run d ((mems ++ [mem]).map host_call.pull) =
      (Demux mem (host_run d (mems.map host_call.pull))).1 := by
    simp only [host_run, List.map_append, List.map_cons, List.map_nil, List.foldl_append,
      List.foldl_cons, List.foldl_nil, host_step]
  have hstep := Demux_time_of_range mem (host_run d (mems.map host_call.pull)) (by
    rw [i3, hq]
    rcases h with h | ⟨h1, h2⟩
    · exact Or.inl h
    · exact Or.inr ⟨by omega, by omega⟩)
  rw [hq] at hstep
  refine ⟨fun _ _ => rfl, ?_, ?_⟩
  · rw [hrun, hstep]
    split_ifs <;> omega
  · rw [hrun, hstep]
    split_ifs <;> omega

/-- C13 (as amended) at the three-cue store pulled three times from the clock 0: the
values reported are 0, 125000, 250000 and 375000. -/
theorem GetTime_monotone_witness :
    ((demux_at three_cues 0).p_sys.b_slave = true ∨
      (-INT64_MAX - 1 ≤ (demux_at three_cues 0).p_sys.i_next_demux_time ∧
        (demux_at three_cues 0).p_sys.i_next_demux_time +
          ((2 : Int) + 1) * Int.tdiv CLOCK_FREQ 8 ≤ INT64_MAX)) ∧
    (host_run (demux_at three_cues 0)
      ([fun _ => mem_ok, fun _ => mem_ok].map host_call.pull)).p_sys.i_next_demux_time ≤
      (host_run (demux_at three_cues 0)
        (([fun _ => mem_ok, fun _ => mem_ok] ++ [fun _ => mem_ok]).map
          host_call.pull)).p_sys.i_next_demux_time ∧
    (host_run (demux_at three_cues 0)
      (([fun _ => mem_ok, fun _ => mem_ok] ++ [fun _ => mem_ok]).map
        host_call.pull)).p_sys.i_next_demux_time = 375000 :=
  ⟨by decide,
    (GetTime_monotone (demux_at three_cues 0) [fun _ => mem_ok, fun _ => mem_ok]
      (fun _ => mem_ok) (by decide)).2.1,
    by decide⟩

/-- C14 (the code at the failing inputs): on the empty store `DEMUX_SET_TIME` has no
result, since it reads `p_array[0].i_start` through the `NULL` array and faults, whereas
the sibling case `DEMUX_SET_POSITION` declines the empty store without touching the
state; and on the three-cue store of scenario D a time past every start moves the cursor
to the count and reads the slot past the last cue: the call faults, or it returns
`VLC_SUCCESS` with whatever that read yields as the clock. -/
theorem SetTime_reads_no_cue :
    (∀ past_end : Option Int,
      Control past_end (demux_at [] 0) (demux_query.DEMUX_SET_TIME 0) = none) ∧
    (∀ (past_end : Option Int) (f : ℚ),
      Control past_end (demux_at [] 0) (demux_query.DEMUX_SET_POSITION f) =
        some (demux_at [] 0, VLC_EGENERIC, control_reply.nothing)) ∧
    cue_GetIndexByTime scenarioD.p_sys 600001 = scenarioD.p_sys.cues.i_count ∧
    Control none scenarioD (demux_query.DEMUX_SET_TIME 600001) = none ∧
    (∀ v : Int, (Control (some v) scenarioD (demux_query.DEMUX_SET_TIME 600001)).map
      (fun r => (r.1.p_sys.cues.i_current, r.1.p_sys.i_next_demux_time, r.2.1)) =
        some (scenarioD.p_sys.cues.i_count, v, VLC_SUCCESS)) := by
  have h : cue_GetIndexByTime scenarioD.p_sys 600001 = 3 := by decide
  refine ⟨fun _ => rfl, fun _ f => rfl, by decide, by decide, ?_⟩
  intro v
  simp only [Control, Control_seek, h]
  rfl

/-- C15: scenario D.  On the store with total duration 1000000 and cues starting at 0,
400000 and 600000, `DEMUX_SET_POSITION` with 0.5 converts the fraction to the time 500000
and succeeds, leaving the cursor at 2, the index of the cue starting at 600000, and
`i_next_demux_time` at 600000 (with `b_first_time` set and the discontinuity flag
pending). -/
theorem scenarioD_SetPosition (past_end : Option Int) :
    double_to_int64 ((1 / 2 : ℚ) * (scenarioD.p_sys.i_length : ℚ)) = 500000 ∧
    cue_GetIndexByTime scenarioD.p_sys 500000 = 2 ∧
    (scenarioD.p_sys.cues.p_array[2]?).map (fun c => c.i_start) = some 600000 ∧
    Control past_end scenarioD (demux_query.DEMUX_SET_POSITION (1 / 2)) =
      some ({ scenarioD with p_sys := { scenarioD.p_sys with
                cues := { scenarioD.p_sys.cues with i_current := 2 },
                b_first_time := true,
                i_next_demux_time := 600000,
                i_next_block_flags := BLOCK_FLAG_DISCONTINUITY } },
            VLC_SUCCESS, control_reply.nothing) := by
  have h1 : double_to_int64 ((1 / 2 : ℚ) * (scenarioD.p_sys.i_length : ℚ)) = 500000 := by
    norm_num [double_to_int64, scenarioD, store]
  have h2 : cue_GetIndexByTime scenarioD.p_sys 500000 = 2 := by decide
  refine ⟨h1, h2, by decide, ?_⟩
  have hne : scenarioD.p_sys.cues.i_count ≠ 0 := by decide
  simp only [Control, hne, ne_eq, not_false_eq_true, if_true, h1, Control_seek, h2]
  rfl

theorem FlagsOnce_append {f f1 f2 : Nat} {rs1 rs2 : List block_t}
    (h1 : FlagsOnce f rs1 f1) (h2 : FlagsOnce f1 rs2 f2) : FlagsOnce f (rs1 ++ rs2) f2 := by
  rcases h1 with ⟨rfl, rfl⟩ | ⟨r, rest, rfl, hr, hrest, rfl⟩
  · simpa using h2
  · right
    rcases h2 with ⟨rfl, rfl⟩ | ⟨r2, rest2, rfl, hr2, hrest2, rfl⟩
    · exact ⟨r, rest, by simp, hr, hrest, rfl⟩
    · refine ⟨r, rest ++ r2 :: rest2, by simp, hr, ?_, rfl⟩
      intro r' hr'
      rcases List.mem_append.mp hr' with h | h
      · exact hrest r' h
      · rcases List.mem_cons.mp h with rfl | h
        · exact hr2
        · exact hrest2 r' h

/-- One iteration of the loop: a record sent takes the pending flags and clears them; with
no record sent they stay pending. -/
theorem Demux_body_flags (mem : Nat → alloc_outcome) (i_barrier : Int) (cue : webvtt_cue_t)
    (d : demux_t) :
    ∃ evs, (Demux_body mem i_barrier cue d).out = d.out ++ evs ∧
      FlagsOnce d.p_sys.i_next_block_flags (sent evs)
        (Demux_body mem i_barrier cue d).p_sys.i_next_block_flags := by
  simp only [Demux_body, ConvertWEBVTT_eq, es_out_SetPCR, es_out_Send]
  split_ifs <;> simp_all [sent, FlagsOnce, sent_append]
  all_goals exact ⟨_, [], ⟨rfl, rfl⟩, rfl, by simp⟩

theorem Demux_loop_flags (mem : Nat → alloc_outcome) (i_barrier : Int) :
    ∀ (fuel : Nat) (d : demux_t),
      ∃ evs, (Demux_loop mem i_barrier fuel d).out = d.out ++ evs ∧
        FlagsOnce d.p_sys.i_next_block_flags (sent evs)
          (Demux_loop mem i_barrier fuel d).p_sys.i_next_block_flags := by
  intro fuel
  induction fuel with
  | zero =>
    intro d
    exact ⟨[], by simp [Demux_loop], Or.inl ⟨rfl, rfl⟩⟩
  | succ n ih =>
    intro d
    have hstop : ∃ evs, d.out = d.out ++ evs ∧
        FlagsOnce d.p_sys.i_next_block_flags (sent evs) d.p_sys.i_next_block_flags :=
      ⟨[], by simp, Or.inl ⟨rfl, rfl⟩⟩
    unfold Demux_loop
    cases hc : d.p_sys.cues.p_array[d.p_sys.cues.i_current]? with
    | none => exact hstop
    | some cue =>
      simp only
      by_cases hle : cue.i_start ≤ i_barrier
      · rw [if_pos hle]
        obtain ⟨evs1, hout1, hf1⟩ := Demux_body_flags mem i_barrier cue d
        obtain ⟨evs2, hout2, hf2⟩ := ih (Demux_body mem i_barrier cue d)
        refine ⟨evs1 ++ evs2, ?_, ?_⟩
        · rw [hout2, hout1, List.append_assoc]
        · rw [sent_append]
          exact FlagsOnce_append hf1 hf2
      · rw [if_neg hle]
        exact hstop

theorem Demux_flags (mem : Nat → alloc_outcome) (d : demux_t) :
    ∃ evs, (Demux mem d).1.out = d.out ++ evs ∧
      FlagsOnce d.p_sys.i_next_block_flags (sent evs)
        (Demux mem d).1.p_sys.i_next_block_flags := by
  obtain ⟨evs, hout, hf⟩ := Demux_loop_flags mem d.p_sys.i_next_demux_time
    (d.p_sys.cues.i_count - d.p_sys.cues.i_current) d
  rw [Demux_fst]
  split_ifs
  · exact ⟨evs, hout, hf⟩
  · refine ⟨evs ++ [es_out_event.SetPCR (VLC_TS_0 + d.p_sys.i_next_demux_time)], ?_, ?_⟩
    · simp only [hout, List.append_assoc]
    · simp only [sent_append, sent, List.append_nil]
      exact hf

theorem host_run_flags (calls : List host_call) :
    ∀ d : demux_t, ∃ evs, (host_run d calls).out = d.out ++ evs ∧
      FlagsOnce d.p_sys.i_next_block_flags (sent evs)
        (host_run d calls).p_sys.i_next_block_flags := by
  induction calls with
  | nil =>
    intro d
    exact ⟨[], by simp [host_run], Or.inl ⟨rfl, rfl⟩⟩
  | cons call calls ih =>
    intro d
    have hrun : host_run d (call :: calls) = host_run (host_step d call) calls := rfl
    rw [hrun]
    obtain ⟨evs2, hout2, hf2⟩ := ih (host_step d call)
    cases call with
    | pull mem =>
      obtain ⟨evs1, hout1, hf1⟩ := Demux_flags mem d
      refine ⟨evs1 ++ evs2, ?_, ?_⟩
      · rw [hout2]
        show (Demux mem d).1.out ++ evs2 = _
        rw [hout1, List.append_assoc]
      · rw [sent_append]
        exact FlagsOnce_append hf1 hf2
    | set_next_demux_time arg => exact ⟨evs2, hout2, hf2⟩

/-- A seek that returns: the state it leaves, and where the clock it stored was read. -/
theorem Control_seek_some (past_end : Option Int) (d d1 : demux_t) (i64 : Int) (ret : Int)
    (rep : control_reply) (h : Control_seek past_end d i64 = some (d1, ret, rep)) :
    ∃ v : Int,
      d1 = { d with p_sys := { d.p_sys with
              cues := { d.p_sys.cues with i_current := cue_GetIndexByTime d.p_sys i64 },
              b_first_time := true,
              i_next_demux_time := v,
              i_next_block_flags :=
                d.p_sys.i_next_block_flags ||| BLOCK_FLAG_DISCONTINUITY } } ∧
      ret = VLC_SUCCESS ∧ rep = control_reply.nothing ∧
      ((∃ cue, d.p_sys.cues.p_array[cue_GetIndexByTime d.p_sys i64]? = some cue ∧
          v = cue.i_start) ∨
        (d.p_sys.cues.p_array[cue_GetIndexByTime d.p_sys i64]? = none ∧
          d.p_sys.cues.p_array ≠ [] ∧ past_end = some v)) := by
  unfold Control_seek at h
  cases hc : d.p_sys.cues.p_array[cue_GetIndexByTime d.p_sys i64]? with
  | some cue =>
    simp only [hc, Option.some.injEq, Prod.mk.injEq] at h
    obtain ⟨rfl, rfl, rfl⟩ := h
    exact ⟨cue.i_start, rfl, rfl, rfl, Or.inl ⟨cue, rfl, rfl⟩⟩
  | none =>
    simp only [hc] at h
    by_cases hne : d.p_sys.cues.p_array = []
    · simp [hne] at h
    · simp only [hne, if_false] at h
      cases hp : past_end with
      | none => simp [hp] at h
      | some v =>
        simp only [hp, Option.some.injEq, Prod.mk.injEq] at h
        obtain ⟨rfl, rfl, rfl⟩ := h
        exact ⟨v, rfl, rfl, rfl, Or.inr ⟨rfl, hne, rfl⟩⟩

theorem Control_seek_flags (past_end : Option Int) (d d1 : demux_t) (i64 : Int) (ret : Int)
    (rep : control_reply) (h : Control_seek past_end d i64 = some (d1, ret, rep)) :
    d1.p_sys.i_next_block_flags = d.p_sys.i_next_block_flags ||| BLOCK_FLAG_DISCONTINUITY ∧
    d1.out = d.out ∧ ret = VLC_SUCCESS := by
  obtain ⟨v, rfl, rfl, _, _⟩ := Control_seek_some past_end d d1 i64 ret rep h
  exact ⟨rfl, rfl, rfl⟩

theorem lor_discontinuity (f : Nat) :
    (f ||| BLOCK_FLAG_DISCONTINUITY) &&& BLOCK_FLAG_DISCONTINUITY = BLOCK_FLAG_DISCONTINUITY := by
  unfold BLOCK_FLAG_DISCONTINUITY
  rw [Nat.and_one_is_mod]
  exact Nat.or_mod_two_eq_one.mpr (Or.inr rfl)

/-- C17: after a `DEMUX_SET_TIME` or `DEMUX_SET_POSITION` query that performed a seek
(it returned `VLC_SUCCESS`), over any following pulls and `DEMUX_SET_NEXT_DEMUX_TIME`
calls: either no record has been delivered yet and the discontinuity flag is still
pending, or the first record delivered carries the pending flags, among them
`BLOCK_FLAG_DISCONTINUITY`, the pending flags are then cleared, and every later record
carries no flag. -/
theorem seek_discontinuity_once (past_end : Option Int) (d d1 : demux_t) (q : demux_query)
    (ret : Int) (rep : control_reply) (calls : List host_call)
    (hq : (∃ t, q = demux_query.DEMUX_SET_TIME t) ∨ (∃ f, q = demux_query.DEMUX_SET_POSITION f))
    (hseek : Control past_end d q = some (d1, ret, rep)) (hret : ret = VLC_SUCCESS) :
    ∃ evs, (host_run d1 calls).out = d.out ++ evs ∧
      ((sent evs = [] ∧
          (host_run d1 calls).p_sys.i_next_block_flags &&& BLOCK_FLAG_DISCONTINUITY =
            BLOCK_FLAG_DISCONTINUITY) ∨
        (∃ r rest, sent evs = r :: rest ∧
          r.i_flags = d.p_sys.i_next_block_flags ||| BLOCK_FLAG_DISCONTINUITY ∧
          r.i_flags &&& BLOCK_FLAG_DISCONTINUITY = BLOCK_FLAG_DISCONTINUITY ∧
          (∀ r' ∈ rest, r'.i_flags = 0) ∧
          (host_run d1 calls).p_sys.i_next_block_flags = 0)) := by
  have hctl : ∃ i64, Control_seek past_end d i64 = some (d1, ret, rep) := by
    rcases hq with ⟨t, rfl⟩ | ⟨f, rfl⟩
    · exact ⟨t, hseek⟩
    · simp only [Control] at hseek
      split_ifs at hseek with hne
      · exact ⟨_, hseek⟩
      · simp only [Option.some.injEq, Prod.mk.injEq] at hseek
        obtain ⟨_, h2, _⟩ := hseek
        rw [← h2] at hret
        exact absurd hret (by decide)
  obtain ⟨i64, hs⟩ := hctl
  obtain ⟨hflags, hout, _⟩ := Control_seek_flags past_end d d1 i64 ret rep hs
  obtain ⟨evs, hrun, hf⟩ := host_run_flags calls d1
  rw [hout] at hrun
  rw [hflags] at hf
  refine ⟨evs, hrun, ?_⟩
  rcases hf with ⟨hnil, hsame⟩ | ⟨r, rest, hcons, hr, hrest, hzero⟩
  · left
    exact ⟨hnil, by rw [hsame]; exact lor_discontinuity _⟩
  · right
    exact ⟨r, rest, hcons, hr, by rw [hr]; exact lor_discontinuity _, hrest, hzero⟩

/-- Witness for C17: scenario D, a seek to time 400000, then two pulls: the clock is set
to the start of the cue at index 1, so the first pull delivers that cue with the
discontinuity flag; the later records carry none. -/
theorem seek_discontinuity_once_witness :
    Control none scenarioD (demux_query.DEMUX_SET_TIME 400000) =
        some (scenarioD_at_400000, VLC_SUCCESS, control_reply.nothing) ∧
      ∃ evs, (host_run scenarioD_at_400000 [host_call.pull (fun _ => mem_ok),
          host_call.pull (fun _ => mem_ok)]).out = scenarioD.out ++ evs ∧
        ((sent evs = [] ∧
            (host_run scenarioD_at_400000 [host_call.pull (fun _ => mem_ok),
              host_call.pull (fun _ => mem_ok)]).p_sys.i_next_block_flags &&&
                BLOCK_FLAG_DISCONTINUITY = BLOCK_FLAG_DISCONTINUITY) ∨
          (∃ r rest, sent evs = r :: rest ∧
            r.i_flags = scenarioD.p_sys.i_next_block_flags ||| BLOCK_FLAG_DISCONTINUITY ∧
            r.i_flags &&& BLOCK_FLAG_DISCONTINUITY = BLOCK_FLAG_DISCONTINUITY ∧
            (∀ r' ∈ rest, r'.i_flags = 0) ∧
            (host_run scenarioD_at_400000 [host_call.pull (fun _ => mem_ok),
              host_call.pull (fun _ => mem_ok)]).p_sys.i_next_block_flags = 0)) :=
  ⟨by decide,
    seek_discontinuity_once none scenarioD scenarioD_at_400000
      (demux_query.DEMUX_SET_TIME 400000)
      VLC_SUCCESS control_reply.nothing _ (Or.inl ⟨400000, rfl⟩) (by decide) rfl⟩

/-- Scenario D after a seek to 400000 and two pulls: the cues at 400000 and 600000 are
delivered, the first with flags 1 (`BLOCK_FLAG_DISCONTINUITY`), the second with flags 0. -/
theorem scenarioD_seek_flags :
    ((Control none scenarioD (demux_query.DEMUX_SET_TIME 400000)).map
      (fun r => (sent (host_run r.1 [host_call.pull (fun _ => mem_ok),
        host_call.pull (fun _ => mem_ok), host_call.pull (fun _ => mem_ok)]).out).map
          (fun b => (b.i_pts, b.i_flags)))) = some [(400001, 1), (600001, 0)] := by
  decide

/-! ## Theorems: probe, extradata, total duration -/

theorem exists_sixteen (s : List Nat) (h : 16 ≤ s.length) :
    ∃ a0 a1 a2 a3 a4 a5 a6 a7 a8 a9 a10 a11 a12 a13 a14 a15 rest,
      s = a0 :: a1 :: a2 :: a3 :: a4 :: a5 :: a6 :: a7 :: a8 :: a9 :: a10 :: a11 :: a12 ::
        a13 :: a14 :: a15 :: rest := by
  rcases s with _ | ⟨a0, _ | ⟨a1, _ | ⟨a2, _ | ⟨a3, _ | ⟨a4, _ | ⟨a5, _ | ⟨a6, _ | ⟨a7, _ | ⟨a8, _ | ⟨a9, _ | ⟨a10, _ | ⟨a11, _ | ⟨a12, _ | ⟨a13, _ | ⟨a14, _ | ⟨a15, rest⟩⟩⟩⟩⟩⟩⟩⟩⟩⟩⟩⟩⟩⟩⟩⟩ <;>
    first
    | (simp only [List.length_cons, List.length_nil] at h; omega)
    | exact ⟨_, _, _, _, _, _, _, _, _, _, _, _, _, _, _, _, _, rfl⟩

theorem sig_iff (b0 b1 b2 b3 b4 b5 c d : Nat) :
    (¬(b0 = 87 ∧ b1 = 69 ∧ b2 = 66 ∧ b3 = 86 ∧ b4 = 84 ∧ b5 = 84) ∨
      ¬c = 10 ∧ ¬c = 32 ∧ ¬c = 9 ∧ (¬c = 13 ∨ ¬d = 10)) ↔
    ¬((87 = b0 ∧ 69 = b1 ∧ 66 = b2 ∧ 86 = b3 ∧ 84 = b4 ∧ 84 = b5 ∧ 10 = c) ∨
      (87 = b0 ∧ 69 = b1 ∧ 66 = b2 ∧ 86 = b3 ∧ 84 = b4 ∧ 84 = b5 ∧ 32 = c) ∨
      (87 = b0 ∧ 69 = b1 ∧ 66 = b2 ∧ 86 = b3 ∧ 84 = b4 ∧ 84 = b5 ∧ 9 = c) ∨
      87 = b0 ∧ 69 = b1 ∧ 66 = b2 ∧ 86 = b3 ∧ 84 = b4 ∧ 84 = b5 ∧ 13 = c ∧ 10 = d) := by
  by_cases hA : b0 = 87 ∧ b1 = 69 ∧ b2 = 66 ∧ b3 = 86 ∧ b4 = 84 ∧ b5 = 84
  · obtain ⟨rfl, rfl, rfl, rfl, rfl, rfl⟩ := hA
    simp only [true_and, and_self, not_true_eq_false, false_or]
    omega
  · have e2 : ∀ P : Prop, (87 = b0 ∧ 69 = b1 ∧ 66 = b2 ∧ 86 = b3 ∧ 84 = b4 ∧ 84 = b5 ∧ P) ↔
        False :=
      fun P => ⟨fun ⟨x1, x2, x3, x4, x5, x6, _⟩ =>
        hA ⟨x1.symm, x2.symm, x3.symm, x4.symm, x5.symm, x6.symm⟩, False.elim⟩
    simp only [e2, or_false, not_false_eq_true, iff_true]
    left
    exact hA

/-- The test `OpenDemux` makes on the 16 bytes it peeks declines exactly the streams
without the probe signature. -/
theorem probe_test_iff (s : List Nat) (h : 16 ≤ s.length) :
    ((if (s.take 16).take 3 = [239, 187, 191] then (s.take 16).drop 3 else s.take 16).take 6 ≠
        [87, 69, 66, 86, 84, 84] ∨
      ((if (s.take 16).take 3 = [239, 187, 191] then (s.take 16).drop 3
          else s.take 16).getD 6 0 ≠ 10 ∧
        (if (s.take 16).take 3 = [239, 187, 191] then (s.take 16).drop 3
          else s.take 16).getD 6 0 ≠ 32 ∧
        (if (s.take 16).take 3 = [239, 187, 191] then (s.take 16).drop 3
          else s.take 16).getD 6 0 ≠ 9 ∧
        ((if (s.take 16).take 3 = [239, 187, 191] then (s.take 16).drop 3
            else s.take 16).getD 6 0 ≠ 13 ∨
          (if (s.take 16).take 3 = [239, 187, 191] then (s.take 16).drop 3
            else s.take 16).getD 7 0 ≠ 10))) ↔
    ¬ ProbeSignature s := by
  obtain ⟨a0, a1, a2, a3, a4, a5, a6, a7, a8, a9, a10, a11, a12, a13, a14, a15, rest, rfl⟩ :=
    exists_sixteen s h
  simp only [ProbeSignature, magic_tails, webvtt_magic, utf8_bom, List.mem_cons,
    List.mem_singleton, List.not_mem_nil, or_false, exists_eq_or_imp, exists_eq_left,
    List.cons_append, List.nil_append, List.cons_prefix_cons, List.nil_prefix, and_true,
    List.take_succ_cons, List.take_zero, List.drop_succ_cons, List.drop_zero,
    List.cons.injEq, List.getD_cons_succ, List.getD_cons_zero]
  by_cases hb : a0 = 239 ∧ a1 = 187 ∧ a2 = 191
  · obtain ⟨rfl, rfl, rfl⟩ := hb
    have e0 : ∀ P : Prop, (87 = 239 ∧ P) ↔ False :=
      fun P => ⟨fun h => absurd h.1 (by decide), False.elim⟩
    simp only [true_and, and_true, if_true, List.take_succ_cons, List.take_zero,
      List.cons.injEq, List.getD_cons_succ, List.getD_cons_zero, ne_eq, e0, false_or]
    exact sig_iff a3 a4 a5 a6 a7 a8 a9 a10
  · have hb' : ¬ (a0 = 239 ∧ a1 = 187 ∧ a2 = 191 ∧ True) := by simpa using hb
    simp only [and_true] at hb' ⊢
    rw [if_neg hb']
    have e : ∀ P : Prop, (239 = a0 ∧ 187 = a1 ∧ 191 = a2 ∧ P) ↔ False :=
      fun P => ⟨fun ⟨x, y, z, _⟩ => hb ⟨x.symm, y.symm, z.symm⟩, False.elim⟩
    simp only [List.take_succ_cons, List.take_zero, List.cons.injEq, and_true,
      List.getD_cons_succ, List.getD_cons_zero, ne_eq, e, or_false]
    exact sig_iff a0 a1 a2 a3 a4 a5 a6 a7

/-- C18: with the force option off and at least 16 bytes to peek, `OpenDemux` goes past
its probe (it does what it does with the force option on) if the stream has the probe
signature, and otherwise declines with `VLC_EGENERIC`, leaving no demuxer state and having
called nothing; with every allocation succeeding, it accepts the stream (`VLC_SUCCESS`) if
and only if the stream has the probe signature. -/
theorem OpenDemux_probe (qsort : List webvtt_cue_t → (webvtt_cue_t → webvtt_cue_t → Int) →
      List webvtt_cue_t)
    (env : open_outcome) (b : Bool) (s : List Nat) (events : List parser_event)
    (hlen : 16 ≤ s.length) :
    (ProbeSignature s →
      OpenDemux qsort env b false s events = OpenDemux qsort env b true s events) ∧
    (¬ ProbeSignature s →
      OpenDemux qsort env b false s events =
        { ret := VLC_EGENERIC, p_demux := none, fmt_extra := none }) ∧
    ((OpenDemux qsort open_ok b false s events).ret = VLC_SUCCESS ↔ ProbeSignature s) := by
  have hp := probe_test_iff s hlen
  have h16 : ¬ (s.take 16).length < 16 := by
    rw [List.length_take]
    omega
  have h1 : ProbeSignature s →
      OpenDemux qsort env b false s events = OpenDemux qsort env b true s events := by
    intro hsig
    unfold OpenDemux
    simp only [h16, if_false, hp, hsig, not_true_eq_false, false_and, Bool.true_eq_false,
      and_false]
  have h2 : ∀ env' : open_outcome, ¬ ProbeSignature s →
      OpenDemux qsort env' b false s events =
        { ret := VLC_EGENERIC, p_demux := none, fmt_extra := none } := by
    intro env' hsig
    unfold OpenDemux
    simp only [h16, if_false, hp, hsig, not_false_eq_true, true_and, if_true]
  have h3 : ProbeSignature s →
      (OpenDemux qsort open_ok b false s events).ret = VLC_SUCCESS := by
    intro hsig
    have hread : (ReadWEBVTT qsort read_ok events (OpenDemux_init b)).2 = VLC_SUCCESS := by
      simp [ReadWEBVTT, read_ok]
    unfold OpenDemux
    simp only [h16, if_false, hp, hsig, not_true_eq_false, false_and]
    simp [open_ok, hread]
  refine ⟨h1, h2 env, ?_⟩
  constructor
  · intro hret
    by_contra hsig
    rw [h2 open_ok hsig] at hret
    exact absurd hret (by decide)
  · exact h3

/-- Witness for C18: a stream starting with a byte-order mark, `WEBVTT` and a CR-LF pair
is accepted. -/
theorem OpenDemux_probe_witness :
    (OpenDemux (fun base _ => base) open_ok false false bom_crlf_stream header_events).ret =
      VLC_SUCCESS :=
  ((OpenDemux_probe (fun base _ => base) open_ok false bom_crlf_stream header_events
    (by decide)).2.2).mpr
    ⟨[13, 10], by decide, Or.inr (by decide)⟩

theorem header_lines_cons (kind : Nat) (ev : parser_event) (evs : List parser_event) :
    header_lines kind (ev :: evs) = header_lines kind [ev] ++ header_lines kind evs := by
  cases ev <;> simp [header_lines]

/-- What `memstream_Append` does to a header stream, opened or not. -/
theorem memstream_Append_eq (ms : Option vlc_memstream) (psz : List Nat) :
    memstream_Append ms psz =
      ms.map (fun m => ({ ptr := m.ptr ++ (cstr_bytes psz ++ [10]) } : vlc_memstream)) := by
  cases ms with
  | none => rfl
  | some m =>
    simp [memstream_Append, vlc_memstream_putc, vlc_memstream_puts, vlc_memstream_write,
      take_strlen]

theorem ParserCueDoneHandler_headers (ctx : callback_ctx) (p_sys : demux_sys_t) (p_cue : Nat) :
    (ParserCueDoneHandler ctx p_sys p_cue).1.regions = ctx.regions ∧
    (ParserCueDoneHandler ctx p_sys p_cue).1.styles = ctx.styles ∧
    (ParserCueDoneHandler ctx p_sys p_cue).2.regions_headers = p_sys.regions_headers ∧
    (ParserCueDoneHandler ctx p_sys p_cue).2.styles_headers = p_sys.styles_headers := by
  unfold ParserCueDoneHandler
  split
  · exact ⟨rfl, rfl, rfl, rfl⟩
  · simp only
    refine ⟨?_, ?_, ?_, ?_⟩ <;> split_ifs <;> (try split) <;> (try split_ifs) <;> rfl

theorem ParserGetCueHandler_headers (ok : Bool) (p_sys : demux_sys_t) :
    (ParserGetCueHandler ok p_sys).1.regions_headers = p_sys.regions_headers ∧
    (ParserGetCueHandler ok p_sys).1.styles_headers = p_sys.styles_headers := by
  unfold ParserGetCueHandler
  simp only
  constructor <;> split_ifs <;> rfl

/-- One parser event and the header streams: a header line of kind REGION (STYLE) is
appended, with a newline, to the regions (styles) stream if that stream is open; any other
event leaves the streams alone; the header data of the state is never touched. -/
theorem webvtt_text_parser_Feed_headers (st : callback_ctx × demux_sys_t) (ev : parser_event) :
    (webvtt_text_parser_Feed st ev).1.regions =
      st.1.regions.map (fun m =>
        ({ ptr := m.ptr ++ header_lines WEBVTT_HEADER_REGION [ev] } : vlc_memstream)) ∧
    (webvtt_text_parser_Feed st ev).1.styles =
      st.1.styles.map (fun m =>
        ({ ptr := m.ptr ++ header_lines WEBVTT_HEADER_STYLE [ev] } : vlc_memstream)) ∧
    (webvtt_text_parser_Feed st ev).2.regions_headers = st.2.regions_headers ∧
    (webvtt_text_parser_Feed st ev).2.styles_headers = st.2.styles_headers := by
  obtain ⟨ctx, p_sys⟩ := st
  have hid : ∀ o : Option vlc_memstream,
      o.map (fun m => ({ ptr := m.ptr ++ [] } : vlc_memstream)) = o := by
    intro o
    cases o with
    | none => rfl
    | some m => simp
  cases ev with
  | header s b_new psz_line =>
    simp only [webvtt_text_parser_Feed, ParserHeaderHandler, header_lines, List.append_nil,
      memstream_Append_eq]
    by_cases h1 : s = WEBVTT_HEADER_STYLE
    · have h2 : ¬ s = WEBVTT_HEADER_REGION := by rw [h1]; decide
      simp only [h1, if_true, hid]
      have h3 : ¬ WEBVTT_HEADER_STYLE = WEBVTT_HEADER_REGION := by decide
      simp only [h3, if_false, hid, and_self]
    · by_cases h2 : s = WEBVTT_HEADER_REGION
      · subst h2
        have h3 : ¬ WEBVTT_HEADER_REGION = WEBVTT_HEADER_STYLE := by decide
        simp only [h3, if_true, if_false, hid, and_self]
      · simp only [h1, h2, if_false, hid, and_self]
  | cue ok cue =>
    simp only [header_lines, hid]
    unfold webvtt_text_parser_Feed
    simp only
    have hg := ParserGetCueHandler_headers ok p_sys
    split
    · rename_i p_sys' p_cue heq
      have hd := ParserCueDoneHandler_headers ctx
        { p_sys' with cues := { p_sys'.cues with
            p_array := p_sys'.cues.p_array.set p_cue cue } } p_cue
      rw [heq] at hg
      exact ⟨hd.1, hd.2.1, hd.2.2.1.trans hg.1, hd.2.2.2.trans hg.2⟩
    · rename_i p_sys' heq
      rw [heq] at hg
      exact ⟨rfl, rfl, hg.1, hg.2⟩

theorem foldl_Feed_headers (events : List parser_event) :
    ∀ st : callback_ctx × demux_sys_t,
      (events.foldl webvtt_text_parser_Feed st).1.regions =
        st.1.regions.map (fun m =>
          ({ ptr := m.ptr ++ header_lines WEBVTT_HEADER_REGION events } : vlc_memstream)) ∧
      (events.foldl webvtt_text_parser_Feed st).1.styles =
        st.1.styles.map (fun m =>
          ({ ptr := m.ptr ++ header_lines WEBVTT_HEADER_STYLE events } : vlc_memstream)) ∧
      (events.foldl webvtt_text_parser_Feed st).2.regions_headers = st.2.regions_headers ∧
      (events.foldl webvtt_text_parser_Feed st).2.styles_headers = st.2.styles_headers := by
  induction events with
  | nil =>
    intro st
    refine ⟨?_, ?_, rfl, rfl⟩
    · cases h : st.1.regions <;> simp [header_lines, h]
    · cases h : st.1.styles <;> simp [header_lines, h]
  | cons ev evs ih =>
    intro st
    obtain ⟨a1, a2, a3, a4⟩ := webvtt_text_parser_Feed_headers st ev
    obtain ⟨b1, b2, b3, b4⟩ := ih (webvtt_text_parser_Feed st ev)
    rw [List.foldl_cons, header_lines_cons WEBVTT_HEADER_REGION,
      header_lines_cons WEBVTT_HEADER_STYLE]
    refine ⟨?_, ?_, b3.trans a3, b4.trans a4⟩
    · rw [b1, a1]
      cases st.1.regions <;> simp
    · rw [b2, a2]
      cases st.1.styles <;> simp

/-- The header data after `ReadWEBVTT` (the parser having been created): the lines of each
kind, if the stream of that kind could be opened and closed; nothing otherwise. -/
theorem ReadWEBVTT_headers (qsort : List webvtt_cue_t → (webvtt_cue_t → webvtt_cue_t → Int) →
      List webvtt_cue_t)
    (ro so rc sc : Bool) (events : List parser_event) (b : Bool) :
    (ReadWEBVTT qsort
        { parser_ok := true, regions_open_ok := ro, styles_open_ok := so,
          regions_close_ok := rc, styles_close_ok := sc }
        events (OpenDemux_init b)).1.p_sys.regions_headers =
      (if ro = true ∧ rc = true then header_lines WEBVTT_HEADER_REGION events else []) ∧
    (ReadWEBVTT qsort
        { parser_ok := true, regions_open_ok := ro, styles_open_ok := so,
          regions_close_ok := rc, styles_close_ok := sc }
        events (OpenDemux_init b)).1.p_sys.styles_headers =
      (if so = true ∧ sc = true then header_lines WEBVTT_HEADER_STYLE events else []) := by
  obtain ⟨h1, h2, h3, h4⟩ := foldl_Feed_headers events
    ({ regions := vlc_memstream_open ro, styles := vlc_memstream_open so, b_ordered := true },
      (OpenDemux_init b).p_sys)
  unfold ReadWEBVTT
  simp only [Bool.not_true, Bool.false_eq_true, if_false]
  constructor
  · have : ∀ p : demux_sys_t, (if (!(events.foldl webvtt_text_parser_Feed
          ({ regions := vlc_memstream_open ro, styles := vlc_memstream_open so,
             b_ordered := true }, (OpenDemux_init b).p_sys)).1.b_ordered) = true then p
        else (events.foldl webvtt_text_parser_Feed
          ({ regions := vlc_memstream_open ro, styles := vlc_memstream_open so,
             b_ordered := true }, (OpenDemux_init b).p_sys)).2).regions_headers =
        (if (!(events.foldl webvtt_text_parser_Feed
          ({ regions := vlc_memstream_open ro, styles := vlc_memstream_open so,
             b_ordered := true }, (OpenDemux_init b).p_sys)).1.b_ordered) = true
          then p.regions_headers
        else (events.foldl webvtt_text_parser_Feed
          ({ regions := vlc_memstream_open ro, styles := vlc_memstream_open so,
             b_ordered := true }, (OpenDemux_init b).p_sys)).2.regions_headers) := by
      intro p; split_ifs <;> rfl
    simp only [this, h1, h3, ite_self]
    cases ro <;> cases rc <;>
      simp [vlc_memstream_open, memstream_Grab, vlc_memstream_close, OpenDemux_init]
  · simp only [h2]
    have : ∀ p : demux_sys_t, (if (!(events.foldl webvtt_text_parser_Feed
          ({ regions := vlc_memstream_open ro, styles := vlc_memstream_open so,
             b_ordered := true }, (OpenDemux_init b).p_sys)).1.b_ordered) = true then p
        else (events.foldl webvtt_text_parser_Feed
          ({ regions := vlc_memstream_open ro, styles := vlc_memstream_open so,
             b_ordered := true }, (OpenDemux_init b).p_sys)).2).styles_headers =
        (if (!(events.foldl webvtt_text_parser_Feed
          ({ regions := vlc_memstream_open ro, styles := vlc_memstream_open so,
             b_ordered := true }, (OpenDemux_init b).p_sys)).1.b_ordered) = true
          then p.styles_headers
        else (events.foldl webvtt_text_parser_Feed
          ({ regions := vlc_memstream_open ro, styles := vlc_memstream_open so,
             b_ordered := true }, (OpenDemux_init b).p_sys)).2.styles_headers) := by
      intro p; split_ifs <;> rfl
    simp only [this, h4, ite_self]
    cases so <;> cases sc <;>
      simp [vlc_memstream_open, memstream_Grab, vlc_memstream_close, OpenDemux_init]

/-- `MakeExtradata` when its stream opens and closes: the marker, the regions headers, the
styles headers. -/
theorem MakeExtradata_eq (p_sys : demux_sys_t) (p_extra : List Nat) :
    MakeExtradata true true p_sys p_extra =
      webvtt_marker ++ p_sys.regions_headers ++ p_sys.styles_headers := by
  have hm : cstr_bytes [87, 69, 66, 86, 84, 84, 10, 10, 0] = webvtt_marker := by decide
  simp [MakeExtradata, vlc_memstream_open, vlc_memstream_puts, vlc_memstream_write,
    memstream_Grab, vlc_memstream_close, take_strlen, hm]

/-- C19: the extradata blob built by `MakeExtradata` after `ReadWEBVTT` is the 8 bytes
`"WEBVTT\n\n"`, then every REGION line in arrival order, each followed by one newline,
then every STYLE line in arrival order, each followed by one newline (both header streams
being opened and closed); the lines of a stream that failed to open (or to close) and the
lines of any other kind contribute nothing; on the example stream the blob, also the one handed
over by `OpenDemux`, is `"WEBVTT\n\nr1\nr2\ns\n"`. -/
theorem MakeExtradata_blob :
    (∀ (qsort : List webvtt_cue_t → (webvtt_cue_t → webvtt_cue_t → Int) → List webvtt_cue_t)
        (events : List parser_event) (b : Bool),
      MakeExtradata true true
          (ReadWEBVTT qsort read_ok events (OpenDemux_init b)).1.p_sys [] =
        webvtt_marker ++ header_lines WEBVTT_HEADER_REGION events ++
          header_lines WEBVTT_HEADER_STYLE events) ∧
    (∀ (qsort : List webvtt_cue_t → (webvtt_cue_t → webvtt_cue_t → Int) → List webvtt_cue_t)
        (ro so rc sc : Bool) (events : List parser_event) (b : Bool),
      MakeExtradata true true
          (ReadWEBVTT qsort
            { parser_ok := true, regions_open_ok := ro, styles_open_ok := so,
              regions_close_ok := rc, styles_close_ok := sc }
            events (OpenDemux_init b)).1.p_sys [] =
        webvtt_marker ++
          (if ro = true ∧ rc = true then header_lines WEBVTT_HEADER_REGION events else []) ++
          (if so = true ∧ sc = true then header_lines WEBVTT_HEADER_STYLE events else [])) ∧
    (∀ (psz_line : List Nat) (b_new : Bool) (s : Nat),
      s ≠ WEBVTT_HEADER_REGION → s ≠ WEBVTT_HEADER_STYLE →
        header_lines WEBVTT_HEADER_REGION [parser_event.header s b_new psz_line] = [] ∧
        header_lines WEBVTT_HEADER_STYLE [parser_event.header s b_new psz_line] = []) ∧
    (OpenDemux (fun base _ => base) open_ok false false bom_crlf_stream
        header_events).fmt_extra =
      some [87, 69, 66, 86, 84, 84, 10, 10, 114, 49, 10, 114, 50, 10, 115, 10] := by
  refine ⟨?_, ?_, ?_, by decide⟩
  · intro qsort events b
    obtain ⟨h1, h2⟩ := ReadWEBVTT_headers qsort true true true true events b
    rw [MakeExtradata_eq]
    show webvtt_marker ++
        (ReadWEBVTT qsort
          { parser_ok := true, regions_open_ok := true, styles_open_ok := true,
            regions_close_ok := true, styles_close_ok := true }
          events (OpenDemux_init b)).1.p_sys.regions_headers ++
        (ReadWEBVTT qsort
          { parser_ok := true, regions_open_ok := true, styles_open_ok := true,
            regions_close_ok := true, styles_close_ok := true }
          events (OpenDemux_init b)).1.p_sys.styles_headers = _
    rw [h1, h2]
    simp
  · intro qsort ro so rc sc events b
    obtain ⟨h1, h2⟩ := ReadWEBVTT_headers qsort ro so rc sc events b
    rw [MakeExtradata_eq, h1, h2]
  · intro psz_line b_new s h1 h2
    simp [header_lines, h1, h2]

theorem le_foldl_max (l : List Int) : ∀ a : Int, a ≤ l.foldl max a := by
  induction l with
  | nil => intro a; exact le_refl _
  | cons x l ih =>
    intro a
    exact le_trans (le_max_left a x) (ih (max a x))

theorem ParserCueDoneHandler_i_length (ctx : callback_ctx) (p_sys : demux_sys_t) (p_cue : Nat) :
    p_sys.i_length ≤ (ParserCueDoneHandler ctx p_sys p_cue).2.i_length := by
  unfold ParserCueDoneHandler
  split
  · exact le_refl _
  · rename_i cue _
    simp only
    split_ifs with h
    · exact le_of_lt h
    · exact le_refl _

/-- One parser event and the total duration: the array grows, at its end, by at most the
event's cue, and the total duration becomes the larger of itself and that cue's stop. -/
theorem webvtt_text_parser_Feed_i_length (st : callback_ctx × demux_sys_t) (ev : parser_event)
    (hinv : st.2.cues.i_count ≤ st.2.cues.i_alloc) :
    (webvtt_text_parser_Feed st ev).2.cues.i_count ≤
      (webvtt_text_parser_Feed st ev).2.cues.i_alloc ∧
    ∃ l, (webvtt_text_parser_Feed st ev).2.cues.p_array = st.2.cues.p_array ++ l ∧
      (webvtt_text_parser_Feed st ev).2.i_length =
        (l.map (fun c => c.i_stop)).foldl max st.2.i_length := by
  obtain ⟨ctx, p_sys⟩ := st
  have hmax : ∀ cue : webvtt_cue_t,
      (if cue.i_stop > p_sys.i_length then cue.i_stop else p_sys.i_length) =
        max p_sys.i_length cue.i_stop := by
    intro cue
    rw [max_def]
    split_ifs <;> omega
  cases ev with
  | header s b_new psz_line =>
    exact ⟨hinv, [], by simp [webvtt_text_parser_Feed], rfl⟩
  | cue ok cue =>
    simp only at hinv
    by_cases hroom : p_sys.cues.i_alloc ≤ p_sys.cues.i_count
    · cases ok with
      | false =>
        have hno : ¬ p_sys.cues.i_alloc > p_sys.cues.i_count := by omega
        refine ⟨?_, [], ?_, ?_⟩
        · simp [webvtt_text_parser_Feed, ParserGetCueHandler, hroom, hno, hinv]
        · simp [webvtt_text_parser_Feed, ParserGetCueHandler, hroom, hno]
        · simp [webvtt_text_parser_Feed, ParserGetCueHandler, hroom, hno]
      | true =>
        have hyes : p_sys.cues.i_alloc + 64 > p_sys.cues.i_count := by omega
        have hfeed : webvtt_text_parser_Feed (ctx, p_sys) (.cue true cue) =
            (ctx, { p_sys with
              i_length := if cue.i_stop > p_sys.i_length then cue.i_stop else p_sys.i_length,
              cues := { p_sys.cues with p_array := p_sys.cues.p_array ++ [cue],
                                        i_alloc := p_sys.cues.i_alloc + 64 } }) := by
          have h := ParserCueDoneHandler_own_slot ctx
            { p_sys with cues := { p_sys.cues with i_alloc := p_sys.cues.i_alloc + 64 } } cue
          simp only [webvtt_text_parser_Feed, ParserGetCueHandler, hroom, if_true]
          simp only [cue_array.i_count] at hyes h ⊢
          simp only [hyes, if_true]
          exact h
        rw [hfeed]
        refine ⟨?_, [cue], rfl, ?_⟩
        · simp only [cue_array.i_count, List.length_append, List.length_singleton] at hinv ⊢
          omega
        · simp only [List.map_cons, List.map_nil, List.foldl_cons, List.foldl_nil, hmax]
    · have hyes : p_sys.cues.i_alloc > p_sys.cues.i_count := by omega
      have hfeed : webvtt_text_parser_Feed (ctx, p_sys) (.cue ok cue) =
          (ctx, { p_sys with
            i_length := if cue.i_stop > p_sys.i_length then cue.i_stop else p_sys.i_length,
            cues := { p_sys.cues with p_array := p_sys.cues.p_array ++ [cue] } }) := by
        have h := ParserCueDoneHandler_own_slot ctx p_sys cue
        simp only [webvtt_text_parser_Feed, ParserGetCueHandler, hroom, if_false]
        simp only [cue_array.i_count] at hyes h ⊢
        simp only [hyes, if_true]
        exact h
      rw [hfeed]
      refine ⟨?_, [cue], rfl, ?_⟩
      · simp only [cue_array.i_count, List.length_append, List.length_singleton] at hyes ⊢
        omega
      · simp only [List.map_cons, List.map_nil, List.foldl_cons, List.foldl_nil, hmax]

theorem foldl_Feed_i_length (events : List parser_event) :
    ∀ st : callback_ctx × demux_sys_t, st.2.cues.i_count ≤ st.2.cues.i_alloc →
      ∃ l, (events.foldl webvtt_text_parser_Feed st).2.cues.p_array = st.2.cues.p_array ++ l ∧
        (events.foldl webvtt_text_parser_Feed st).2.i_length =
          (l.map (fun c => c.i_stop)).foldl max st.2.i_length := by
  induction events with
  | nil =>
    intro st _
    exact ⟨[], by simp, rfl⟩
  | cons ev evs ih =>
    intro st hinv
    obtain ⟨hinv', l1, hl1, hlen1⟩ := webvtt_text_parser_Feed_i_length st ev hinv
    obtain ⟨l2, hl2, hlen2⟩ := ih (webvtt_text_parser_Feed st ev) hinv'
    rw [List.foldl_cons]
    refine ⟨l1 ++ l2, ?_, ?_⟩
    · rw [hl2, hl1, List.append_assoc]
    · rw [hlen2, hlen1, List.map_append, List.foldl_append]

/-- The total duration after `ReadWEBVTT`: the largest stop among the stored cues, and at
least 0. -/
theorem ReadWEBVTT_i_length_eq
    (qsort : List webvtt_cue_t → (webvtt_cue_t → webvtt_cue_t → Int) → List webvtt_cue_t)
    (env : read_outcome) (events : List parser_event) (b : Bool) :
    (ReadWEBVTT qsort env events (OpenDemux_init b)).1.p_sys.i_length =
      ((ReadWEBVTT qsort env events (OpenDemux_init b)).1.p_sys.cues.p_array.map
        (fun c => c.i_stop)).foldl max 0 := by
  unfold ReadWEBVTT
  cases hp : env.parser_ok with
  | false => rfl
  | true =>
    obtain ⟨h1, _, _⟩ := foldl_Feed_spec events
      ({ regions := vlc_memstream_open env.regions_open_ok,
         styles := vlc_memstream_open env.styles_open_ok,
         b_ordered := true }, (OpenDemux_init b).p_sys) (le_refl _)
    obtain ⟨l, hl, hlen⟩ := foldl_Feed_i_length events
      ({ regions := vlc_memstream_open env.regions_open_ok,
         styles := vlc_memstream_open env.styles_open_ok,
         b_ordered := true }, (OpenDemux_init b).p_sys) (le_refl _)
    simp only at h1
    simp only [Bool.not_true, Bool.false_eq_true, if_false, h1, hl, hlen]
    rfl

/-- C20 (as amended): after parsing any sequence of cues the total duration `i_length`,
which `DEMUX_GET_LENGTH` returns, is the largest `stop` among the stored cues, and 0 when
that is negative or there is no cue (a cue whose `stop` is absent contributes nothing:
its `start` is not used); with no allocation failing the stored cues are all the cues of
the stream; and completing a cue never decreases it. -/
theorem ReadWEBVTT_i_length :
    (∀ (qsort : List webvtt_cue_t → (webvtt_cue_t → webvtt_cue_t → Int) → List webvtt_cue_t)
        (env : read_outcome) (events : List parser_event) (b : Bool),
      (ReadWEBVTT qsort env events (OpenDemux_init b)).1.p_sys.i_length =
        ((ReadWEBVTT qsort env events (OpenDemux_init b)).1.p_sys.cues.p_array.map
          (fun c => c.i_stop)).foldl max 0) ∧
    (∀ (qsort : List webvtt_cue_t → (webvtt_cue_t → webvtt_cue_t → Int) → List webvtt_cue_t)
        (cues : List webvtt_cue_t) (b : Bool),
      (ReadWEBVTT qsort read_ok (cues.map (parser_event.cue true))
        (OpenDemux_init b)).1.p_sys.i_length = (cues.map (fun c => c.i_stop)).foldl max 0) ∧
    (∀ (qsort : List webvtt_cue_t → (webvtt_cue_t → webvtt_cue_t → Int) → List webvtt_cue_t)
        (env : read_outcome) (b : Bool),
      (ReadWEBVTT qsort env [] (OpenDemux_init b)).1.p_sys.i_length = 0) ∧
    (∀ (past_end : Option Int) (d : demux_t),
      Control past_end d demux_query.DEMUX_GET_LENGTH =
        some (d, VLC_SUCCESS, control_reply.int64 d.p_sys.i_length)) ∧
    (∀ (ctx : callback_ctx) (p_sys : demux_sys_t) (p_cue : Nat),
      p_sys.i_length ≤ (ParserCueDoneHandler ctx p_sys p_cue).2.i_length) := by
  refine ⟨ReadWEBVTT_i_length_eq, ?_, ?_, fun _ d => rfl, ParserCueDoneHandler_i_length⟩
  · intro qsort cues b
    rw [ReadWEBVTT_i_length_eq, ReadWEBVTT_stores_all]
  · intro qsort env b
    cases hp : env.parser_ok <;> simp [ReadWEBVTT, hp, OpenDemux_init]

/-- Counterexample to C20 as stated: for a stream with the single open-ended cue
`{start:5000000, stop:-1}` the total duration after `ReadWEBVTT` is 0, whereas the maximum
with `start` in place of the absent `stop` is 5000000. -/
theorem i_length_ignores_start :
    (ReadWEBVTT (fun base _ => base) read_ok open_ended_events
      (OpenDemux_init false)).1.p_sys.i_length = 0 ∧
    claimed_total_duration (cues_of_events open_ended_events) = 5000000 ∧
    ¬ (ReadWEBVTT (fun base _ => base) read_ok open_ended_events
        (OpenDemux_init false)).1.p_sys.i_length =
      claimed_total_duration (cues_of_events open_ended_events) := by
  refine ⟨by decide, by decide, by decide⟩

/-! ## Theorems: ordering flag, cursor invariant, declined queries -/

/-- C21 (the code at the failing input): the parser completes two cues, each in the slot
it just obtained, with starts 1000000 then 0; the second starts strictly before the first,
yet `b_ordered` is still true afterwards; and for any stream at all the flag is left as it
was, because the handler compares the completed cue with its own slot. -/
theorem ParserCueDoneHandler_never_unordered :
    (unordered_events.foldl webvtt_text_parser_Feed
      (ctx_init, (OpenDemux_init false).p_sys)).1.b_ordered = true ∧
    (cues_of_events unordered_events).map (fun c => c.i_start) = [1000000, 0] ∧
    (∀ (events : List parser_event) (b : Bool),
      (events.foldl webvtt_text_parser_Feed
        (ctx_init, (OpenDemux_init b).p_sys)).1.b_ordered = true) ∧
    (∀ (ctx : callback_ctx) (p_sys : demux_sys_t) (p_cue : Nat),
      ctx.b_ordered = false → (ParserCueDoneHandler ctx p_sys p_cue).1.b_ordered = false) := by
  refine ⟨by decide, by decide, ?_, ?_⟩
  · intro events b
    exact (foldl_Feed_spec events (ctx_init, (OpenDemux_init b).p_sys) (le_refl _)).1
  · intro ctx p_sys p_cue h
    unfold ParserCueDoneHandler
    split
    · exact h
    · simp only
      split_ifs
      all_goals
        first
        | exact h
        | (split <;> (try split_ifs) <;> first | exact h | rfl)

/-- C23: `DEMUX_CAN_SEEK` always succeeds and reports true, and every query other than
can-seek, get-length, get-time, set-time, get-position, set-position and
set-next-demux-time is declined with `VLC_EGENERIC`, the demuxer state unchanged and
nothing stored. -/
theorem Control_declines_others :
    (∀ (past_end : Option Int) (d : demux_t),
      Control past_end d demux_query.DEMUX_CAN_SEEK =
        some (d, VLC_SUCCESS, control_reply.bool true)) ∧
    (∀ (past_end : Option Int) (d : demux_t) (i_query : Nat),
      Control past_end d (demux_query.other i_query) =
        some (d, VLC_EGENERIC, control_reply.nothing)) ∧
    (∀ (past_end : Option Int) (d : demux_t) (q : demux_query),
      q ≠ demux_query.DEMUX_CAN_SEEK → q ≠ demux_query.DEMUX_GET_LENGTH →
      q ≠ demux_query.DEMUX_GET_TIME → (∀ t, q ≠ demux_query.DEMUX_SET_TIME t) →
      q ≠ demux_query.DEMUX_GET_POSITION → (∀ f, q ≠ demux_query.DEMUX_SET_POSITION f) →
      (∀ t, q ≠ demux_query.DEMUX_SET_NEXT_DEMUX_TIME t) →
      Control past_end d q = some (d, VLC_EGENERIC, control_reply.nothing)) := by
  refine ⟨fun _ d => rfl, fun _ d n => rfl, ?_⟩
  intro past_end d q h1 h2 h3 h4 h5 h6 h7
  cases q with
  | DEMUX_CAN_SEEK => exact absurd rfl h1
  | DEMUX_GET_LENGTH => exact absurd rfl h2
  | DEMUX_GET_TIME => exact absurd rfl h3
  | DEMUX_SET_TIME t => exact absurd rfl (h4 t)
  | DEMUX_GET_POSITION => exact absurd rfl h5
  | DEMUX_SET_POSITION f => exact absurd rfl (h6 f)
  | DEMUX_SET_NEXT_DEMUX_TIME t => exact absurd rfl (h7 t)
  | other n => rfl

theorem bsearch_loop_bound (cs : List webvtt_cue_t) :
    ∀ (fuel : Nat) (key : cue_searchkey) (l u : Nat),
      (∀ p, key.p_last = some p → p < cs.length) →
      (∀ p, (bsearch_loop cue_Bsearch_Compare cs fuel key l u).1.p_last = some p →
        p < cs.length) ∧
      (∀ i, (bsearch_loop cue_Bsearch_Compare cs fuel key l u).2 = some i →
        i < cs.length) := by
  intro fuel
  induction fuel with
  | zero =>
    intro key l u hk
    exact ⟨hk, by simp [bsearch_loop]⟩
  | succ n ih =>
    intro key l u hk
    unfold bsearch_loop
    by_cases hlu : l < u
    · cases hc : cs[(l + u) / 2]? with
      | none =>
        simp only [hlu, if_true, hc]
        exact ⟨hk, by simp⟩
      | some c =>
        have hidx : (l + u) / 2 < cs.length := (List.getElem?_eq_some.mp hc).1
        have hk' : ∀ p, (cue_Bsearch_Compare key ((l + u) / 2) c).1.p_last = some p →
            p < cs.length := by
          intro p hp
          simp only [cue_Bsearch_Compare, Option.some.injEq] at hp
          omega
        simp only [hlu, if_true, hc]
        split_ifs
        · exact ih _ _ _ hk'
        · exact ih _ _ _ hk'
        · refine ⟨hk', ?_⟩
          intro i hi
          simp only [Option.some.injEq] at hi
          omega
    · simp only [hlu, if_false]
      exact ⟨hk, by simp⟩

/-- The index `cue_GetIndexByTime` returns is at most the number of cues, for any store,
sorted or not. -/
theorem cue_GetIndexByTime_le (p_sys : demux_sys_t) (t : Int) :
    cue_GetIndexByTime p_sys t ≤ p_sys.cues.i_count := by
  unfold cue_array.i_count
  generalize hcs : p_sys.cues.p_array = cs
  by_cases hne : cs = []
  · subst hne
    simp [cue_GetIndexByTime, hcs]
  · have H := bsearch_loop_bound cs cs.length
      { cue := { i_start := t, i_stop := 0, psz_id := none, psz_text := [],
                 psz_attrs := none }, p_last := none }
      0 cs.length (by simp)
    unfold cue_GetIndexByTime
    simp only [hcs, ne_eq, hne, not_false_eq_true, if_true, bsearch]
    generalize bsearch_loop cue_Bsearch_Compare cs cs.length _ 0 cs.length = r at H
    obtain ⟨k, o⟩ := r
    obtain ⟨h1, h2⟩ := H
    cases o with
    | some i =>
      have hlt := h2 i rfl
      simp only
      cases hc : cs[i]? with
      | none => simp only; omega
      | some c => simp only; split_ifs <;> omega
    | none =>
      simp only
      cases hl : k.p_last with
      | none => simp
      | some last =>
        have hlt := h1 last hl
        simp only
        cases hc : cs[last]? with
        | none => simp only; omega
        | some c => simp only; split_ifs <;> omega

theorem Control_seek_cursor (past_end : Option Int) (d d1 : demux_t) (i64 : Int) (ret : Int)
    (rep : control_reply) (h : Control_seek past_end d i64 = some (d1, ret, rep)) :
    d1.p_sys.cues.p_array = d.p_sys.cues.p_array ∧
    d1.p_sys.cues.i_current = cue_GetIndexByTime d.p_sys i64 ∧
    d1.p_sys.cues.i_current ≤ d1.p_sys.cues.i_count ∧
    d1.p_sys.b_slave = d.p_sys.b_slave := by
  obtain ⟨v, rfl, _, _, _⟩ := Control_seek_some past_end d d1 i64 ret rep h
  exact ⟨rfl, rfl, cue_GetIndexByTime_le d.p_sys i64, rfl⟩

/-- On a store that is not empty a seek returns whenever the read of the slot after the
last cue yields a value. -/
theorem Control_seek_returns (v : Int) (d : demux_t) (i64 : Int)
    (hne : d.p_sys.cues.p_array ≠ []) :
    ∃ d1, Control_seek (some v) d i64 = some (d1, VLC_SUCCESS, control_reply.nothing) := by
  unfold Control_seek
  cases hc : d.p_sys.cues.p_array[cue_GetIndexByTime d.p_sys i64]? with
  | some cue =>
    simp only [hc]
    exact ⟨_, rfl⟩
  | none =>
    simp only [hc, hne, if_false]
    exact ⟨_, rfl⟩

theorem host_act_cursor (d d1 : demux_t) (a : host_action) (h : host_act d a = some d1) :
    d1.p_sys.cues.p_array = d.p_sys.cues.p_array ∧
    (d.p_sys.cues.i_current ≤ d.p_sys.cues.i_count →
      d1.p_sys.cues.i_current ≤ d1.p_sys.cues.i_count) := by
  cases a with
  | pull mem =>
    simp only [host_act, Option.some.injEq] at h
    subst h
    refine ⟨(Demux_spec mem d).1, fun h0 => ?_⟩
    rw [Demux_i_count]
    exact (Demux_spec mem d).2.2.1 h0
  | control past_end q =>
    simp only [host_act, Option.map_eq_some'] at h
    obtain ⟨⟨d2, ret, rep⟩, hq, rfl⟩ := h
    cases q with
    | DEMUX_CAN_SEEK =>
      simp only [Control, Option.some.injEq, Prod.mk.injEq] at hq
      obtain ⟨rfl, _⟩ := hq
      exact ⟨rfl, id⟩
    | DEMUX_GET_LENGTH =>
      simp only [Control, Option.some.injEq, Prod.mk.injEq] at hq
      obtain ⟨rfl, _⟩ := hq
      exact ⟨rfl, id⟩
    | DEMUX_GET_TIME =>
      simp only [Control, Option.some.injEq, Prod.mk.injEq] at hq
      obtain ⟨rfl, _⟩ := hq
      exact ⟨rfl, id⟩
    | DEMUX_SET_TIME t =>
      simp only [Control] at hq
      obtain ⟨h1, _, h3, _⟩ := Control_seek_cursor past_end d d2 t ret rep hq
      exact ⟨h1, fun _ => h3⟩
    | DEMUX_GET_POSITION =>
      simp only [Control] at hq
      split_ifs at hq <;>
        (simp only [Option.some.injEq, Prod.mk.injEq] at hq
         obtain ⟨rfl, _⟩ := hq
         exact ⟨rfl, id⟩)
    | DEMUX_SET_POSITION f =>
      simp only [Control] at hq
      split_ifs at hq
      · obtain ⟨h1, _, h3, _⟩ := Control_seek_cursor past_end d d2 _ ret rep hq
        exact ⟨h1, fun _ => h3⟩
      · simp only [Option.some.injEq, Prod.mk.injEq] at hq
        obtain ⟨rfl, _⟩ := hq
        exact ⟨rfl, id⟩
    | DEMUX_SET_NEXT_DEMUX_TIME arg =>
      simp only [Control, Control_SET_NEXT_DEMUX_TIME, Option.some.injEq, Prod.mk.injEq] at hq
      obtain ⟨rfl, _⟩ := hq
      exact ⟨rfl, id⟩
    | other n =>
      simp only [Control, Option.some.injEq, Prod.mk.injEq] at hq
      obtain ⟨rfl, _⟩ := hq
      exact ⟨rfl, id⟩

theorem host_acts_cursor (acts : List host_action) :
    ∀ (d d1 : demux_t), host_acts d acts = some d1 →
      d1.p_sys.cues.p_array = d.p_sys.cues.p_array ∧
      (d.p_sys.cues.i_current ≤ d.p_sys.cues.i_count →
        d1.p_sys.cues.i_current ≤ d1.p_sys.cues.i_count) := by
  induction acts with
  | nil =>
    intro d d1 h
    simp only [host_acts, Option.some.injEq] at h
    subst h
    exact ⟨rfl, id⟩
  | cons a rest ih =>
    intro d d1 h
    simp only [host_acts] at h
    cases ha : host_act d a with
    | none => simp [ha] at h
    | some d2 =>
      simp only [ha] at h
      obtain ⟨h1, h2⟩ := host_act_cursor d d2 a ha
      obtain ⟨h3, h4⟩ := ih d2 d1 h
      exact ⟨h3.trans h1, fun h0 => h4 (h2 h0)⟩

/-- C22: cursor invariant.  From any state whose cursor is within the store (as after
`OpenDemux`, where it is 0), after any sequence of `Demux` pulls and of queries (set-time,
set-position, set-next-demux-time, the get queries, any other) in which no call faults,
the cue array is the same and `i_current <= i_count`; a `Demux` pull never decreases
`i_current`; the index a seek stores in `i_current` is at most `i_count` for any store and
time; and on a store that is not empty a `DEMUX_SET_TIME` returns for every time as soon
as its read of the slot after the last cue yields a value, so the runs in which a seek
lands on the count go on from there with `i_current == i_count`. -/
theorem cursor_invariant (d d1 : demux_t) (acts : List host_action)
    (h0 : d.p_sys.cues.i_current ≤ d.p_sys.cues.i_count)
    (h : host_acts d acts = some d1) :
    d1.p_sys.cues.p_array = d.p_sys.cues.p_array ∧
    d1.p_sys.cues.i_current ≤ d1.p_sys.cues.i_count ∧
    (∀ mem : Nat → alloc_outcome,
      d1.p_sys.cues.i_current ≤ (Demux mem d1).1.p_sys.cues.i_current ∧
      (Demux mem d1).1.p_sys.cues.i_current ≤ (Demux mem d1).1.p_sys.cues.i_count) ∧
    (∀ t : Int, cue_GetIndexByTime d1.p_sys t ≤ d1.p_sys.cues.i_count) ∧
    (∀ (v t : Int), d1.p_sys.cues.p_array ≠ [] →
      ∃ d2, host_act d1 (host_action.control (some v) (demux_query.DEMUX_SET_TIME t)) =
          some d2 ∧
        d2.p_sys.cues.i_current = cue_GetIndexByTime d1.p_sys t ∧
        d2.p_sys.cues.i_current ≤ d2.p_sys.cues.i_count) := by
  obtain ⟨h1, h2⟩ := host_acts_cursor acts d d1 h
  refine ⟨h1, h2 h0, fun mem => ⟨(Demux_spec mem d1).2.1, ?_⟩,
    fun t => cue_GetIndexByTime_le d1.p_sys t, ?_⟩
  · rw [Demux_i_count]
    exact (Demux_spec mem d1).2.2.1 (h2 h0)
  · intro v t hne
    obtain ⟨d2, hd2⟩ := Control_seek_returns v d1 t hne
    obtain ⟨_, g2, g3, _⟩ := Control_seek_cursor (some v) d1 d2 t _ _ hd2
    refine ⟨d2, ?_, g2, g3⟩
    simp only [host_act, Control, hd2, Option.map_some']

/-- C22 at scenario D: a clock from the host, a seek to the time 600001, which lands on
the count and reads 42 in the slot after the last cue, a pull and a get-position query
leave the cursor at 3, the count; one more pull does not move it back. -/
theorem cursor_invariant_witness :
    scenarioD.p_sys.cues.i_current ≤ scenarioD.p_sys.cues.i_count ∧
    host_acts scenarioD
      [host_action.control none (demux_query.DEMUX_SET_NEXT_DEMUX_TIME 1),
       host_action.control (some 42) (demux_query.DEMUX_SET_TIME 600001),
       host_action.pull (fun _ => mem_ok),
       host_action.control none demux_query.DEMUX_GET_POSITION] =
      some scenarioD_past_end ∧
    scenarioD_past_end.p_sys.cues.i_current = 3 ∧
    scenarioD_past_end.p_sys.cues.i_current ≤ scenarioD_past_end.p_sys.cues.i_count ∧
    (∀ mem : Nat → alloc_outcome,
      scenarioD_past_end.p_sys.cues.i_current ≤
        (Demux mem scenarioD_past_end).1.p_sys.cues.i_current) :=
  ⟨by decide, by decide, by decide,
    (cursor_invariant scenarioD scenarioD_past_end
      [host_action.control none (demux_query.DEMUX_SET_NEXT_DEMUX_TIME 1),
       host_action.control (some 42) (demux_query.DEMUX_SET_TIME 600001),
       host_action.pull (fun _ => mem_ok),
       host_action.control none demux_query.DEMUX_GET_POSITION]
      (by decide) (by decide)).2.1,
    fun mem => ((cursor_invariant scenarioD scenarioD_past_end
      [host_action.control none (demux_query.DEMUX_SET_NEXT_DEMUX_TIME 1),
       host_action.control (some 42) (demux_query.DEMUX_SET_TIME 600001),
       host_action.pull (fun _ => mem_ok),
       host_action.control none demux_query.DEMUX_GET_POSITION]
      (by decide) (by decide)).2.2.1 mem).1⟩

/-! ## Theorems: clock quantum and published clock reference -/

theorem pcrs_append (a b : List es_out_event) : pcrs (a ++ b) = pcrs a ++ pcrs b := by
  induction a with
  | nil => rfl
  | cons e rest ih =>
    cases e with
    | SetPCR i => simpa [pcrs] using ih
    | Send r => simpa [pcrs] using ih

theorem Demux_body_pcrs (mem : Nat → alloc_outcome) (i_barrier : Int) (cue : webvtt_cue_t)
    (d : demux_t) (hslave : d.p_sys.b_slave = true) :
    (Demux_body mem i_barrier cue d).p_sys.b_slave = true ∧
    ∃ evs, (Demux_body mem i_barrier cue d).out = d.out ++ evs ∧ pcrs evs = [] := by
  simp only [Demux_body, ConvertWEBVTT_eq, es_out_SetPCR, es_out_Send]
  split_ifs <;> simp_all [pcrs]

theorem Demux_loop_pcrs (mem : Nat → alloc_outcome) (i_barrier : Int) :
    ∀ (fuel : Nat) (d : demux_t), d.p_sys.b_slave = true →
      ∃ evs, (Demux_loop mem i_barrier fuel d).out = d.out ++ evs ∧ pcrs evs = [] := by
  intro fuel
  induction fuel with
  | zero =>
    intro d _
    exact ⟨[], by simp [Demux_loop], rfl⟩
  | succ n ih =>
    intro d hslave
    have hstop : ∃ evs, d.out = d.out ++ evs ∧ pcrs evs = [] := ⟨[], by simp, rfl⟩
    unfold Demux_loop
    cases hc : d.p_sys.cues.p_array[d.p_sys.cues.i_current]? with
    | none => exact hstop
    | some cue =>
      simp only
      by_cases hle : cue.i_start ≤ i_barrier
      · rw [if_pos hle]
        obtain ⟨hs1, evs1, hout1, hp1⟩ := Demux_body_pcrs mem i_barrier cue d hslave
        obtain ⟨evs2, hout2, hp2⟩ := ih (Demux_body mem i_barrier cue d) hs1
        refine ⟨evs1 ++ evs2, ?_, ?_⟩
        · rw [hout2, hout1, List.append_assoc]
        · rw [pcrs_append, hp1, hp2]
          rfl
      · rw [if_neg hle]
        exact hstop

/-- Counterexample to C24 as stated: the three-cue store, not slaved, with the clock at
`INT64_MAX - 1`.  The `int64_t` increment of the pull wraps around and leaves the clock
at -9223372036854650810, which is not the clock on entry plus `CLOCK_FREQ / 8`. -/
theorem Demux_clock_wraps :
    (demux_at three_cues 9223372036854775806).p_sys.b_slave = false ∧
    (Demux (fun _ => mem_ok)
      (demux_at three_cues 9223372036854775806)).1.p_sys.i_next_demux_time =
        -9223372036854650810 ∧
    ¬ (Demux (fun _ => mem_ok)
      (demux_at three_cues 9223372036854775806)).1.p_sys.i_next_demux_time =
        (demux_at three_cues 9223372036854775806).p_sys.i_next_demux_time +
          Int.tdiv CLOCK_FREQ 8 := by
  refine ⟨by decide, by decide, by decide⟩

/-- C24 (as amended): for every state and every outcome of the allocations, one `Demux`
pull that is not slaved leaves in `i_next_demux_time` the `int64_t` sum of its value on
entry and `CLOCK_FREQ / 8`, which is 125000 (one eighth of a second), whatever the number
of cues it delivered; when the value on entry is an `int64_t` and that sum does not exceed
`INT64_MAX`, this is an increase by exactly `CLOCK_FREQ / 8`; one pull that is slaved
leaves `i_next_demux_time` unchanged and publishes no clock reference. -/
theorem Demux_clock_quantum (mem : Nat → alloc_outcome) (d : demux_t) :
    (d.p_sys.b_slave = false →
      (Demux mem d).1.p_sys.i_next_demux_time =
        to_int64 (d.p_sys.i_next_demux_time + Int.tdiv CLOCK_FREQ 8)) ∧
    (d.p_sys.b_slave = false → -INT64_MAX - 1 ≤ d.p_sys.i_next_demux_time →
      d.p_sys.i_next_demux_time + Int.tdiv CLOCK_FREQ 8 ≤ INT64_MAX →
      (Demux mem d).1.p_sys.i_next_demux_time =
        d.p_sys.i_next_demux_time + Int.tdiv CLOCK_FREQ 8) ∧
    (d.p_sys.b_slave = true →
      (Demux mem d).1.p_sys.i_next_demux_time = d.p_sys.i_next_demux_time ∧
      ∃ evs, (Demux mem d).1.out = d.out ++ evs ∧ pcrs evs = []) ∧
    Int.tdiv CLOCK_FREQ 8 = 125000 ∧ 8 * Int.tdiv CLOCK_FREQ 8 = CLOCK_FREQ := by
  refine ⟨fun h => ?_, fun h h1 h2 => ?_, fun h => ⟨?_, ?_⟩, by decide, by decide⟩
  · rw [(Demux_time mem d).1, h]
    simp
  · rw [Demux_time_of_range mem d (Or.inr ⟨h1, h2⟩), h]
    simp
  · rw [(Demux_time mem d).1, h]
    simp
  · obtain ⟨_, _, _, hs, _⟩ := Demux_loop_spec mem d.p_sys.i_next_demux_time
      (d.p_sys.cues.i_count - d.p_sys.cues.i_current) d
    rw [Demux_fst, hs, if_pos h]
    exact Demux_loop_pcrs mem _ _ d h

theorem Demux_loop_cursor_indep (mem mem' : Nat → alloc_outcome) (i_barrier : Int) :
    ∀ (fuel : Nat) (d d' : demux_t),
      d'.p_sys.cues.p_array = d.p_sys.cues.p_array →
      d'.p_sys.cues.i_current = d.p_sys.cues.i_current →
      (Demux_loop mem' i_barrier fuel d').p_sys.cues.i_current =
        (Demux_loop mem i_barrier fuel d).p_sys.cues.i_current := by
  intro fuel
  induction fuel with
  | zero =>
    intro d d' _ hcur
    simpa [Demux_loop] using hcur
  | succ n ih =>
    intro d d' harr hcur
    unfold Demux_loop
    rw [harr, hcur]
    cases hc : d.p_sys.cues.p_array[d.p_sys.cues.i_current]? with
    | none => exact hcur
    | some cue =>
      simp only
      by_cases hle : cue.i_start ≤ i_barrier
      · rw [if_pos hle, if_pos hle]
        obtain ⟨a1, a2, _⟩ := Demux_body_spec mem i_barrier cue d hc
        obtain ⟨b1, b2, _⟩ := Demux_body_spec mem' i_barrier cue d' (by rw [harr, hcur]; exact hc)
        exact ih _ _ (by rw [a1, b1, harr]) (by rw [a2, b2, hcur])
      · rw [if_neg hle, if_neg hle]
        exact hcur

theorem Demux_cursor_eq_loop (mem : Nat → alloc_outcome) (d : demux_t) :
    (Demux mem d).1.p_sys.cues.i_current =
      (Demux_loop mem d.p_sys.i_next_demux_time
        (d.p_sys.cues.i_count - d.p_sys.cues.i_current) d).p_sys.cues.i_current := by
  rw [Demux_fst]
  split_ifs <;> rfl

/-- The cursor after a pull and the status the pull returns do not depend on the outcome
of the allocations made when encoding. -/
theorem Demux_cursor_indep (mem mem' : Nat → alloc_outcome) (d : demux_t) :
    (Demux mem' d).1.p_sys.cues.i_current = (Demux mem d).1.p_sys.cues.i_current ∧
    (Demux mem' d).2 = (Demux mem d).2 := by
  have h : (Demux mem' d).1.p_sys.cues.i_current = (Demux mem d).1.p_sys.cues.i_current := by
    rw [Demux_cursor_eq_loop, Demux_cursor_eq_loop]
    exact Demux_loop_cursor_indep mem mem' _ _ d d rfl rfl
  refine ⟨h, ?_⟩
  rw [Demux_snd, Demux_snd, Demux_i_count, Demux_i_count, h]

/-- A pull whose barrier has reached the cue at the cursor moves the cursor past it. -/
theorem Demux_passes_cursor (mem : Nat → alloc_outcome) (d : demux_t) (cue : webvtt_cue_t)
    (hc : d.p_sys.cues.p_array[d.p_sys.cues.i_current]? = some cue)
    (hle : cue.i_start ≤ d.p_sys.i_next_demux_time) :
    d.p_sys.cues.i_current < (Demux mem d).1.p_sys.cues.i_current := by
  have hlt : d.p_sys.cues.i_current < d.p_sys.cues.p_array.length :=
    (List.getElem?_eq_some.mp hc).1
  rw [Demux_cursor_eq_loop]
  obtain ⟨n, hn⟩ : ∃ n, d.p_sys.cues.i_count - d.p_sys.cues.i_current = n + 1 :=
    ⟨d.p_sys.cues.i_count - d.p_sys.cues.i_current - 1, by
      unfold cue_array.i_count; omega⟩
  rw [hn]
  unfold Demux_loop
  simp only [hc]
  rw [if_pos hle]
  have h1 := (Demux_loop_spec mem d.p_sys.i_next_demux_time n
    (Demux_body mem d.p_sys.i_next_demux_time cue d)).2.1
  rw [(Demux_body_spec mem d.p_sys.i_next_demux_time cue d hc).2.1] at h1
  omega

/-- The records of a pull that passes a cue which gets no record: they are the records of
the cues passed after it that get one, and the pending flags go to the first of them. -/
theorem Demux_skips_cursor (mem : Nat → alloc_outcome) (d : demux_t)
    (hlt : d.p_sys.cues.i_current < (Demux mem d).1.p_sys.cues.i_current)
    (hnd : delivered mem d.p_sys.cues.p_array d.p_sys.cues.i_current = false) :
    ∃ evs, (Demux mem d).1.out = d.out ++ evs ∧
      List.Forall₂ (IsRecordOf d.p_sys.cues.p_array) (sent evs)
        ((List.range' (d.p_sys.cues.i_current + 1)
            ((Demux mem d).1.p_sys.cues.i_current - (d.p_sys.cues.i_current + 1))).filter
          (delivered mem d.p_sys.cues.p_array)) ∧
      FlagsOnce d.p_sys.i_next_block_flags (sent evs)
        (Demux mem d).1.p_sys.i_next_block_flags := by
  obtain ⟨_, _, _, _, evs, hout, hrec⟩ := Demux_spec mem d
  obtain ⟨evs', hout', hflags⟩ := Demux_flags mem d
  have hevs : evs' = evs := List.append_cancel_left (hout'.symm.trans hout)
  subst hevs
  refine ⟨evs', hout, ?_, hflags⟩
  obtain ⟨m, hm⟩ : ∃ m, (Demux mem d).1.p_sys.cues.i_current - d.p_sys.cues.i_current = m + 1 :=
    ⟨(Demux mem d).1.p_sys.cues.i_current - d.p_sys.cues.i_current - 1, by omega⟩
  have hm' : (Demux mem d).1.p_sys.cues.i_current - (d.p_sys.cues.i_current + 1) = m := by
    omega
  rw [hm, List.range'_succ, List.filter_cons_of_neg (by simp [hnd])] at hrec
  rw [hm']
  exact hrec

/-- C26: per-cue encode failure is swallowed.  When the loop of a pull has reached the cue
at the cursor and `ConvertWEBVTT` yields no block for it, the pull moves the cursor past
it, hands the sink no record for it, goes on: its records are those of the cues passed
after it that get one, and the pending flags go to the first of these records, or stay
pending when there is none; the cursor after the pull and the status returned are those
of the pull in which every allocation succeeds. -/
theorem Demux_swallows_encode_failure (mem : Nat → alloc_outcome) (d : demux_t)
    (cue : webvtt_cue_t)
    (hc : d.p_sys.cues.p_array[d.p_sys.cues.i_current]? = some cue)
    (hle : cue.i_start ≤ d.p_sys.i_next_demux_time)
    (hfail : ConvertWEBVTT (mem d.p_sys.cues.i_current) cue
      (decide (d.p_sys.cues.i_current > 0)) = none) :
    d.p_sys.cues.i_current < (Demux mem d).1.p_sys.cues.i_current ∧
    (∃ evs, (Demux mem d).1.out = d.out ++ evs ∧
      List.Forall₂ (IsRecordOf d.p_sys.cues.p_array) (sent evs)
        ((List.range' (d.p_sys.cues.i_current + 1)
            ((Demux mem d).1.p_sys.cues.i_current - (d.p_sys.cues.i_current + 1))).filter
          (delivered mem d.p_sys.cues.p_array)) ∧
      FlagsOnce d.p_sys.i_next_block_flags (sent evs)
        (Demux mem d).1.p_sys.i_next_block_flags) ∧
    (Demux mem d).1.p_sys.cues.i_current =
      (Demux (fun _ => mem_ok) d).1.p_sys.cues.i_current ∧
    (Demux mem d).2 = (Demux (fun _ => mem_ok) d).2 := by
  have hnd : delivered mem d.p_sys.cues.p_array d.p_sys.cues.i_current = false := by
    rw [ConvertWEBVTT_eq] at hfail
    simp only [delivered, hc]
    split_ifs at hfail with hall
    simp only [Bool.and_eq_false_iff]
    by_contra hcon
    apply hall
    simp only [not_or, Bool.not_eq_false] at hcon
    exact ⟨hcon.2.1, hcon.2.2.1, hcon.2.2.2⟩
  have hlt := Demux_passes_cursor mem d cue hc hle
  exact ⟨hlt, Demux_skips_cursor mem d hlt hnd,
    (Demux_cursor_indep (fun _ => mem_ok) mem d).1,
    (Demux_cursor_indep (fun _ => mem_ok) mem d).2⟩

/-- C26 at scenario D: after a seek to 400000 the cursor is at the cue starting at 400000
with the discontinuity flag pending; the clock is at 600000 and the buffer of that cue
cannot be allocated.  The pull delivers the cue starting at 600000 only, with the flag,
passes both cues and returns the status of the pull in which every allocation succeeds. -/
theorem Demux_swallows_encode_failure_witness :
    ConvertWEBVTT (mem_fail_at_1 1)
      { i_start := 400000, i_stop := 500000, psz_id := none, psz_text := [66],
        psz_attrs := none } true = none ∧
    (sent (Demux mem_fail_at_1 scenarioD_seek_then_600000).1.out).map
      (fun b => (b.i_pts, b.i_flags)) = [(600001, 1)] ∧
    (sent (Demux (fun _ => mem_ok) scenarioD_seek_then_600000).1.out).map
      (fun b => (b.i_pts, b.i_flags)) = [(400001, 1), (600001, 0)] ∧
    (Demux mem_fail_at_1 scenarioD_seek_then_600000).1.p_sys.cues.i_current = 3 ∧
    scenarioD_seek_then_600000.p_sys.cues.i_current <
      (Demux mem_fail_at_1 scenarioD_seek_then_600000).1.p_sys.cues.i_current ∧
    (Demux mem_fail_at_1 scenarioD_seek_then_600000).2 =
      (Demux (fun _ => mem_ok) scenarioD_seek_then_600000).2 :=
  ⟨by decide, by decide, by decide, by decide,
    (Demux_swallows_encode_failure mem_fail_at_1 scenarioD_seek_then_600000
      { i_start := 400000, i_stop := 500000, psz_id := none, psz_text := [66],
        psz_attrs := none } (by decide) (by decide) (by decide)).1,
    (Demux_swallows_encode_failure mem_fail_at_1 scenarioD_seek_then_600000
      { i_start := 400000, i_stop := 500000, psz_id := none, psz_text := [66],
        psz_attrs := none } (by decide) (by decide) (by decide)).2.2.2⟩

/-- C30: a cue whose start is negative is never encoded or delivered.  When the loop of a
pull reaches such a cue, the iteration hands the sink no record, moves the cursor one
step, leaves the pending flags as they were and does not depend on the outcome of any
allocation; the pull moves the cursor past the cue, its records are those of the cues
passed after it that get one, and the pending flags go to the first of these records, or
stay pending when there is none. -/
theorem Demux_skips_negative_start (mem : Nat → alloc_outcome) (d : demux_t)
    (cue : webvtt_cue_t)
    (hc : d.p_sys.cues.p_array[d.p_sys.cues.i_current]? = some cue)
    (hneg : cue.i_start < 0) (hle : cue.i_start ≤ d.p_sys.i_next_demux_time) :
    sent (Demux_body mem d.p_sys.i_next_demux_time cue d).out = sent d.out ∧
    (Demux_body mem d.p_sys.i_next_demux_time cue d).p_sys.cues.i_current =
      d.p_sys.cues.i_current + 1 ∧
    (Demux_body mem d.p_sys.i_next_demux_time cue d).p_sys.i_next_block_flags =
      d.p_sys.i_next_block_flags ∧
    (∀ mem2 : Nat → alloc_outcome, Demux_body mem2 d.p_sys.i_next_demux_time cue d =
      Demux_body mem d.p_sys.i_next_demux_time cue d) ∧
    d.p_sys.cues.i_current < (Demux mem d).1.p_sys.cues.i_current ∧
    (∃ evs, (Demux mem d).1.out = d.out ++ evs ∧
      List.Forall₂ (IsRecordOf d.p_sys.cues.p_array) (sent evs)
        ((List.range' (d.p_sys.cues.i_current + 1)
            ((Demux mem d).1.p_sys.cues.i_current - (d.p_sys.cues.i_current + 1))).filter
          (delivered mem d.p_sys.cues.p_array)) ∧
      FlagsOnce d.p_sys.i_next_block_flags (sent evs)
        (Demux mem d).1.p_sys.i_next_block_flags) := by
  have hnot : ¬ cue.i_start ≥ 0 := by omega
  have hnd : delivered mem d.p_sys.cues.p_array d.p_sys.cues.i_current = false := by
    have : ¬ 0 ≤ cue.i_start := by omega
    simp [delivered, hc, this]
  have hlt := Demux_passes_cursor mem d cue hc hle
  refine ⟨?_, ?_, ?_, ?_, hlt, Demux_skips_cursor mem d hlt hnd⟩
  · simp only [Demux_body, es_out_SetPCR, if_neg hnot]
    split_ifs <;> simp [sent_append, sent]
  · simp only [Demux_body, es_out_SetPCR, if_neg hnot]
    split_ifs <;> rfl
  · simp only [Demux_body, es_out_SetPCR, if_neg hnot]
    split_ifs <;> rfl
  · intro mem2
    simp only [Demux_body, es_out_SetPCR, if_neg hnot]

/-- C30 at a store whose first cue starts at -1 and whose second starts at 0, pulled from
the clock 0 with the discontinuity flag pending: the only record is that of the second
cue, and it carries the flag. -/
theorem Demux_skips_negative_start_witness :
    negative_start_pending.p_sys.cues.p_array[negative_start_pending.p_sys.cues.i_current]? =
      some { i_start := -1, i_stop := -1, psz_id := none, psz_text := [72],
             psz_attrs := none } ∧
    (sent (Demux (fun _ => mem_ok) negative_start_pending).1.out).map
      (fun b => (b.i_pts, b.i_flags)) = [(1, 1)] ∧
    (Demux_body (fun _ => mem_ok) negative_start_pending.p_sys.i_next_demux_time
      { i_start := -1, i_stop := -1, psz_id := none, psz_text := [72], psz_attrs := none }
      negative_start_pending).p_sys.i_next_block_flags =
        negative_start_pending.p_sys.i_next_block_flags ∧
    negative_start_pending.p_sys.cues.i_current <
      (Demux (fun _ => mem_ok) negative_start_pending).1.p_sys.cues.i_current :=
  ⟨by decide, by decide,
    (Demux_skips_negative_start (fun _ => mem_ok) negative_start_pending
      { i_start := -1, i_stop := -1, psz_id := none, psz_text := [72], psz_attrs := none }
      (by decide) (by decide) (by decide)).2.2.1,
    (Demux_skips_negative_start (fun _ => mem_ok) negative_start_pending
      { i_start := -1, i_stop := -1, psz_id := none, psz_text := [72], psz_attrs := none }
      (by decide) (by decide) (by decide)).2.2.2.2.1⟩

theorem Demux_cues_eq_loop (mem : Nat → alloc_outcome) (d : demux_t) :
    (Demux mem d).1.p_sys.cues =
      (Demux_loop mem d.p_sys.i_next_demux_time
        (d.p_sys.cues.i_count - d.p_sys.cues.i_current) d).p_sys.cues := by
  rw [Demux_fst]
  split_ifs <;> rfl

/-- C28: from a state whose cursor is within the store, after one `Demux` pull with
barrier `b` (the value of `i_next_demux_time` on entry) either `i_current` is the count or
the cue at `i_current` starts after `b`; every index the pull moved past, from the old
`i_current` up to the new one, holds a cue, and that cue starts at or before `b`.  The
store need not be sorted. -/
theorem Demux_stops_at_barrier (mem : Nat → alloc_outcome) (d : demux_t)
    (h0 : d.p_sys.cues.i_current ≤ d.p_sys.cues.i_count) :
    ((Demux mem d).1.p_sys.cues.i_current = (Demux mem d).1.p_sys.cues.i_count ∨
      ∃ cue, (Demux mem d).1.p_sys.cues.p_array[(Demux mem d).1.p_sys.cues.i_current]? =
          some cue ∧ d.p_sys.i_next_demux_time < cue.i_start) ∧
    (∀ i, d.p_sys.cues.i_current ≤ i → i < (Demux mem d).1.p_sys.cues.i_current →
      ∃ cue, (Demux mem d).1.p_sys.cues.p_array[i]? = some cue ∧
        cue.i_start ≤ d.p_sys.i_next_demux_time) := by
  obtain ⟨harr, _, hle, hpassed, _⟩ := Demux_spec mem d
  have hle' := hle h0
  constructor
  · have hexit := Demux_loop_exit mem d.p_sys.i_next_demux_time
      (d.p_sys.cues.i_count - d.p_sys.cues.i_current) d (le_refl _)
    rw [← Demux_cues_eq_loop] at hexit
    cases hc : (Demux mem d).1.p_sys.cues.p_array[(Demux mem d).1.p_sys.cues.i_current]? with
    | none =>
      left
      rw [List.getElem?_eq_none_iff] at hc
      rw [Demux_i_count]
      rw [harr] at hc
      unfold cue_array.i_count at hle' ⊢
      omega
    | some cue =>
      right
      rw [hc] at hexit
      exact ⟨cue, rfl, hexit⟩
  · intro i hi1 hi2
    have hlen : i < d.p_sys.cues.p_array.length := by
      unfold cue_array.i_count at hle'
      omega
    rw [harr]
    exact ⟨_, List.getElem?_eq_getElem hlen,
      hpassed i _ hi1 hi2 (List.getElem?_eq_getElem hlen)⟩

/-- C28 at the three-cue store (starts 0, 400000, 600000) pulled from the clock 400000:
the cursor stops at the cue starting at 600000. -/
theorem Demux_stops_at_barrier_witness :
    (demux_at three_cues 400000).p_sys.cues.i_current ≤
      (demux_at three_cues 400000).p_sys.cues.i_count ∧
    (Demux (fun _ => mem_ok) (demux_at three_cues 400000)).1.p_sys.cues.i_current = 2 ∧
    ((Demux (fun _ => mem_ok) (demux_at three_cues 400000)).1.p_sys.cues.i_current =
        (Demux (fun _ => mem_ok) (demux_at three_cues 400000)).1.p_sys.cues.i_count ∨
      ∃ cue, (Demux (fun _ => mem_ok) (demux_at three_cues 400000)).1.p_sys.cues.p_array[
          (Demux (fun _ => mem_ok) (demux_at three_cues 400000)).1.p_sys.cues.i_current]? =
            some cue ∧ (demux_at three_cues 400000).p_sys.i_next_demux_time < cue.i_start) :=
  ⟨by decide, by decide,
    (Demux_stops_at_barrier (fun _ => mem_ok) (demux_at three_cues 400000) (by decide)).1⟩

/-! ## Theorems: seek index on strictly increasing starts, seek in bounds -/

theorem countP_eq_of_split (cs : List webvtt_cue_t) (t : Int) (i : Nat) (hi : i ≤ cs.length)
    (hlo : ∀ j c, cs[j]? = some c → j < i → c.i_start < t)
    (hhi : ∀ j c, cs[j]? = some c → i ≤ j → t ≤ c.i_start) :
    cs.countP (fun c => decide (c.i_start < t)) = i := by
  have h1 : (cs.take i).countP (fun c => decide (c.i_start < t)) = (cs.take i).length := by
    rw [List.countP_eq_length]
    intro a ha
    obtain ⟨j, hj⟩ := List.getElem?_of_mem ha
    have hji : j < i := by
      have := (List.getElem?_eq_some.mp hj).1
      rw [List.length_take] at this
      omega
    rw [List.getElem?_take_of_lt hji] at hj
    simpa using hlo j a hj hji
  have h2 : (cs.drop i).countP (fun c => decide (c.i_start < t)) = 0 := by
    rw [List.countP_eq_zero]
    intro a ha
    obtain ⟨j, hj⟩ := List.getElem?_of_mem ha
    rw [List.getElem?_drop] at hj
    have := hhi (i + j) a hj (by omega)
    simpa using this
  have h3 : cs.countP (fun c => decide (c.i_start < t)) =
      (cs.take i).countP (fun c => decide (c.i_start < t)) +
        (cs.drop i).countP (fun c => decide (c.i_start < t)) := by
    rw [← List.countP_append, List.take_append_drop]
  rw [h3, h1, h2, List.length_take]
  omega

theorem strictly_sorted_getElem?_lt {cs : List webvtt_cue_t} (hs : StrictlySortedByStart cs)
    {i j : Nat} {a b : webvtt_cue_t} (hi : cs[i]? = some a) (hj : cs[j]? = some b)
    (hij : i < j) : a.i_start < b.i_start := by
  obtain ⟨hi', rfl⟩ := List.getElem?_eq_some.mp hi
  obtain ⟨hj', rfl⟩ := List.getElem?_eq_some.mp hj
  exact List.pairwise_iff_getElem.mp hs i j hi' hj' hij

theorem sorted_of_strictly_sorted {cs : List webvtt_cue_t} (hs : StrictlySortedByStart cs) :
    SortedByStart cs :=
  List.Pairwise.imp (fun h => le_of_lt h) hs

/-- Counterexample to C27 as stated: the store of one cue starting at -2 has strictly
increasing starts, and one cue starts strictly before `INT64_MAX`; the `int64_t`
difference of the two wraps around, and `cue_GetIndexByTime` returns 0, not 1. -/
theorem cue_GetIndexByTime_strict_wraps :
    StrictlySortedByStart (store [cue_starting_at (-2)]).cues.p_array ∧
    (store [cue_starting_at (-2)]).cues.p_array.countP
      (fun c => decide (c.i_start < INT64_MAX)) = 1 ∧
    cue_Compare (cue_starting_at INT64_MAX) (cue_starting_at (-2)) = -1 ∧
    cue_GetIndexByTime (store [cue_starting_at (-2)]) INT64_MAX = 0 ∧
    ¬ cue_GetIndexByTime (store [cue_starting_at (-2)]) INT64_MAX =
      (store [cue_starting_at (-2)]).cues.p_array.countP
        (fun c => decide (c.i_start < INT64_MAX)) := by
  refine ⟨by unfold StrictlySortedByStart store; decide, by decide, by decide, by decide,
    by decide⟩

/-- C27 (as amended): on a store whose starts are strictly increasing (so pairwise
distinct), for every time `t` whose differences with the starts fit in `int64_t`,
`cue_GetIndexByTime` over the halving `bsearch` returns exactly the number of cues whose
start is strictly less than `t`, which is the smallest index whose cue starts at or after
`t`, or the count when there is none. -/
theorem cue_GetIndexByTime_strict (p_sys : demux_sys_t) (t : Int)
    (hs : StrictlySortedByStart p_sys.cues.p_array)
    (hr : DiffsInRange p_sys.cues.p_array t) :
    cue_GetIndexByTime p_sys t =
      p_sys.cues.p_array.countP (fun c => decide (c.i_start < t)) ∧
    IsFirstIndexAtOrAfter p_sys.cues.p_array t (cue_GetIndexByTime p_sys t) ∧
    (∀ j c, p_sys.cues.p_array[j]? = some c → cue_GetIndexByTime p_sys t ≤ j →
      t ≤ c.i_start) := by
  have hs' := sorted_of_strictly_sorted hs
  have key : cue_GetIndexByTime p_sys t ≤ p_sys.cues.p_array.length ∧
      (∀ j c, p_sys.cues.p_array[j]? = some c → j < cue_GetIndexByTime p_sys t →
        c.i_start < t) ∧
      (∀ j c, p_sys.cues.p_array[j]? = some c → cue_GetIndexByTime p_sys t ≤ j →
        t ≤ c.i_start) := by
    rcases cue_GetIndexByTime_cases p_sys t hs' hr with ⟨c, hc, hct⟩ | ⟨hle, hlo, hhi⟩
    · refine ⟨le_of_lt (List.getElem?_eq_some.mp hc).1, ?_, ?_⟩
      · intro j a ha hj
        have := strictly_sorted_getElem?_lt hs ha hc hj
        omega
      · intro j a ha hj
        have := sorted_getElem?_le hs' hc ha hj
        omega
    · exact ⟨hle, hlo, fun j a ha hj => le_of_lt (hhi j a ha hj)⟩
  obtain ⟨hle, hlo, hhi⟩ := key
  exact ⟨(countP_eq_of_split _ t _ hle hlo hhi).symm,
    ⟨hle, hlo, fun c hc => hhi _ c hc (le_refl _)⟩, hhi⟩

/-- C27 (as amended) at the three-cue store (starts 0, 400000, 600000) and `t = 400000`:
one cue starts before `t`, and the index returned is 1. -/
theorem cue_GetIndexByTime_strict_witness :
    StrictlySortedByStart (store three_cues).cues.p_array ∧
    DiffsInRange (store three_cues).cues.p_array 400000 ∧
    (store three_cues).cues.p_array.countP (fun c => decide (c.i_start < 400000)) = 1 ∧
    cue_GetIndexByTime (store three_cues) 400000 =
      (store three_cues).cues.p_array.countP (fun c => decide (c.i_start < 400000)) :=
  ⟨by unfold StrictlySortedByStart store; decide, by unfold DiffsInRange store; decide,
    by decide,
    (cue_GetIndexByTime_strict (store three_cues) 400000
      (by unfold StrictlySortedByStart store; decide)
      (by unfold DiffsInRange store; decide)).1⟩

/-- Counterexample to C29 as stated: the store of one cue starting at `INT64_MAX` is
sorted and not empty, and its cue starts at or after `t = -2`; both `int64_t` differences
of the two wrap around, `cue_GetIndexByTime` returns 1, the count, and `DEMUX_SET_TIME`
reads the slot after the last cue: the cursor is not below the count, and the call
faults or stores whatever that read yields as the clock. -/
theorem SetTime_out_of_bounds :
    SortedByStart (store [cue_starting_at INT64_MAX]).cues.p_array ∧
    (∃ c ∈ (store [cue_starting_at INT64_MAX]).cues.p_array, (-2 : Int) ≤ c.i_start) ∧
    cue_GetIndexByTime (store [cue_starting_at INT64_MAX]) (-2) = 1 ∧
    (store [cue_starting_at INT64_MAX]).cues.i_count = 1 ∧
    Control none (demux_at [cue_starting_at INT64_MAX] 0) (demux_query.DEMUX_SET_TIME (-2)) =
      none ∧
    (Control (some 42) (demux_at [cue_starting_at INT64_MAX] 0)
      (demux_query.DEMUX_SET_TIME (-2))).map
        (fun r => (r.1.p_sys.cues.i_current, r.1.p_sys.i_next_demux_time, r.2.1)) =
      some (1, 42, VLC_SUCCESS) := by
  refine ⟨by unfold SortedByStart store; decide, by decide, by decide, by decide, by decide,
    by decide⟩

/-- C29 (as amended): on a sorted store in which some cue starts at or after `t` (so the
store is not empty), for a time `t` whose differences with the starts fit in `int64_t`,
the query `DEMUX_SET_TIME` with `t` reads the cue array in bounds: whatever a read past
the last cue would yield, it succeeds, the resulting `i_current` is the index
`cue_GetIndexByTime` returns and is strictly less than the count, and the resulting
`i_next_demux_time` is the start of the cue at `i_current`, which is at or after `t`. -/
theorem SetTime_in_bounds (past_end : Option Int) (d : demux_t) (t : Int)
    (hs : SortedByStart d.p_sys.cues.p_array)
    (hr : DiffsInRange d.p_sys.cues.p_array t)
    (hex : ∃ c ∈ d.p_sys.cues.p_array, t ≤ c.i_start) :
    ∃ d1 cue, Control past_end d (demux_query.DEMUX_SET_TIME t) =
        some (d1, VLC_SUCCESS, control_reply.nothing) ∧
      d1.p_sys.cues.p_array = d.p_sys.cues.p_array ∧
      d1.p_sys.cues.i_current = cue_GetIndexByTime d.p_sys t ∧
      d1.p_sys.cues.i_current < d1.p_sys.cues.i_count ∧
      d1.p_sys.cues.p_array[d1.p_sys.cues.i_current]? = some cue ∧
      d1.p_sys.i_next_demux_time = cue.i_start ∧ t ≤ cue.i_start := by
  have hcue : ∃ cue, d.p_sys.cues.p_array[cue_GetIndexByTime d.p_sys t]? = some cue ∧
      t ≤ cue.i_start := by
    rcases cue_GetIndexByTime_cases d.p_sys t hs hr with ⟨c, hc, hct⟩ | ⟨hle, hlo, hhi⟩
    · exact ⟨c, hc, by omega⟩
    · obtain ⟨c, hc, hct⟩ := hex
      obtain ⟨j, hj⟩ := List.getElem?_of_mem hc
      have hij : cue_GetIndexByTime d.p_sys t ≤ j := by
        by_contra hcon
        have := hlo j c hj (by omega)
        omega
      have hjlen := (List.getElem?_eq_some.mp hj).1
      have hlen : cue_GetIndexByTime d.p_sys t < d.p_sys.cues.p_array.length := by omega
      exact ⟨_, List.getElem?_eq_getElem hlen,
        le_of_lt (hhi _ _ (List.getElem?_eq_getElem hlen) (le_refl _))⟩
  obtain ⟨cue, hcue, hge⟩ := hcue
  have hlen := (List.getElem?_eq_some.mp hcue).1
  refine ⟨{ d with p_sys := { d.p_sys with
      cues := { d.p_sys.cues with i_current := cue_GetIndexByTime d.p_sys t },
      b_first_time := true,
      i_next_demux_time := cue.i_start,
      i_next_block_flags := d.p_sys.i_next_block_flags ||| BLOCK_FLAG_DISCONTINUITY } },
    cue, ?_, ?_, ?_, ?_, ?_, ?_, hge⟩
  · simp only [Control, Control_seek, hcue]
  · rfl
  · rfl
  · exact hlen
  · exact hcue
  · rfl

/-- C29 (as amended) at scenario D (starts 0, 400000, 600000) and `t = 500000`: the
cursor goes to index 2 and the clock to 600000. -/
theorem SetTime_in_bounds_witness :
    SortedByStart scenarioD.p_sys.cues.p_array ∧
    DiffsInRange scenarioD.p_sys.cues.p_array 500000 ∧
    (∃ c ∈ scenarioD.p_sys.cues.p_array, (500000 : Int) ≤ c.i_start) ∧
    (Control none scenarioD (demux_query.DEMUX_SET_TIME 500000)).map
      (fun r => (r.1.p_sys.cues.i_current, r.1.p_sys.i_next_demux_time, r.2.1)) =
        some (2, 600000, VLC_SUCCESS) ∧
    ∃ d1 cue, Control none scenarioD (demux_query.DEMUX_SET_TIME 500000) =
        some (d1, VLC_SUCCESS, control_reply.nothing) ∧
      d1.p_sys.cues.p_array = scenarioD.p_sys.cues.p_array ∧
      d1.p_sys.cues.i_current = cue_GetIndexByTime scenarioD.p_sys 500000 ∧
      d1.p_sys.cues.i_current < d1.p_sys.cues.i_count ∧
      d1.p_sys.cues.p_array[d1.p_sys.cues.i_current]? = some cue ∧
      d1.p_sys.i_next_demux_time = cue.i_start ∧ 500000 ≤ cue.i_start :=
  ⟨by unfold SortedByStart scenarioD store; decide,
    by unfold DiffsInRange scenarioD store; decide, by decide, by decide,
    SetTime_in_bounds none scenarioD 500000
      (by unfold SortedByStart scenarioD store; decide)
      (by unfold DiffsInRange scenarioD store; decide) (by decide)⟩

/-! ## Theorems: set-position on an empty store -/

/-- C31: on an empty cue store (`i_count == 0`) the query `DEMUX_SET_POSITION` is declined
with `VLC_EGENERIC` for every fraction, stores nothing and leaves the whole demuxer state
as it was; in particular `i_current`, `i_next_demux_time`, `b_first_time` and
`i_next_block_flags` keep their values and nothing is handed to the sink. -/
theorem SetPosition_empty_declined (past_end : Option Int) (d : demux_t) (f : ℚ)
    (hempty : d.p_sys.cues.i_count = 0) :
    Control past_end d (demux_query.DEMUX_SET_POSITION f) =
      some (d, VLC_EGENERIC, control_reply.nothing) ∧
    ∀ d1 ret rep, Control past_end d (demux_query.DEMUX_SET_POSITION f) = some (d1, ret, rep) →
      ret = VLC_EGENERIC ∧ d1 = d ∧
      d1.p_sys.cues.i_current = d.p_sys.cues.i_current ∧
      d1.p_sys.i_next_demux_time = d.p_sys.i_next_demux_time ∧
      d1.p_sys.b_first_time = d.p_sys.b_first_time ∧
      d1.p_sys.i_next_block_flags = d.p_sys.i_next_block_flags ∧
      d1.out = d.out := by
  have h : Control past_end d (demux_query.DEMUX_SET_POSITION f) =
      some (d, VLC_EGENERIC, control_reply.nothing) := by
    simp only [Control, hempty, ne_eq, not_true_eq_false, if_false]
  refine ⟨h, ?_⟩
  intro d1 ret rep h1
  rw [h] at h1
  simp only [Option.some.injEq, Prod.mk.injEq] at h1
  obtain ⟨rfl, rfl, _⟩ := h1
  exact ⟨rfl, rfl, rfl, rfl, rfl, rfl, rfl⟩

/-- C31 at the demuxer `OpenDemux` sets up before any cue is read, with the first-delivery
mark set, and the fraction 1/2: the query is declined and the state is the same. -/
theorem SetPosition_empty_declined_witness :
    (OpenDemux_init true).p_sys.cues.i_count = 0 ∧
    Control none (OpenDemux_init true) (demux_query.DEMUX_SET_POSITION (1 / 2)) =
      some (OpenDemux_init true, VLC_EGENERIC, control_reply.nothing) :=
  ⟨by decide,
    (SetPosition_empty_declined none (OpenDemux_init true) (1 / 2) (by decide)).1⟩

end WebVTT
